import Mathlib

/-! ImLottie renderer: shallow embedding and verified properties.

The definitions below follow `imlottie_renderer.cpp` and
`imlottie_backend_rlottie.cpp` function by function.

Conventions of the embedding:

* byte buffers (`uint8_t*`, `vector<uint8_t>`) are `List Nat`; a read outside the
  buffer yields `0` and a write outside it is dropped;
* `double` values are IEEE 754 binary64 values (`Dbl`), with `+`, `-`, `/` rounded to
  nearest, ties to even, and the comparisons of IEEE 754 (false on a NaN);
* the two `float` components of an `ImVec2`, which the renderer only copies and
  converts to `int`, are rationals (`ℚ`);
* machine integers are `Nat`/`Int`, with the C++ conversions written out as
  `u8`, `toU16`, `toU32`, `toI32`, `toSizeT`;
* `std::unordered_map<ImGuiID, Track>` is an association list with one entry per key;
* the rlottie library is a parameter (`Rlottie`);
* OpenGL and ImGui calls are recorded, in order, in a call log (`Gfx`);
* a function whose C++ execution may fail to give a result returns an `Option`, `none`
  standing for: an uncaught exception; undefined behaviour (overflow of `int`
  arithmetic, a `float` converted to `int` out of range); or a `while` loop that has
  not exited after `fuel` runs of its body.
-/

namespace ImLottie

/-! ## Integer conversions -/

/-- The conversion `(uint8_t)x` of a non-negative `int`. -/
def u8 (x : Nat) : Nat := x % 256

/-- The conversion `(uint16_t)x` of a `size_t`. -/
def toU16 (x : Nat) : Nat := x % 65536

/-- The conversion `(uint32_t)x` of an `int`. -/
def toU32 (x : Int) : Nat := (x % 4294967296).toNat

/-- The conversion `(int)x` of a `uint32_t`. -/
def toI32 (x : Nat) : Int :=
  if x % 4294967296 < 2147483648 then ((x % 4294967296 : Nat) : Int)
  else ((x % 4294967296 : Nat) : Int) - 4294967296

/-- The conversion `(size_t)x` of an `int` (64-bit `size_t`). -/
def toSizeT (x : Int) : Nat := (x % 18446744073709551616).toNat

/-- The conversion `(int)x` of a `float`: truncation toward zero. The C++ conversion is
defined only when the result is in the range of `int` (see `inInt`). -/
def truncInt (q : ℚ) : Int := Int.tdiv q.num (q.den : Int)

/-- Is the integer in the range of a 32-bit `int`? -/
def inInt (x : Int) : Prop := -2147483648 ≤ x ∧ x < 2147483648

instance inIntDecidable (x : Int) : Decidable (inInt x) :=
  inferInstanceAs (Decidable (-2147483648 ≤ x ∧ x < 2147483648))

/-! ## Doubles (IEEE 754 binary64) -/

/-- A C++ `double`. The value `fin neg m` is the finite number `(-1)^neg * m * 2^(-1074)`:
magnitudes are counted in units of the smallest subnormal, so that every finite double
has this form, with `m = n * 2^s` for some `n < 2^53`, and `m < 2^2098`. The value
`fin true 0` is `-0.0`, `inf neg` is an infinity and `nan` is a NaN. -/
inductive Dbl where
  | fin (neg : Bool) (m : Nat)
  | inf (neg : Bool)
  | nan
deriving DecidableEq

/-- Number of binary digits of `n`, taken 64 at a time while `n ≥ 2^64`; the first
argument bounds the number of steps (`n` itself is enough). -/
def Dbl.bits : Nat → Nat → Nat
  | 0, _ => 0
  | fuel + 1, n =>
    if n = 0 then 0
    else if n < 18446744073709551616 then Dbl.bits fuel (n / 2) + 1
    else Dbl.bits fuel (n / 18446744073709551616) + 64

/-- Rounding to nearest, ties to even, of the non-negative rational `num / den` (in units
of `2^(-1074)`) to a 53-bit significand: with `s` the number of digits of the integer
part beyond 53, the result is the multiple of `2^s` nearest to `num / den`. -/
def Dbl.rnd (num den : Nat) : Nat :=
  let s := Dbl.bits (num / den) (num / den) - 53
  let D := den * 2 ^ s
  let m := num / D
  let r := num % D
  (if D < 2 * r ∨ (2 * r = D ∧ m % 2 = 1) then m + 1 else m) * 2 ^ s

/-- The double of sign `neg` and rounded magnitude `m`: an infinity from `2^1024` on. -/
def Dbl.pack (neg : Bool) (m : Nat) : Dbl :=
  if m < 2 ^ 2098 then Dbl.fin neg m else Dbl.inf neg

/-- Unary minus. -/
def Dbl.neg : Dbl → Dbl
  | Dbl.fin s m => Dbl.fin (!s) m
  | Dbl.inf s => Dbl.inf (!s)
  | Dbl.nan => Dbl.nan

/-- The sum `a + b`. -/
def Dbl.add : Dbl → Dbl → Dbl
  | Dbl.fin s1 m1, Dbl.fin s2 m2 =>
    if s1 = s2 then Dbl.pack s1 (Dbl.rnd (m1 + m2) 1)
    else if m1 = m2 then Dbl.fin false 0
    else if m2 < m1 then Dbl.pack s1 (Dbl.rnd (m1 - m2) 1)
    else Dbl.pack s2 (Dbl.rnd (m2 - m1) 1)
  | Dbl.fin _ _, Dbl.inf s => Dbl.inf s
  | Dbl.inf s, Dbl.fin _ _ => Dbl.inf s
  | Dbl.inf s1, Dbl.inf s2 => if s1 = s2 then Dbl.inf s1 else Dbl.nan
  | _, _ => Dbl.nan

/-- The difference `a - b`. -/
def Dbl.sub (a b : Dbl) : Dbl := Dbl.add a (Dbl.neg b)

/-- The quotient `a / b`. -/
def Dbl.div : Dbl → Dbl → Dbl
  | Dbl.fin s1 m1, Dbl.fin s2 m2 =>
    if m2 = 0 then (if m1 = 0 then Dbl.nan else Dbl.inf (xor s1 s2))
    else Dbl.pack (xor s1 s2) (Dbl.rnd (m1 * 2 ^ 1074) m2)
  | Dbl.fin s1 _, Dbl.inf s2 => Dbl.fin (xor s1 s2) 0
  | Dbl.inf s1, Dbl.fin s2 _ => Dbl.inf (xor s1 s2)
  | _, _ => Dbl.nan

/-- Position of a double on the number line, in units of `2^(-1074)` (the infinities at
`± 2^2098`); a NaN has none. -/
def Dbl.key : Dbl → Option Int
  | Dbl.fin s m => some (if s then -(m : Int) else (m : Int))
  | Dbl.inf s => some (if s then -(2 ^ 2098 : Int) else (2 ^ 2098 : Int))
  | Dbl.nan => none

/-- The comparison `a <= b`. -/
def Dbl.le (a b : Dbl) : Bool :=
  match Dbl.key a, Dbl.key b with
  | some x, some y => decide (x ≤ y)
  | _, _ => false

/-- The comparison `a < b`. -/
def Dbl.lt (a b : Dbl) : Bool :=
  match Dbl.key a, Dbl.key b with
  | some x, some y => decide (x < y)
  | _, _ => false

/-- The conversion `(double)n` of an integer. -/
def Dbl.ofInt (n : Int) : Dbl := Dbl.pack (decide (n < 0)) (Dbl.rnd (n.natAbs * 2 ^ 1074) 1)

/-- The rational value of a finite double (`0` for the others). -/
def Dbl.toRat : Dbl → ℚ
  | Dbl.fin s m => (if s then -1 else 1) * (m : ℚ) / 2 ^ 1074
  | _ => 0

instance Dbl.instAdd : Add Dbl := ⟨Dbl.add⟩

instance Dbl.instSub : Sub Dbl := ⟨Dbl.sub⟩

instance Dbl.instDiv : Div Dbl := ⟨Dbl.div⟩

instance Dbl.instLE : LE Dbl := ⟨fun a b => Dbl.le a b = true⟩

instance Dbl.instLT : LT Dbl := ⟨fun a b => Dbl.lt a b = true⟩

instance Dbl.decLE (a b : Dbl) : Decidable (a ≤ b) :=
  inferInstanceAs (Decidable (Dbl.le a b = true))

instance Dbl.decLT (a b : Dbl) : Decidable (a < b) :=
  inferInstanceAs (Decidable (Dbl.lt a b = true))

instance Dbl.instOfNat (n : Nat) : OfNat Dbl n := ⟨Dbl.ofInt n⟩

/-! ## Pixel conversion -/

/-- One iteration of the loop of `argbPremul_to_rgbaStraight`, for pixel `i`. -/
def convertPixel (dst src : List Nat) (i : Nat) : List Nat :=
  let B := src.getD (4 * i + 0) 0
  let G := src.getD (4 * i + 1) 0
  let R := src.getD (4 * i + 2) 0
  let A := src.getD (4 * i + 3) 0
  if A = 0 then
    (((dst.set (4 * i + 0) 0).set (4 * i + 1) 0).set (4 * i + 2) 0).set (4 * i + 3) 0
  else
    (((dst.set (4 * i + 0) (u8 (R * 255 / A))).set (4 * i + 1) (u8 (G * 255 / A))).set
      (4 * i + 2) (u8 (B * 255 / A))).set (4 * i + 3) A

/-- The function `argbPremul_to_rgbaStraight(dstRGBA, srcBGRA, pxCount)`: returns the
destination buffer after the loop `for (i = 0; i < pxCount; ++i)`. -/
def argbPremul_to_rgbaStraight (dst src : List Nat) (pxCount : Nat) : List Nat :=
  (List.range pxCount).foldl (fun d i => convertPixel d src i) dst

/-! ## Data model -/

/-- ImGui's `ImVec2`. -/
structure ImVec2 where
  x : ℚ
  y : ℚ
deriving DecidableEq

/-- The enumeration `CmdType`. -/
inductive CmdType where
  | LOAD_MEM
  | PLAY
  | PAUSE
  | DISCARD
deriving DecidableEq

/-- The struct `Cmd`. -/
structure Cmd where
  type : CmdType
  pid : Nat := 0
  mem : List Nat := []
deriving DecidableEq

/-- The struct `Tex`. -/
structure Tex where
  id : Nat := 0
  w : Int := 0
  h : Int := 0
deriving DecidableEq

/-- The struct `TrackState`. -/
structure TrackState where
  loop : Bool := true
  play : Bool := true
  customFps : Int := 0
  fps : Dbl := 30
  total : Nat := 0
  duration : Dbl := 0
  accum : Dbl := 0
  curFrame : Int := 0
  size : ImVec2 := ⟨200, 200⟩
  uploadedOnce : Bool := false
deriving DecidableEq

/-- The struct `Track`; `anim` is the shared pointer to the decoded animation
(`none` is the null pointer, `some a` points at rlottie animation `a`). -/
structure Track where
  anim : Option Nat := none
  st : TrackState := {}
  tex : Tex := {}
  stagingBGRA : List Nat := []
  stagingRGBA : List Nat := []
deriving DecidableEq

/-- The data members `queue` and `tracks` of the struct `Renderer`. -/
structure Renderer where
  queue : List Cmd := []
  tracks : List (Nat × Track) := []
deriving DecidableEq

/-- The rlottie library, as far as the adapter uses it: `Animation::loadFromData`,
`totalFrame`, `duration` and `renderSync` (which returns the surface buffer after
rendering the frame). -/
structure Rlottie where
  loadFromData : List Nat → Option Nat
  totalFrame : Nat → Nat
  duration : Nat → Dbl
  renderSync : Nat → Nat → Int → Int → List Nat → List Nat

/-- The OpenGL and ImGui calls the renderer makes. -/
inductive Event where
  | glDeleteTextures (id : Nat)
  | glGenTextures (id : Nat)
  | glBindTexture (id : Nat)
  | glTexParameteri
  | glPixelStorei
  | glTexImage2D (w h : Int) (pixels : List Nat)
  | glTexSubImage2D (w h : Int) (pixels : List Nat)
  | SetCursorScreenPos (pos : ImVec2)
  | Image (texId : Nat) (size : ImVec2)
deriving DecidableEq

/-- The graphics context: how many texture names `glGenTextures` has handed out, and
the calls made so far (oldest first). -/
structure Gfx where
  generated : Nat := 0
  log : List Event := []
deriving DecidableEq

/-- Record one call. -/
def Gfx.emit (g : Gfx) (e : Event) : Gfx := { g with log := g.log ++ [e] }

/-- The call `glGenTextures(1, &id)`: a fresh, non-zero texture name. -/
def Gfx.gen (g : Gfx) : Nat × Gfx :=
  (g.generated + 1,
    { generated := g.generated + 1, log := g.log ++ [Event.glGenTextures (g.generated + 1)] })

/-- Is this call the textured-quad draw call `ImGui::Image`? -/
def Event.isImage : Event → Bool
  | Event.Image _ _ => true
  | _ => false

/-- Number of textured-quad draw calls in a log. -/
def drawCalls (log : List Event) : Nat := (log.filter Event.isImage).length

/-! ## Track store -/

/-- The call `tracks.find(pid)`: the track stored under `pid`, if any. -/
def tracksFind (pid : Nat) (s : List (Nat × Track)) : Option Track := s.lookup pid

/-- The entry creation of `tracks[pid]`: a default track is inserted when `pid` is absent. -/
def tracksIndex (pid : Nat) (s : List (Nat × Track)) : List (Nat × Track) :=
  if (tracksFind pid s).isSome then s else (pid, {}) :: s

/-- Assignment through a reference to the track stored under `pid`. -/
def tracksModify (pid : Nat) (f : Track → Track) (s : List (Nat × Track)) :
    List (Nat × Track) :=
  s.map (fun kv => if kv.1 = pid then (kv.1, f kv.2) else kv)

/-- The call `tracks.erase(it)` for the entry stored under `pid`. -/
def tracksErase (pid : Nat) (s : List (Nat × Track)) : List (Nat × Track) :=
  s.filter (fun kv => kv.1 ≠ pid)

/-! ## Backend adapter (`imlottie_backend_rlottie.cpp`) -/

/-- The function `animationLoadFromMemory(data, size)`. -/
def animationLoadFromMemory (rl : Rlottie) (data : List Nat) : Option Nat :=
  if data.length = 0 then none else rl.loadFromData data

/-- The function `animationTotalFrame(a)`, returning `uint16_t`. -/
def animationTotalFrame (rl : Rlottie) (a : Option Nat) : Nat :=
  match a with
  | some x => toU16 (rl.totalFrame x)
  | none => 0

/-- The function `animationDuration(a)`. -/
def animationDuration (rl : Rlottie) (a : Option Nat) : Dbl :=
  match a with
  | some x => rl.duration x
  | none => 0

/-- The function `animationRenderSync(a, frameIndex, dstBGRA, width, height, pitch)`
followed by the adapter's `renderSync`: returns the destination buffer afterwards.
The data pointer of an empty buffer is taken to be null. -/
def animationRenderSync (rl : Rlottie) (a : Option Nat) (frameIndex : Int)
    (dst : List Nat) (width height : Int) : List Nat :=
  match a with
  | none => dst
  | some x =>
    if dst.isEmpty then dst
    else if width ≤ 0 ∨ height ≤ 0 then dst
    else rl.renderSync x (toSizeT frameIndex) width height dst

/-! ## Command queue and command handlers -/

/-- The method `Renderer::push`. -/
def push (c : Cmd) (r : Renderer) : Renderer := { r with queue := r.queue ++ [c] }

/-- The assignment `it->second.st.play = play` of `Renderer::setPlay`. -/
def assignPlay (play : Bool) (tr : Track) : Track :=
  { tr with st := { tr.st with play := play } }

/-- The method `Renderer::setPlay`. -/
def setPlay (pid : Nat) (play : Bool) (r : Renderer) : Renderer :=
  match tracksFind pid r.tracks with
  | some _ => { r with tracks := tracksModify pid (assignPlay play) r.tracks }
  | none => r

/-- The method `Renderer::onDiscard`. -/
def onDiscard (pid : Nat) (r : Renderer) (g : Gfx) : Renderer × Gfx :=
  match tracksFind pid r.tracks with
  | none => (r, g)
  | some tr =>
    let g1 := if tr.tex.id ≠ 0 then g.emit (Event.glDeleteTextures tr.tex.id) else g
    ({ r with tracks := tracksErase pid r.tracks }, g1)

/-- The assignments of `Renderer::onLoadMem` to the track, once decoding gave `anim`. -/
def loadInto (rl : Rlottie) (anim : Nat) (tr : Track) : Track :=
  let total := animationTotalFrame rl (some anim)
  let duration := animationDuration rl (some anim)
  { tr with
    anim := some anim
    st := { tr.st with
      total := total
      duration := duration
      fps := if duration > 0 ∧ total > 0 then Dbl.ofInt total / duration else 30
      accum := 0
      curFrame := 0
      uploadedOnce := false } }

/-- The method `Renderer::onLoadMem`. -/
def onLoadMem (rl : Rlottie) (c : Cmd) (r : Renderer) : Renderer :=
  if c.mem.isEmpty then r
  else
    match animationLoadFromMemory rl c.mem with
    | none => r
    | some anim =>
      { r with tracks := tracksModify c.pid (loadInto rl anim) (tracksIndex c.pid r.tracks) }

/-- The body of the loop of `Renderer::processQueue`: dispatch on the command type. -/
def applyCmd (rl : Rlottie) (s : Renderer × Gfx) (c : Cmd) : Renderer × Gfx :=
  match c.type with
  | CmdType.LOAD_MEM => (onLoadMem rl c s.1, s.2)
  | CmdType.PLAY => (setPlay c.pid true s.1, s.2)
  | CmdType.PAUSE => (setPlay c.pid false s.1, s.2)
  | CmdType.DISCARD => onDiscard c.pid s.1 s.2

/-- The method `Renderer::processQueue`: the pending list is swapped out, then each
command is applied in order. -/
def processQueue (rl : Rlottie) (r : Renderer) (g : Gfx) : Renderer × Gfx :=
  r.queue.foldl (applyCmd rl) ({ r with queue := [] }, g)

/-! ## Scheduler -/

/-- The effective rate `useFps` of `Renderer::produceFrames`. -/
def useFps (st : TrackState) : Dbl :=
  if st.customFps > 0 then Dbl.ofInt st.customFps else st.fps

/-- The body of the loop `while (accum >= frameDur)` of `Renderer::produceFrames`.
The increment `curFrame++` is taken without wrap-around. -/
def frameBody (frameDur : Dbl) (st : TrackState) : TrackState :=
  if toU32 (st.curFrame + 1) ≥ st.total then
    { st with
      accum := st.accum - frameDur
      curFrame := if st.loop then 0 else toI32 st.total - 1 }
  else
    { st with
      accum := st.accum - frameDur
      curFrame := st.curFrame + 1 }

/-- The loop `while (accum >= frameDur) { ... }` of `Renderer::produceFrames`, run for at
most `fuel` runs of its body: `none` when the loop has not exited by then. -/
def frameLoop (frameDur : Dbl) : Nat → TrackState → Option TrackState
  | 0, st => if st.accum ≥ frameDur then none else some st
  | fuel + 1, st =>
    if st.accum ≥ frameDur then frameLoop frameDur fuel (frameBody frameDur st) else some st

/-- The body of the loop over tracks of `Renderer::produceFrames`, for one track. -/
def produceTrack (fuel : Nat) (dt : Dbl) (t : Track) : Option Track :=
  if t.anim.isNone then some t
  else if useFps t.st ≤ 0 then some t
  else if t.st.play then
    match frameLoop (1 / useFps t.st) fuel { t.st with accum := t.st.accum + dt } with
    | none => none
    | some st => some { t with st := st }
  else some t

/-- The loop `for (auto& kv : tracks)` of `Renderer::produceFrames`. -/
def produceTracks (fuel : Nat) (dt : Dbl) : List (Nat × Track) → Option (List (Nat × Track))
  | [] => some []
  | kv :: rest =>
    match produceTrack fuel dt kv.2, produceTracks fuel dt rest with
    | some t, some rest1 => some ((kv.1, t) :: rest1)
    | _, _ => none

/-- The method `Renderer::produceFrames`. -/
def produceFrames (fuel : Nat) (dt : Dbl) (r : Renderer) : Option Renderer :=
  match produceTracks fuel dt r.tracks with
  | none => none
  | some s => some { r with tracks := s }

/-- The track after `produceFrames`, or the track itself when the loop has not exited. -/
def produceTrackOr (fuel : Nat) (dt : Dbl) (t : Track) : Track :=
  (produceTrack fuel dt t).getD t

/-! ## Render path -/

/-- The call `v.resize(n)` on a byte vector: truncate, or pad with zero bytes. -/
def resizeVec (v : List Nat) (n : Nat) : List Nat :=
  v.take n ++ List.replicate (n - v.length) 0

/-- The block "ensure texture" of `Renderer::renderAt`. The result is `none` when the
block has no defined result or throws: a conversion `(int)size.x` or `(int)size.y` out
of the range of `int`; an overflow of the `int` product `tr.tex.w * tr.tex.h * 4`; or a
negative product, which `stagingBGRA.resize` receives as a `size_t` above `max_size()`,
so that it throws `std::length_error`, and nothing catches it. -/
def ensureTexture (size : ImVec2) (tr : Track) (g : Gfx) : Option (Track × Gfx) :=
  let w := truncInt size.x
  let h := truncInt size.y
  if ¬ (inInt w ∧ inInt h) then none
  else if tr.tex.id = 0 ∨ tr.tex.w ≠ w ∨ tr.tex.h ≠ h then
    if ¬ inInt (w * h) ∨ ¬ inInt (w * h * 4) ∨ w * h * 4 < 0 then none
    else
      let g1 := if tr.tex.id ≠ 0 then g.emit (Event.glDeleteTextures tr.tex.id) else g
      let name := g1.gen.1
      let g2 := ((((g1.gen.2.emit (Event.glBindTexture name)).emit Event.glTexParameteri).emit
        Event.glTexParameteri).emit Event.glTexParameteri).emit Event.glTexParameteri
      let bgra := resizeVec tr.stagingBGRA (w * h * 4).toNat
      let rgba := resizeVec tr.stagingRGBA bgra.length
      some ({ tr with
              tex := { id := name, w := w, h := h }
              stagingBGRA := bgra
              stagingRGBA := rgba
              st := { tr.st with uploadedOnce := false } },
            g2.emit (Event.glBindTexture 0))
  else some (tr, g)

/-- The rest of `Renderer::renderAt` once the texture exists: decode the current
frame, convert it, upload it, and emit the ImGui draw call. The pitch argument
`tr.tex.w * 4` of the decoder call is computed in `renderAt`. -/
def uploadAndDraw (rl : Rlottie) (pos size : ImVec2) (tr : Track) (g : Gfx) : Track × Gfx :=
  let bgra := animationRenderSync rl tr.anim tr.st.curFrame tr.stagingBGRA tr.tex.w tr.tex.h
  let rgba := argbPremul_to_rgbaStraight tr.stagingRGBA bgra
    (toSizeT tr.tex.w * toSizeT tr.tex.h % 18446744073709551616)
  let g1 := g.emit (Event.glBindTexture tr.tex.id)
  let g2 :=
    if tr.st.uploadedOnce = false then
      (g1.emit Event.glPixelStorei).emit (Event.glTexImage2D tr.tex.w tr.tex.h rgba)
    else g1.emit (Event.glTexSubImage2D tr.tex.w tr.tex.h rgba)
  let g3 := ((g2.emit (Event.glBindTexture 0)).emit (Event.SetCursorScreenPos pos)).emit
    (Event.Image tr.tex.id size)
  ({ tr with
     stagingBGRA := bgra
     stagingRGBA := rgba
     st := { tr.st with uploadedOnce := true } }, g3)

/-- The method `Renderer::renderAt`; `none` also when the `int` product `tr.tex.w * 4`
(the pitch handed to the decoder) overflows. -/
def renderAt (rl : Rlottie) (pid : Nat) (pos size : ImVec2) (r : Renderer) (g : Gfx) :
    Option (Renderer × Gfx) :=
  match tracksFind pid r.tracks with
  | none => some (r, g)
  | some tr0 =>
    if tr0.anim.isNone then some (r, g)
    else
      match ensureTexture size { tr0 with st := { tr0.st with size := size } } g with
      | none => none
      | some (tr1, g1) =>
        if ¬ inInt (tr1.tex.w * 4) then none
        else
          let res := uploadAndDraw rl pos size tr1 g1
          some ({ r with tracks := tracksModify pid (fun _ => res.1) r.tracks }, res.2)

/-- The flag assignments of `Renderer::apiDrawMem`. -/
def setFlags (loop play : Bool) (customFps : Int) (tr : Track) : Track :=
  { tr with st := { tr.st with loop := loop, play := play, customFps := customFps } }

/-- The method `Renderer::apiDrawMem`; `data` is the `size` bytes at `data`, and `pos`
is what `ImGui::GetCursorScreenPos()` returns. -/
def apiDrawMem (rl : Rlottie) (pid : Nat) (data : List Nat) (sz : ImVec2) (loop play : Bool)
    (prerender customFps : Int) (pos : ImVec2) (r : Renderer) (g : Gfx) :
    Option (Renderer × Gfx) :=
  let _unused := prerender
  let r1 :=
    if (tracksFind pid r.tracks).isNone then
      let r0 := push { type := CmdType.LOAD_MEM, pid := pid, mem := data } r
      { r0 with tracks := tracksModify pid (setFlags loop play customFps) (tracksIndex pid r0.tracks) }
    else
      { r with tracks := tracksModify pid (setFlags loop play customFps) (tracksIndex pid r.tracks) }
  renderAt rl pid pos sz r1 g

/-- The method `Renderer::apiPlay`. -/
def apiPlay (pid : Nat) (v : Bool) (r : Renderer) : Renderer :=
  push { type := if v then CmdType.PLAY else CmdType.PAUSE, pid := pid } r

/-- The method `Renderer::apiDiscard`. -/
def apiDiscard (pid : Nat) (r : Renderer) : Renderer :=
  push { type := CmdType.DISCARD, pid := pid } r

/-- The body of `Sync()` on an initialised renderer, `dt` being the frame delta. -/
def syncRenderer (rl : Rlottie) (fuel : Nat) (dt : Dbl) (r : Renderer) (g : Gfx) :
    Option (Renderer × Gfx) :=
  let s := processQueue rl r g
  match produceFrames fuel dt s.1 with
  | none => none
  | some r1 => some (r1, s.2)

/-- The draw sizes at which `renderAt`, on a track with a decoded handle, has a defined
result and throws nothing: both components convert to `int`, the pitch `w * 4` is an
`int` value and the byte count `w * h * 4` a non-negative `int` value. -/
def sizeOk (size : ImVec2) : Prop :=
  inInt (truncInt size.x) ∧ inInt (truncInt size.y) ∧ inInt (truncInt size.x * 4) ∧
  0 ≤ truncInt size.x * truncInt size.y * 4 ∧
  truncInt size.x * truncInt size.y * 4 < 2147483648

/-! ## Call sequences on an initialised renderer -/

/-- One call into the initialised renderer. -/
inductive Call where
  | draw (pid : Nat) (data : List Nat) (sz : ImVec2) (loop play : Bool)
      (prerender customFps : Int) (pos : ImVec2)
  | play (pid : Nat)
  | pause (pid : Nat)
  | discard (pid : Nat)
  | sync (dt : Dbl)

/-- The effect of one call; `none` when the call gives no result. -/
def step (rl : Rlottie) (fuel : Nat) (s : Renderer × Gfx) : Call → Option (Renderer × Gfx)
  | Call.draw pid data sz loop play prerender customFps pos =>
    apiDrawMem rl pid data sz loop play prerender customFps pos s.1 s.2
  | Call.play pid => some (apiPlay pid true s.1, s.2)
  | Call.pause pid => some (apiPlay pid false s.1, s.2)
  | Call.discard pid => some (apiDiscard pid s.1, s.2)
  | Call.sync dt => syncRenderer rl fuel dt s.1 s.2

/-- The effect of a sequence of calls, oldest first. -/
def run (rl : Rlottie) (fuel : Nat) (s : Renderer × Gfx) : List Call → Option (Renderer × Gfx)
  | [] => some s
  | c :: cs =>
    match step rl fuel s c with
    | none => none
    | some s1 => run rl fuel s1 cs

/-! ## Identity function (`imlottie.h`) -/

/-- One step `h ^= byte; h *= 0x01000193u` of the FNV-1a loops, on a `uint32_t`. -/
def fnvStep (h : Nat) (byte : Nat) : Nat := (h ^^^ byte) * 16777619 % 4294967296

/-- The characters of a C string: the bytes before the first NUL. -/
def cstr (bytes : List Nat) : List Nat := bytes.takeWhile (fun b => b ≠ 0)

/-- The function `KeyFromMemoryTagged(data, size, tag)` in its `#else` branch (FNV-1a
over the tag, then over the data), starting from `0x811C9DC5 ^ 0x5EED1234`; the tag
`none` is the null pointer. -/
def KeyFromMemoryTagged (data : List Nat) (tag : Option (List Nat)) : Nat :=
  let h0 := 2166136261 ^^^ 1592594996
  let h1 :=
    match tag with
    | some t => (cstr t).foldl fnvStep h0
    | none => h0
  data.foldl fnvStep h1

/-! ## Public API on the process-wide state -/

/-- The function `Init()`; the argument is the global pointer `G` (`none` when null). -/
def Init (G : Option Renderer) : Option Renderer :=
  match G with
  | none => some {}
  | some r => some r

/-- The function `Shutdown()`: deletes the texture of every track that has one (in
store order), then frees the renderer. -/
def Shutdown (G : Option Renderer) (g : Gfx) : Option Renderer × Gfx :=
  match G with
  | none => (none, g)
  | some r =>
    (none, r.tracks.foldl
      (fun g1 kv => if kv.2.tex.id ≠ 0 then g1.emit (Event.glDeleteTextures kv.2.tex.id) else g1) g)

/-- The function `Sync()`; `dt` is what `GetFrameDeltaSeconds()` returns, a `float`
converted to `double`. -/
def Sync (rl : Rlottie) (fuel : Nat) (dt : Dbl) (G : Option Renderer) (g : Gfx) :
    Option (Option Renderer × Gfx) :=
  match G with
  | none => some (none, g)
  | some r =>
    match syncRenderer rl fuel dt r g with
    | none => none
    | some s => some (some s.1, s.2)

/-- The function `LottieAnimation_Internal_FromMemory`; `none` when the call gives no
result. -/
def LottieAnimation_Internal_FromMemory (rl : Rlottie) (pid : Nat) (data : List Nat)
    (sz : ImVec2) (loop play : Bool) (prerender customFps : Int) (pos : ImVec2)
    (G : Option Renderer) (g : Gfx) : Option (Option Renderer × Gfx) :=
  match G with
  | none => some (none, g)
  | some r =>
    match apiDrawMem rl pid data sz loop play prerender customFps pos r g with
    | none => none
    | some s => some (some s.1, s.2)

/-- The function `Play(data, size, tag)`; `keyOf` is `KeyFromMemoryTagged`, whose body
depends on the ImGui version. -/
def Play (keyOf : List Nat → Option (List Nat) → Nat) (data : List Nat)
    (tag : Option (List Nat)) (G : Option Renderer) : Option Renderer :=
  match G with
  | none => none
  | some r => some (apiPlay (keyOf data tag) true r)

/-- The function `Pause(data, size, tag)`. -/
def Pause (keyOf : List Nat → Option (List Nat) → Nat) (data : List Nat)
    (tag : Option (List Nat)) (G : Option Renderer) : Option Renderer :=
  match G with
  | none => none
  | some r => some (apiPlay (keyOf data tag) false r)

/-- The function `Discard(data, size, tag)`. -/
def Discard (keyOf : List Nat → Option (List Nat) → Nat) (data : List Nat)
    (tag : Option (List Nat)) (G : Option Renderer) : Option Renderer :=
  match G with
  | none => none
  | some r => some (apiDiscard (keyOf data tag) r)

/-- Is this call a draw request for identifier `pid`? -/
def Call.isDrawOf (pid : Nat) : Call → Bool
  | Call.draw p _ _ _ _ _ _ _ => p = pid
  | _ => false

/-- Is this command a Load for identifier `pid`? -/
def Cmd.isLoadOf (pid : Nat) (c : Cmd) : Bool :=
  c.type = CmdType.LOAD_MEM ∧ c.pid = pid

/-! ## Frame-index invariant -/

/-- The frame-index invariant of one track: the stored frame count is a `uint16_t`
value, and when it is positive the current frame lies in `[0, total)`. -/
def frameOk (st : TrackState) : Prop :=
  st.total < 65536 ∧ (0 < st.total → 0 ≤ st.curFrame ∧ st.curFrame < st.total)

/-- The frame-index invariant of the track store. -/
def storeOk (s : List (Nat × Track)) : Prop := ∀ kv ∈ s, frameOk kv.2.st

/-! ## A sample decoder -/

/-- A sample rlottie behaviour: every non-empty input decodes, to an animation of five
frames lasting one second, whose rendering fills the surface with the frame number. -/
def sampleRlottie : Rlottie where
  loadFromData := fun _ => some 0
  totalFrame := fun _ => 5
  duration := fun _ => 1
  renderSync := fun _ frame _ _ buf => buf.map (fun _ => frame)

/-- The sample track after load, half a second of playback and one draw at 2 x 1. -/
def sampleDrawnTrack : Track :=
  { anim := some 0
    st := { fps := 5, total := 5, duration := 1, accum := 1 / 2 - 1 / 5 - 1 / 5,
            curFrame := 2, size := ⟨2, 1⟩, uploadedOnce := true }
    tex := { id := 1, w := 2, h := 1 }
    stagingBGRA := [2, 2, 2, 2, 2, 2, 2, 2]
    stagingRGBA := [255, 255, 255, 2, 255, 255, 255, 2] }

/-- The graphics calls of that draw. -/
def sampleDrawnLog : List Event :=
  [Event.glGenTextures 1, Event.glBindTexture 1, Event.glTexParameteri, Event.glTexParameteri,
   Event.glTexParameteri, Event.glTexParameteri, Event.glBindTexture 0, Event.glBindTexture 1,
   Event.glPixelStorei, Event.glTexImage2D 2 1 [255, 255, 255, 2, 255, 255, 255, 2],
   Event.glBindTexture 0, Event.SetCursorScreenPos ⟨0, 0⟩, Event.Image 1 ⟨2, 1⟩]

/-! ## Texture and upload-flag invariants -/

/-- Flag invariant of one track between calls: a track without decoded handle has no
texture, and `uploadedOnce` is set exactly when the track has a texture. -/
def trackOk (t : Track) : Prop :=
  (t.anim = none → t.tex.id = 0) ∧ (t.st.uploadedOnce = true ↔ t.tex.id ≠ 0)

/-- Invariant of the Load commands still to be applied: no two of them carry the same
identifier, and the tracks they address have no decoded handle yet. -/
def loadsOk (q : List Cmd) (s : List (Nat × Track)) : Prop :=
  q.Pairwise (fun c d => c.type = CmdType.LOAD_MEM → d.type = CmdType.LOAD_MEM → c.pid ≠ d.pid) ∧
  ∀ c ∈ q, c.type = CmdType.LOAD_MEM → ∀ kv ∈ s, kv.1 = c.pid → kv.2.anim = none

/-- Every queued Load addresses a track that is in the store. -/
def loadsTracked (q : List Cmd) (s : List (Nat × Track)) : Prop :=
  ∀ c ∈ q, c.type = CmdType.LOAD_MEM → ∃ kv ∈ s, kv.1 = c.pid

/-- The flag invariant of the renderer between calls. -/
def flagInv (r : Renderer) : Prop :=
  (∀ kv ∈ r.tracks, trackOk kv.2) ∧ loadsOk r.queue r.tracks ∧ loadsTracked r.queue r.tracks

/-- The staging buffers of a track with a texture hold `w * h * 4` bytes each. -/
def stagingOk (s : List (Nat × Track)) : Prop :=
  ∀ kv ∈ s, kv.2.tex.id ≠ 0 →
    kv.2.stagingBGRA.length = (kv.2.tex.w * kv.2.tex.h * 4).toNat ∧
    kv.2.stagingRGBA.length = (kv.2.tex.w * kv.2.tex.h * 4).toNat

/-- Reading the call log for texture `id`: the first component is the texture bound
at present, the second tells whether pixels have been uploaded to `id` since
`glGenTextures` handed it out. -/
def scanStep (id : Nat) (s : Nat × Bool) : Event → Nat × Bool
  | Event.glGenTextures i => if i = id then (s.1, false) else s
  | Event.glDeleteTextures i => if i = id then (s.1, false) else s
  | Event.glBindTexture i => (i, s.2)
  | Event.glTexImage2D _ _ _ => if s.1 = id then (s.1, true) else s
  | Event.glTexSubImage2D _ _ _ => if s.1 = id then (s.1, true) else s
  | _ => s

/-- Has a pixel upload to texture `id` occurred since that texture was allocated? -/
def uploadedSince (id : Nat) (log : List Event) : Bool :=
  (log.foldl (scanStep id) (0, false)).2

/-- Number of `glDeleteTextures` calls in a log. -/
def deleteCalls (log : List Event) : Nat :=
  (log.filter (fun e => match e with
    | Event.glDeleteTextures _ => true
    | _ => false)).length

/-- Number of `glGenTextures` calls in a log. -/
def genCalls (log : List Event) : Nat :=
  (log.filter (fun e => match e with
    | Event.glGenTextures _ => true
    | _ => false)).length

/-- The texture bookkeeping of the renderer between calls: texture names in use were
handed out by `glGenTextures`, each identifier has one track, distinct tracks hold
distinct textures, and every texture in use has received pixels. -/
def ghostOk (s : List (Nat × Track)) (g : Gfx) : Prop :=
  (∀ kv ∈ s, kv.2.tex.id ≤ g.generated) ∧
  (∀ a ∈ s, ∀ b ∈ s, a.1 = b.1 → a.2 = b.2) ∧
  (∀ a ∈ s, ∀ b ∈ s, a.2.tex.id ≠ 0 → a.2.tex.id = b.2.tex.id → a.1 = b.1) ∧
  (∀ kv ∈ s, kv.2.tex.id ≠ 0 → uploadedSince kv.2.tex.id g.log = true)

/-! ## Pixel conversion: proofs -/


theorem convertPixel_length (d s : List Nat) (i : Nat) :
    (convertPixel d s i).length = d.length := by
  unfold convertPixel
  dsimp only
  split <;> simp

theorem convertPixel_getElem?_outside (d s : List Nat) (i j : Nat)
    (hj : j < 4 * i ∨ 4 * i + 4 ≤ j) : (convertPixel d s i)[j]? = d[j]? := by
  unfold convertPixel
  dsimp only
  have h0 : ¬ (4 * i + 0 = j) := by omega
  have h1 : ¬ (4 * i + 1 = j) := by omega
  have h2 : ¬ (4 * i + 2 = j) := by omega
  have h3 : ¬ (4 * i + 3 = j) := by omega
  split <;> simp only [List.getElem?_set, h0, h1, h2, h3, if_false]

theorem convertPixel_getElem?_inside (d s : List Nat) (i : Nat) (hd : 4 * i + 3 < d.length) :
    let B := s.getD (4 * i + 0) 0
    let G := s.getD (4 * i + 1) 0
    let R := s.getD (4 * i + 2) 0
    let A := s.getD (4 * i + 3) 0
    (convertPixel d s i)[4 * i + 0]? = some (if A = 0 then 0 else u8 (R * 255 / A)) ∧
    (convertPixel d s i)[4 * i + 1]? = some (if A = 0 then 0 else u8 (G * 255 / A)) ∧
    (convertPixel d s i)[4 * i + 2]? = some (if A = 0 then 0 else u8 (B * 255 / A)) ∧
    (convertPixel d s i)[4 * i + 3]? = some A := by
  intro B G R A
  unfold convertPixel
  dsimp only
  by_cases hA : s.getD (4 * i + 3) 0 = 0
  · have hA' : A = 0 := hA
    simp only [hA, if_true, hA', List.getElem?_set, List.length_set]
    refine ⟨?_, ?_, ?_, ?_⟩ <;> simp <;> omega
  · have hA' : ¬ A = 0 := hA
    simp only [hA, if_false, hA', List.getElem?_set, List.length_set]
    refine ⟨?_, ?_, ?_, ?_⟩ <;> simp [B, G, R, A] <;> omega

theorem argb_succ (dst src : List Nat) (n : Nat) :
    argbPremul_to_rgbaStraight dst src (n + 1)
      = convertPixel (argbPremul_to_rgbaStraight dst src n) src n := by
  simp [argbPremul_to_rgbaStraight, List.range_succ, List.foldl_append]

theorem argb_length (dst src : List Nat) (n : Nat) :
    (argbPremul_to_rgbaStraight dst src n).length = dst.length := by
  induction n with
  | zero => simp [argbPremul_to_rgbaStraight]
  | succ n ih => rw [argb_succ, convertPixel_length, ih]

theorem argb_getElem?_beyond (dst src : List Nat) (n j : Nat) (hj : 4 * n ≤ j) :
    (argbPremul_to_rgbaStraight dst src n)[j]? = dst[j]? := by
  induction n with
  | zero => simp [argbPremul_to_rgbaStraight]
  | succ n ih =>
    rw [argb_succ, convertPixel_getElem?_outside _ _ _ _ (Or.inr (by omega))]
    exact ih (by omega)

theorem argb_getElem?_pixel (dst src : List Nat) (n i : Nat) (hi : i < n)
    (hd : 4 * n ≤ dst.length) (k : Nat) (hk : k < 4) :
    (argbPremul_to_rgbaStraight dst src n)[4 * i + k]?
      = (convertPixel dst src i)[4 * i + k]? := by
  induction n with
  | zero => omega
  | succ n ih =>
    rw [argb_succ]
    by_cases hin : i = n
    · subst hin
      have hlen : 4 * i + 3 < (argbPremul_to_rgbaStraight dst src i).length := by
        rw [argb_length]; omega
      have hlen2 : 4 * i + 3 < dst.length := by omega
      have h1 := convertPixel_getElem?_inside (argbPremul_to_rgbaStraight dst src i) src i hlen
      have h2 := convertPixel_getElem?_inside dst src i hlen2
      dsimp only at h1 h2
      obtain ⟨a0, a1, a2, a3⟩ := h1
      obtain ⟨b0, b1, b2, b3⟩ := h2
      have hk4 : k = 0 ∨ k = 1 ∨ k = 2 ∨ k = 3 := by omega
      rcases hk4 with h | h | h | h <;> subst h
      · rw [a0, b0]
      · rw [a1, b1]
      · rw [a2, b2]
      · rw [a3, b3]
    · rw [convertPixel_getElem?_outside _ _ _ _ (Or.inl (by omega))]
      exact ih (by omega) (by omega)


/-- C1 (amended): after `argbPremul_to_rgbaStraight` on `n` pixels, output pixel `i`
is a function of source pixel `i = (B, G, R, A)` alone: it is `(0, 0, 0, 0)` when
`A = 0`, and otherwise `(R*255/A mod 256, G*255/A mod 256, B*255/A mod 256, A)` with
floor division, the reduction mod 256 being the `uint8_t` store; the destination keeps
its length; and the pixel with premultiplied colour `(64, 64, 64)` and alpha `128`
converts to `(127, 127, 127, 128)`. -/
theorem argbPremul_to_rgbaStraight_pixel (dst src : List Nat) (n i : Nat)
    (_hsrc : src.length = 4 * n) (hdst : 4 * n ≤ dst.length) (hi : i < n) :
    (argbPremul_to_rgbaStraight dst src n).length = dst.length ∧
    (src.getD (4 * i + 3) 0 = 0 →
      (argbPremul_to_rgbaStraight dst src n).getD (4 * i + 0) 0 = 0 ∧
      (argbPremul_to_rgbaStraight dst src n).getD (4 * i + 1) 0 = 0 ∧
      (argbPremul_to_rgbaStraight dst src n).getD (4 * i + 2) 0 = 0 ∧
      (argbPremul_to_rgbaStraight dst src n).getD (4 * i + 3) 0 = 0) ∧
    (src.getD (4 * i + 3) 0 ≠ 0 →
      (argbPremul_to_rgbaStraight dst src n).getD (4 * i + 0) 0
        = src.getD (4 * i + 2) 0 * 255 / src.getD (4 * i + 3) 0 % 256 ∧
      (argbPremul_to_rgbaStraight dst src n).getD (4 * i + 1) 0
        = src.getD (4 * i + 1) 0 * 255 / src.getD (4 * i + 3) 0 % 256 ∧
      (argbPremul_to_rgbaStraight dst src n).getD (4 * i + 2) 0
        = src.getD (4 * i + 0) 0 * 255 / src.getD (4 * i + 3) 0 % 256 ∧
      (argbPremul_to_rgbaStraight dst src n).getD (4 * i + 3) 0
        = src.getD (4 * i + 3) 0) ∧
    argbPremul_to_rgbaStraight [0, 0, 0, 0] [64, 64, 64, 128] 1 = [127, 127, 127, 128] := by
  have hlen : 4 * i + 3 < dst.length := by omega
  have hin := convertPixel_getElem?_inside dst src i hlen
  dsimp only at hin
  obtain ⟨c0, c1, c2, c3⟩ := hin
  have p0 := argb_getElem?_pixel dst src n i hi hdst 0 (by omega)
  have p1 := argb_getElem?_pixel dst src n i hi hdst 1 (by omega)
  have p2 := argb_getElem?_pixel dst src n i hi hdst 2 (by omega)
  have p3 := argb_getElem?_pixel dst src n i hi hdst 3 (by omega)
  rw [c0] at p0
  rw [c1] at p1
  rw [c2] at p2
  rw [c3] at p3
  refine ⟨argb_length dst src n, ?_, ?_, by decide⟩
  · intro hA
    rw [hA] at p3
    simp only [hA, if_true] at p0 p1 p2
    simp only [List.getD_eq_getElem?_getD, p0, p1, p2, p3, Option.getD_some, and_self]
  · intro hA
    simp only [hA, if_false] at p0 p1 p2
    simp only [List.getD_eq_getElem?_getD, p0, p1, p2, p3, Option.getD_some, u8, and_self]

/-- C1, instance: the pixel `(B, G, R, A) = (10, 20, 30, 40)` has red `30*255/40 = 191`. -/
theorem argbPremul_to_rgbaStraight_pixel_witness :
    (argbPremul_to_rgbaStraight [0, 0, 0, 0] [10, 20, 30, 40] 1).getD 0 0 = 191 :=
  ((argbPremul_to_rgbaStraight_pixel [0, 0, 0, 0] [10, 20, 30, 40] 1 0
    (by decide) (by decide) (by decide)).2.2.1 (by decide)).1

/-- C1, counterexample: for the source pixel `(B, G, R, A) = (0, 0, 255, 1)` the quotient
`R*255/A` is `65025`, and the byte stored is `65025 mod 256 = 1`, so the output pixel is
not `(R*255/A, G*255/A, B*255/A, A)`. -/
theorem argbPremul_to_rgbaStraight_unreduced_counterexample :
    argbPremul_to_rgbaStraight [0, 0, 0, 0] [0, 0, 255, 1] 1 = [1, 0, 0, 1] ∧
    argbPremul_to_rgbaStraight [0, 0, 0, 0] [0, 0, 255, 1] 1
      ≠ [255 * 255 / 1, 0 * 255 / 1, 0 * 255 / 1, 1] := by
  decide


/-! ## Track store: proofs -/

theorem tracksFind_nil (q : Nat) : tracksFind q [] = none := rfl

theorem tracksFind_cons (q k : Nat) (t : Track) (s : List (Nat × Track)) :
    tracksFind q ((k, t) :: s) = if q = k then some t else tracksFind q s := by
  unfold tracksFind
  rw [List.lookup_cons]
  by_cases h : q = k
  · simp [h]
  · have hb : (q == k) = false := by simpa using h
    simp [h, hb]

theorem tracksFind_mem (q : Nat) (t : Track) (s : List (Nat × Track))
    (h : tracksFind q s = some t) : (q, t) ∈ s := by
  induction s with
  | nil => simp [tracksFind_nil] at h
  | cons kv s ih =>
    obtain ⟨k, u⟩ := kv
    rw [tracksFind_cons] at h
    by_cases hq : q = k
    · simp only [hq, if_true, Option.some.injEq] at h
      simp [hq, h]
    · simp only [hq, if_false] at h
      exact List.mem_cons_of_mem _ (ih h)

theorem tracksFind_map (q : Nat) (f : Track → Track) (s : List (Nat × Track)) :
    tracksFind q (s.map (fun kv => (kv.1, f kv.2))) = (tracksFind q s).map f := by
  induction s with
  | nil => rfl
  | cons kv s ih =>
    obtain ⟨k, u⟩ := kv
    simp only [List.map_cons, tracksFind_cons, ih]
    split <;> simp

theorem tracksFind_modify (q pid : Nat) (f : Track → Track) (s : List (Nat × Track)) :
    tracksFind q (tracksModify pid f s)
      = if q = pid then (tracksFind q s).map f else tracksFind q s := by
  induction s with
  | nil => simp [tracksModify, tracksFind_nil]
  | cons kv s ih =>
    obtain ⟨k, u⟩ := kv
    unfold tracksModify at ih ⊢
    simp only [List.map_cons]
    by_cases hk : k = pid
    · simp only [hk, if_true, tracksFind_cons, ih]
      by_cases hq : q = pid <;> simp [hq]
    · simp only [hk, if_false, tracksFind_cons, ih]
      by_cases hq : q = pid
      · have : ¬ q = k := fun h => hk (h ▸ hq)
        simp [hq, this, Ne.symm hk]
      · simp [hq]

theorem tracksErase_cons (pid k : Nat) (u : Track) (s : List (Nat × Track)) :
    tracksErase pid ((k, u) :: s)
      = if k = pid then tracksErase pid s else (k, u) :: tracksErase pid s := by
  unfold tracksErase
  by_cases hk : k = pid <;> simp [List.filter_cons, hk]

theorem tracksFind_erase (q pid : Nat) (s : List (Nat × Track)) :
    tracksFind q (tracksErase pid s) = if q = pid then none else tracksFind q s := by
  induction s with
  | nil => simp [tracksErase, tracksFind_nil]
  | cons kv s ih =>
    obtain ⟨k, u⟩ := kv
    rw [tracksErase_cons]
    by_cases hk : k = pid
    · simp only [hk, if_true, ih, tracksFind_cons]
      by_cases hq : q = pid <;> simp [hq]
    · simp only [hk, if_false, tracksFind_cons, ih]
      by_cases hq : q = pid
      · have : ¬ pid = k := fun h => hk h.symm
        simp [hq, this]
      · simp [hq]

theorem tracksFind_index (q pid : Nat) (s : List (Nat × Track)) :
    tracksFind q (tracksIndex pid s)
      = if q = pid then some ((tracksFind pid s).getD {}) else tracksFind q s := by
  unfold tracksIndex
  cases hf : tracksFind pid s with
  | none =>
    simp only [Option.isSome_none, Bool.false_eq_true, if_false, tracksFind_cons, Option.getD_none]
  | some t =>
    simp only [Option.isSome_some, if_true, Option.getD_some]
    by_cases hq : q = pid
    · simp [hq, hf]
    · simp [hq]

theorem tracksModify_absent (pid : Nat) (f : Track → Track) (s : List (Nat × Track))
    (h : tracksFind pid s = none) : tracksModify pid f s = s := by
  induction s with
  | nil => rfl
  | cons kv s ih =>
    obtain ⟨k, u⟩ := kv
    rw [tracksFind_cons] at h
    by_cases hk : pid = k
    · simp [hk] at h
    · simp only [hk, if_false] at h
      have hk2 : ¬ k = pid := fun e => hk e.symm
      unfold tracksModify at ih ⊢
      simp only [List.map_cons, hk2, if_false, ih h]

theorem tracksErase_absent (pid : Nat) (s : List (Nat × Track))
    (h : tracksFind pid s = none) : tracksErase pid s = s := by
  induction s with
  | nil => rfl
  | cons kv s ih =>
    obtain ⟨k, u⟩ := kv
    rw [tracksFind_cons] at h
    by_cases hk : pid = k
    · simp [hk] at h
    · simp only [hk, if_false] at h
      have hk2 : ¬ k = pid := fun e => hk e.symm
      rw [tracksErase_cons, if_neg hk2, ih h]

/-! ## Doubles: proofs -/

theorem Dbl.bits_le (fuel : Nat) : ∀ n k : Nat, n < 2 ^ k → Dbl.bits fuel n ≤ k := by
  induction fuel with
  | zero =>
    intro n k _
    simp [Dbl.bits]
  | succ f ih =>
    intro n k h
    unfold Dbl.bits
    by_cases h0 : n = 0
    · rw [if_pos h0]
      exact Nat.zero_le k
    · rw [if_neg h0]
      by_cases h64 : n < 18446744073709551616
      · rw [if_pos h64]
        have hk : k ≠ 0 := by
          intro hk
          rw [hk, pow_zero] at h
          omega
        obtain ⟨j, rfl⟩ := Nat.exists_eq_succ_of_ne_zero hk
        have hhalf : n / 2 < 2 ^ j := by
          rw [Nat.div_lt_iff_lt_mul (by decide)]
          rw [pow_succ] at h
          exact h
        exact Nat.succ_le_succ (ih _ _ hhalf)
      · rw [if_neg h64]
        have hk : 64 < k := by
          by_contra hle
          have : 2 ^ k ≤ 2 ^ 64 := Nat.pow_le_pow_right (by decide) (by omega)
          have h2 : (2 : Nat) ^ 64 = 18446744073709551616 := by norm_num
          omega
        obtain ⟨j, rfl⟩ : ∃ j, k = j + 64 := ⟨k - 64, by omega⟩
        have hdiv : n / 18446744073709551616 < 2 ^ j := by
          rw [Nat.div_lt_iff_lt_mul (by decide)]
          have h2 : (2 : Nat) ^ 64 = 18446744073709551616 := by norm_num
          rw [pow_add, h2] at h
          exact h
        have := ih _ _ hdiv
        omega

/-- Rounding leaves a quotient alone when it fits a 53-bit significand. -/
theorem Dbl.rnd_div_exact (q den e : Nat) (hden : 0 < den) (hdvd : 2 ^ e ∣ q)
    (hlt : q < 2 ^ (53 + e)) : Dbl.rnd (q * den) den = q := by
  unfold Dbl.rnd
  rw [Nat.mul_div_cancel _ hden]
  have hb := Dbl.bits_le q q (53 + e) hlt
  have hs : Dbl.bits q q - 53 ≤ e := by omega
  generalize Dbl.bits q q - 53 = s at hs
  obtain ⟨c, hc⟩ := (pow_dvd_pow 2 hs).trans hdvd
  have hD : 0 < den * 2 ^ s := Nat.mul_pos hden (pow_pos (by decide) s)
  have hnum : q * den = c * (den * 2 ^ s) := by rw [hc]; ring
  simp only [hnum, Nat.mul_div_cancel _ hD, Nat.mul_mod_left]
  have hno : ¬ (den * 2 ^ s < 2 * 0 ∨ (2 * 0 = den * 2 ^ s ∧ c % 2 = 1)) := by
    omega
  rw [if_neg hno, hc]
  ring

theorem Dbl.rnd_exact (n e : Nat) (hdvd : 2 ^ e ∣ n) (hlt : n < 2 ^ (53 + e)) :
    Dbl.rnd n 1 = n := by
  have := Dbl.rnd_div_exact n 1 e (by decide) hdvd hlt
  rwa [Nat.mul_one] at this

theorem Dbl.pack_fin (s : Bool) (m : Nat) (h : m < 2 ^ 2098) : Dbl.pack s m = Dbl.fin s m := by
  unfold Dbl.pack
  rw [if_pos h]

theorem Dbl.add_def (a b : Dbl) : a + b = Dbl.add a b := rfl

theorem Dbl.sub_def (a b : Dbl) : a - b = Dbl.add a (Dbl.neg b) := rfl

theorem Dbl.div_def (a b : Dbl) : a / b = Dbl.div a b := rfl

theorem Dbl.le_def (a b : Dbl) : a ≤ b ↔ Dbl.le a b = true := Iff.rfl

theorem Dbl.lt_def (a b : Dbl) : a < b ↔ Dbl.lt a b = true := Iff.rfl

/-- Comparison of two non-negative finite doubles. -/
theorem Dbl.fin_le_fin (a b : Nat) : Dbl.fin false a ≤ Dbl.fin false b ↔ a ≤ b := by
  rw [Dbl.le_def]
  simp [Dbl.le, Dbl.key]

theorem Dbl.fin_lt_fin (a b : Nat) : Dbl.fin false a < Dbl.fin false b ↔ a < b := by
  rw [Dbl.lt_def]
  simp [Dbl.lt, Dbl.key]

/-- The sum of two non-negative doubles on a common grid `2^e`, below `2^(53+e)`, is
exact. -/
theorem Dbl.add_exact (ma mb e : Nat) (ha : 2 ^ e ∣ ma) (hb : 2 ^ e ∣ mb)
    (hlt : ma + mb < 2 ^ (53 + e)) (hfin : ma + mb < 2 ^ 2098) :
    Dbl.fin false ma + Dbl.fin false mb = Dbl.fin false (ma + mb) := by
  rw [Dbl.add_def]
  unfold Dbl.add
  simp only [if_true]
  rw [Dbl.rnd_exact _ e (Nat.dvd_add ha hb) hlt, Dbl.pack_fin _ _ hfin]

/-- The difference of two non-negative doubles on a common grid `2^e`, the larger below
`2^(53+e)`, is exact. -/
theorem Dbl.sub_exact (ma mb e : Nat) (hle : mb ≤ ma) (ha : 2 ^ e ∣ ma) (hb : 2 ^ e ∣ mb)
    (hlt : ma < 2 ^ (53 + e)) (hfin : ma < 2 ^ 2098) :
    Dbl.fin false ma - Dbl.fin false mb = Dbl.fin false (ma - mb) := by
  rw [Dbl.sub_def]
  unfold Dbl.neg Dbl.add
  simp only [Bool.not_false, Bool.false_eq_true, if_false]
  by_cases heq : ma = mb
  · rw [if_pos heq, heq, Nat.sub_self]
  · rw [if_neg heq, if_pos (by omega)]
    rw [Dbl.rnd_exact _ e (Nat.dvd_sub' ha hb) (by omega), Dbl.pack_fin _ _ (by omega)]

theorem Dbl.one_eq : (1 : Dbl) = Dbl.fin false (2 ^ 1074) := by
  show Dbl.ofInt ((1 : Nat) : Int) = _
  unfold Dbl.ofInt
  simp only [Nat.cast_one, Int.natAbs_one, one_mul]
  rw [Dbl.rnd_exact _ 1074 (dvd_refl _) (Nat.pow_lt_pow_right (by decide) (by decide)),
    Dbl.pack_fin _ _ (Nat.pow_lt_pow_right (by decide) (by decide))]
  rfl

theorem Dbl.zero_eq : (0 : Dbl) = Dbl.fin false 0 := by
  show Dbl.ofInt ((0 : Nat) : Int) = _
  unfold Dbl.ofInt
  simp only [Nat.cast_zero, Int.natAbs_zero, zero_mul]
  rw [Dbl.rnd_exact 0 0 (dvd_zero _) (by positivity), Dbl.pack_fin _ _ (by positivity)]
  rfl

/-- The reciprocal of a power of two is exact. -/
theorem Dbl.one_div_pow (p : Nat) (h1 : 51 ≤ p) (h2 : p ≤ 2148) :
    (1 : Dbl) / Dbl.fin false (2 ^ p) = Dbl.fin false (2 ^ (2148 - p)) := by
  rw [Dbl.one_eq, Dbl.div_def]
  unfold Dbl.div
  have hne : (2 : Nat) ^ p ≠ 0 := by positivity
  simp only [hne, if_false, Bool.xor_false]
  have hnum : (2 : Nat) ^ 1074 * 2 ^ 1074 = 2 ^ (2148 - p) * 2 ^ p := by
    rw [← pow_add, ← pow_add]
    congr 1
    omega
  rw [hnum, Dbl.rnd_div_exact _ _ (2148 - p) (by positivity) (dvd_refl _)
    (Nat.pow_lt_pow_right (by decide) (by omega)),
    Dbl.pack_fin _ _ (Nat.pow_lt_pow_right (by decide) (by omega))]

theorem Dbl.toRat_fin (m : Nat) : (Dbl.fin false m).toRat = (m : ℚ) / 2 ^ 1074 := by
  simp [Dbl.toRat]

/-! ## Scheduler: proofs -/

theorem frameBody_accum (d : Dbl) (st : TrackState) :
    (frameBody d st).accum = st.accum - d := by
  unfold frameBody
  split <;> rfl

theorem frameBody_fields (d : Dbl) (st : TrackState) :
    (frameBody d st).loop = st.loop ∧ (frameBody d st).play = st.play ∧
    (frameBody d st).customFps = st.customFps ∧ (frameBody d st).fps = st.fps ∧
    (frameBody d st).total = st.total ∧ (frameBody d st).duration = st.duration ∧
    (frameBody d st).size = st.size ∧ (frameBody d st).uploadedOnce = st.uploadedOnce := by
  unfold frameBody
  split <;> simp

theorem toU32_of_range (x : Int) (h0 : 0 ≤ x) (h1 : x < 4294967296) : toU32 x = x.toNat := by
  unfold toU32
  rw [Int.emod_eq_of_lt h0 h1]

theorem toI32_of_range (n : Nat) (h : n < 2147483648) : toI32 n = (n : Int) := by
  unfold toI32
  have : n % 4294967296 = n := Nat.mod_eq_of_lt (by omega)
  rw [this, if_pos h]

/-- With looping on, one advancement moves to the next frame modulo the frame count. -/
theorem frameBody_cur_loop (d : Dbl) (st : TrackState) (hloop : st.loop = true)
    (hN : st.total < 4294967296) (h0 : 0 ≤ st.curFrame) (h1 : st.curFrame < st.total) :
    (frameBody d st).curFrame = (st.curFrame + 1) % (st.total : Int) := by
  unfold frameBody
  rw [toU32_of_range _ (by omega) (by omega)]
  by_cases hge : (st.curFrame + 1).toNat ≥ st.total
  · simp only [hge, if_true, hloop]
    have : st.curFrame + 1 = (st.total : Int) := by omega
    rw [this, Int.emod_self]
  · simp only [hge, if_false]
    rw [Int.emod_eq_of_lt (by omega) (by omega)]

/-- With looping off, one advancement moves to the next frame but not past the last. -/
theorem frameBody_cur_clamp (d : Dbl) (st : TrackState) (hloop : st.loop = false)
    (hN : st.total < 2147483648) (h0 : 0 ≤ st.curFrame) (h1 : st.curFrame < st.total) :
    (frameBody d st).curFrame = min (st.curFrame + 1) ((st.total : Int) - 1) := by
  unfold frameBody
  rw [toU32_of_range _ (by omega) (by omega), toI32_of_range _ hN]
  by_cases hge : (st.curFrame + 1).toNat ≥ st.total
  · simp only [hge, if_true, hloop]
    simp only [Bool.false_eq_true, if_false]
    omega
  · simp only [hge, if_false]
    omega

theorem iterate_frameBody_fields (d : Dbl) (k : Nat) (st : TrackState) :
    ((frameBody d)^[k] st).loop = st.loop ∧ ((frameBody d)^[k] st).play = st.play ∧
    ((frameBody d)^[k] st).customFps = st.customFps ∧ ((frameBody d)^[k] st).fps = st.fps ∧
    ((frameBody d)^[k] st).total = st.total ∧ ((frameBody d)^[k] st).duration = st.duration ∧
    ((frameBody d)^[k] st).size = st.size ∧
    ((frameBody d)^[k] st).uploadedOnce = st.uploadedOnce ∧
    ((frameBody d)^[k] st).accum = (fun a => a - d)^[k] st.accum := by
  induction k generalizing st with
  | zero => simp
  | succ k ih =>
    rw [Function.iterate_succ_apply, Function.iterate_succ_apply]
    obtain ⟨a1, a2, a3, a4, a5, a6, a7, a8, a9⟩ := ih (frameBody d st)
    obtain ⟨b1, b2, b3, b4, b5, b6, b7, b8⟩ := frameBody_fields d st
    refine ⟨a1.trans b1, a2.trans b2, a3.trans b3, a4.trans b4, a5.trans b5, a6.trans b6,
      a7.trans b7, a8.trans b8, ?_⟩
    rw [a9, frameBody_accum]

theorem iterate_frameBody_cur_loop (d : Dbl) (k : Nat) (st : TrackState)
    (hloop : st.loop = true) (hN : st.total < 4294967296)
    (h0 : 0 ≤ st.curFrame) (h1 : st.curFrame < st.total) :
    ((frameBody d)^[k] st).curFrame = (st.curFrame + k) % (st.total : Int) := by
  induction k generalizing st with
  | zero =>
    simp only [Function.iterate_zero, id, Nat.cast_zero, add_zero]
    rw [Int.emod_eq_of_lt h0 h1]
  | succ k ih =>
    rw [Function.iterate_succ_apply]
    obtain ⟨b1, -, -, -, b5, -⟩ := frameBody_fields d st
    have hc := frameBody_cur_loop d st hloop hN h0 h1
    have hpos : (0 : Int) < (st.total : Int) := by omega
    rw [ih (frameBody d st) (b1.trans hloop) (by rw [b5]; exact hN)
      (by rw [hc]; exact Int.emod_nonneg _ (by omega))
      (by rw [hc, b5]; exact Int.emod_lt_of_pos _ hpos), hc, b5, Int.emod_add_emod]
    push_cast
    ring_nf

theorem iterate_frameBody_cur_clamp (d : Dbl) (k : Nat) (st : TrackState)
    (hloop : st.loop = false) (hN : st.total < 2147483648)
    (h0 : 0 ≤ st.curFrame) (h1 : st.curFrame < st.total) :
    ((frameBody d)^[k] st).curFrame = min (st.curFrame + k) ((st.total : Int) - 1) := by
  induction k generalizing st with
  | zero =>
    simp only [Function.iterate_zero, id, Nat.cast_zero, add_zero]
    omega
  | succ k ih =>
    rw [Function.iterate_succ_apply]
    obtain ⟨b1, -, -, -, b5, -⟩ := frameBody_fields d st
    have hc := frameBody_cur_clamp d st hloop hN h0 h1
    rw [ih (frameBody d st) (b1.trans hloop) (by rw [b5]; exact hN)
      (by rw [hc]; omega) (by rw [hc, b5]; omega), hc, b5]
    push_cast
    omega

theorem frameLoop_exit (d : Dbl) (fuel : Nat) (st : TrackState) (h : ¬ st.accum ≥ d) :
    frameLoop d fuel st = some st := by
  cases fuel with
  | zero => rw [frameLoop, if_neg h]
  | succ f => rw [frameLoop, if_neg h]

theorem frameLoop_step (d : Dbl) (fuel : Nat) (st : TrackState) (h : st.accum ≥ d) :
    frameLoop d (fuel + 1) st = frameLoop d fuel (frameBody d st) := by
  rw [frameLoop, if_pos h]

/-- A loop that exits has run its body some `k ≤ fuel` times: the exit test failed
before each of them and holds at the end. -/
theorem frameLoop_some (d : Dbl) (fuel : Nat) :
    ∀ st st1 : TrackState, frameLoop d fuel st = some st1 →
      ∃ k, k ≤ fuel ∧ st1 = (frameBody d)^[k] st ∧ ¬ st1.accum ≥ d ∧
        ∀ j, j < k → ((frameBody d)^[j] st).accum ≥ d := by
  induction fuel with
  | zero =>
    intro st st1 h
    rw [frameLoop] at h
    split at h
    · exact absurd h (by simp)
    · rename_i hex
      simp only [Option.some.injEq] at h
      subst h
      exact ⟨0, le_rfl, rfl, hex, fun j hj => absurd hj (Nat.not_lt_zero j)⟩
  | succ f ih =>
    intro st st1 h
    rw [frameLoop] at h
    split at h
    · rename_i hge
      obtain ⟨k, hk, e1, e2, e3⟩ := ih _ _ h
      refine ⟨k + 1, Nat.succ_le_succ hk, ?_, e2, ?_⟩
      · rw [Function.iterate_succ_apply]
        exact e1
      · intro j hj
        cases j with
        | zero => exact hge
        | succ i =>
          rw [Function.iterate_succ_apply]
          exact e3 i (by omega)
    · rename_i hex
      simp only [Option.some.injEq] at h
      subst h
      exact ⟨0, Nat.zero_le _, rfl, hex, fun j hj => absurd hj (Nat.not_lt_zero j)⟩

/-- When the exit test fails before each of the first `k` runs of the body and holds
after them, the loop exits after exactly `k` runs, given fuel for them. -/
theorem frameLoop_of_iterate (d : Dbl) (k : Nat) :
    ∀ (fuel : Nat) (st : TrackState), k ≤ fuel →
      (∀ j, j < k → ((frameBody d)^[j] st).accum ≥ d) →
      ¬ ((frameBody d)^[k] st).accum ≥ d →
      frameLoop d fuel st = some ((frameBody d)^[k] st) := by
  induction k with
  | zero =>
    intro fuel st _ _ hex
    exact frameLoop_exit d fuel st hex
  | succ k ih =>
    intro fuel st hfuel hrun hex
    obtain ⟨f, rfl⟩ : ∃ f, fuel = f + 1 := ⟨fuel - 1, by omega⟩
    rw [frameLoop_step d f st (hrun 0 (Nat.succ_pos k)), Function.iterate_succ_apply]
    refine ih f _ (by omega) (fun j hj => ?_) ?_
    · have := hrun (j + 1) (by omega)
      rwa [Function.iterate_succ_apply] at this
    · rwa [Function.iterate_succ_apply] at hex

/-- More fuel does not change the result of a loop that exits. -/
theorem frameLoop_mono (d : Dbl) (fuel fuel1 : Nat) (st st1 : TrackState)
    (h : frameLoop d fuel st = some st1) (hle : fuel ≤ fuel1) :
    frameLoop d fuel1 st = some st1 := by
  obtain ⟨k, hk, e1, e2, e3⟩ := frameLoop_some d fuel st st1 h
  rw [e1]
  rw [e1] at e2
  exact frameLoop_of_iterate d k fuel1 st (by omega) e3 e2

/-- A loop whose accumulator does not change under the subtraction never exits. -/
theorem frameLoop_stuck (d : Dbl) (fuel : Nat) :
    ∀ st : TrackState, st.accum ≥ d → st.accum - d = st.accum → frameLoop d fuel st = none := by
  induction fuel with
  | zero =>
    intro st hge _
    rw [frameLoop, if_pos hge]
  | succ f ih =>
    intro st hge hfix
    rw [frameLoop_step d f st hge]
    have hacc : (frameBody d st).accum = st.accum := by rw [frameBody_accum, hfix]
    exact ih _ (by rw [hacc]; exact hge) (by rw [hacc]; exact hfix)

/-- On a grid on which the subtractions are exact, the loop runs `⌊accum / frameDur⌋`
times and leaves the remainder. -/
theorem frameLoop_exact (md e : Nat) (hmd : 0 < md) (hd : 2 ^ e ∣ md) (fuel : Nat) :
    ∀ (ma : Nat) (st : TrackState), st.accum = Dbl.fin false ma → 2 ^ e ∣ ma →
      ma < 2 ^ (53 + e) → ma < 2 ^ 2098 → ma / md ≤ fuel →
      frameLoop (Dbl.fin false md) fuel st = some ((frameBody (Dbl.fin false md))^[ma / md] st) ∧
      ((frameBody (Dbl.fin false md))^[ma / md] st).accum = Dbl.fin false (ma % md) := by
  induction fuel with
  | zero =>
    intro ma st hacc _ _ _ hfuel
    have hk : ma / md = 0 := Nat.le_zero.mp hfuel
    have hlt : ma < md := (Nat.div_eq_zero_iff hmd).mp hk
    rw [hk, Function.iterate_zero, id, Nat.mod_eq_of_lt hlt]
    refine ⟨frameLoop_exit _ _ st ?_, hacc⟩
    rw [hacc, ge_iff_le, Dbl.fin_le_fin]
    omega
  | succ f ih =>
    intro ma st hacc hga hlt53 hfin hfuel
    by_cases hlt : ma < md
    · have hk : ma / md = 0 := Nat.div_eq_of_lt hlt
      rw [hk, Function.iterate_zero, id, Nat.mod_eq_of_lt hlt]
      refine ⟨frameLoop_exit _ _ st ?_, hacc⟩
      rw [hacc, ge_iff_le, Dbl.fin_le_fin]
      omega
    · have hle : md ≤ ma := Nat.le_of_not_lt hlt
      have hge : st.accum ≥ Dbl.fin false md := by
        rw [hacc, ge_iff_le, Dbl.fin_le_fin]
        exact hle
      have hacc1 : (frameBody (Dbl.fin false md) st).accum = Dbl.fin false (ma - md) := by
        rw [frameBody_accum, hacc, Dbl.sub_exact ma md e hle hga hd hlt53 hfin]
      have hdiv : ma / md = (ma - md) / md + 1 := by
        rw [Nat.div_eq_sub_div hmd hle]
      have hmod : ma % md = (ma - md) % md := Nat.mod_eq_sub_mod hle
      have hfuel1 : (ma - md) / md ≤ f := by
        rw [hdiv] at hfuel
        exact Nat.le_of_succ_le_succ hfuel
      obtain ⟨r1, r2⟩ := ih (ma - md) (frameBody (Dbl.fin false md) st) hacc1
        (Nat.dvd_sub' hga hd) (lt_of_le_of_lt (Nat.sub_le _ _) hlt53)
        (lt_of_le_of_lt (Nat.sub_le _ _) hfin) hfuel1
      rw [frameLoop_step _ _ _ hge, hdiv, Function.iterate_succ_apply, hmod]
      exact ⟨r1, r2⟩

/-- The ways `produceTrack` returns: the track as it was, or with the state the loop
left. -/
theorem produceTrack_cases (fuel : Nat) (dt : Dbl) (t t1 : Track)
    (h : produceTrack fuel dt t = some t1) :
    t1 = t ∨
    (t.anim.isNone = false ∧ ¬ useFps t.st ≤ 0 ∧ t.st.play = true ∧
      ∃ st, frameLoop (1 / useFps t.st) fuel { t.st with accum := t.st.accum + dt } = some st ∧
        t1 = { t with st := st }) := by
  unfold produceTrack at h
  split at h
  · left
    simp only [Option.some.injEq] at h
    exact h.symm
  · rename_i hanim
    split at h
    · left
      simp only [Option.some.injEq] at h
      exact h.symm
    · rename_i hR
      split at h
      · rename_i hplay
        split at h
        · exact absurd h (by simp)
        · rename_i st hst
          right
          simp only [Option.some.injEq] at h
          refine ⟨?_, hR, hplay, st, hst, h.symm⟩
          cases hb : t.anim.isNone with
          | true => exact absurd hb hanim
          | false => rfl
      · left
        simp only [Option.some.injEq] at h
        exact h.symm

theorem produceTrack_keeps (fuel : Nat) (dt : Dbl) (t t1 : Track)
    (h : produceTrack fuel dt t = some t1) :
    t1.anim = t.anim ∧ t1.tex = t.tex ∧
    t1.st.uploadedOnce = t.st.uploadedOnce ∧
    t1.stagingBGRA = t.stagingBGRA ∧
    t1.stagingRGBA = t.stagingRGBA ∧
    t1.st.loop = t.st.loop ∧ t1.st.play = t.st.play ∧ t1.st.customFps = t.st.customFps ∧
    t1.st.fps = t.st.fps ∧ t1.st.total = t.st.total ∧ t1.st.duration = t.st.duration ∧
    t1.st.size = t.st.size := by
  rcases produceTrack_cases fuel dt t t1 h with h1 | ⟨-, -, -, st, hst, h1⟩
  · rw [h1]
    exact ⟨rfl, rfl, rfl, rfl, rfl, rfl, rfl, rfl, rfl, rfl, rfl, rfl⟩
  · obtain ⟨k, -, e1, -, -⟩ := frameLoop_some _ _ _ _ hst
    obtain ⟨f1, f2, f3, f4, f5, f6, f7, f8, -⟩ := iterate_frameBody_fields (1 / useFps t.st) k
      { t.st with accum := t.st.accum + dt }
    rw [h1, e1]
    exact ⟨rfl, rfl, f8, rfl, rfl, f1, f2, f3, f4, f5, f6, f7⟩

theorem produceTrackOr_keeps (fuel : Nat) (dt : Dbl) (t : Track) :
    (produceTrackOr fuel dt t).anim = t.anim ∧ (produceTrackOr fuel dt t).tex = t.tex ∧
    (produceTrackOr fuel dt t).st.uploadedOnce = t.st.uploadedOnce ∧
    (produceTrackOr fuel dt t).stagingBGRA = t.stagingBGRA ∧
    (produceTrackOr fuel dt t).stagingRGBA = t.stagingRGBA := by
  unfold produceTrackOr
  cases h : produceTrack fuel dt t with
  | none => exact ⟨rfl, rfl, rfl, rfl, rfl⟩
  | some t1 =>
    obtain ⟨k1, k2, k3, k4, k5, -⟩ := produceTrack_keeps fuel dt t t1 h
    exact ⟨k1, k2, k3, k4, k5⟩

theorem produceTrack_paused (fuel : Nat) (dt : Dbl) (t : Track) (hplay : t.st.play = false) :
    produceTrack fuel dt t = some t := by
  unfold produceTrack
  split
  · rfl
  · split
    · rfl
    · simp [hplay]

theorem produceTrack_skipped (fuel : Nat) (dt : Dbl) (t : Track)
    (h : t.anim = none ∨ useFps t.st ≤ 0) : produceTrack fuel dt t = some t := by
  unfold produceTrack
  rcases h with h | h
  · rw [h]
    rfl
  · by_cases hn : t.anim.isNone = true
    · rw [if_pos hn]
    · rw [if_neg hn, if_pos h]

/-- A pass over the store that returns has returned on every track, and the store it
leaves is the old one with each track replaced by what `produceTrack` returned. -/
theorem produceTracks_eq_map (fuel : Nat) (dt : Dbl) :
    ∀ s s1 : List (Nat × Track), produceTracks fuel dt s = some s1 →
      s1 = s.map (fun kv => (kv.1, produceTrackOr fuel dt kv.2)) ∧
      ∀ kv ∈ s, produceTrack fuel dt kv.2 = some (produceTrackOr fuel dt kv.2) := by
  intro s
  induction s with
  | nil =>
    intro s1 h
    simp only [produceTracks, Option.some.injEq] at h
    subst h
    exact ⟨rfl, fun kv hkv => absurd hkv (List.not_mem_nil kv)⟩
  | cons kv rest ih =>
    intro s1 h
    rw [produceTracks] at h
    cases ht : produceTrack fuel dt kv.2 with
    | none =>
      rw [ht] at h
      exact absurd h (by simp)
    | some t =>
      cases hr : produceTracks fuel dt rest with
      | none =>
        rw [ht, hr] at h
        exact absurd h (by simp)
      | some rest1 =>
        rw [ht, hr] at h
        simp only [Option.some.injEq] at h
        obtain ⟨e1, e2⟩ := ih rest1 hr
        have hor : produceTrackOr fuel dt kv.2 = t := by
          unfold produceTrackOr
          rw [ht]
          rfl
        constructor
        · rw [← h, List.map_cons, hor, e1]
        · intro kv1 hkv1
          rcases List.mem_cons.mp hkv1 with hh | hh
          · rw [hh, ht, hor]
          · exact e2 kv1 hh

/-- When `produceTrack` returns on every track, so does the pass over the store. -/
theorem produceTracks_of_all (fuel : Nat) (dt : Dbl) :
    ∀ s : List (Nat × Track), (∀ kv ∈ s, ∃ t1, produceTrack fuel dt kv.2 = some t1) →
      produceTracks fuel dt s = some (s.map (fun kv => (kv.1, produceTrackOr fuel dt kv.2))) := by
  intro s
  induction s with
  | nil =>
    intro _
    rfl
  | cons kv rest ih =>
    intro h
    obtain ⟨t1, ht1⟩ := h kv (List.mem_cons_self _ _)
    have hrest := ih (fun x hx => h x (List.mem_cons_of_mem _ hx))
    have hor : produceTrackOr fuel dt kv.2 = t1 := by
      unfold produceTrackOr
      rw [ht1]
      rfl
    rw [produceTracks, ht1, hrest, List.map_cons, hor]

theorem produceFrames_eq_map (fuel : Nat) (dt : Dbl) (r r1 : Renderer)
    (h : produceFrames fuel dt r = some r1) :
    r1 = { queue := r.queue,
           tracks := r.tracks.map (fun kv => (kv.1, produceTrackOr fuel dt kv.2)) } ∧
    ∀ kv ∈ r.tracks, produceTrack fuel dt kv.2 = some (produceTrackOr fuel dt kv.2) := by
  unfold produceFrames at h
  split at h
  · exact absurd h (by simp)
  · rename_i s hs
    simp only [Option.some.injEq] at h
    obtain ⟨e1, e2⟩ := produceTracks_eq_map fuel dt r.tracks s hs
    refine ⟨?_, e2⟩
    rw [← h, e1]

/-- After a pass that returns, the track of an identifier is what `produceTrack`
returned on the track it had before. -/
theorem produceFrames_find (pid fuel : Nat) (dt : Dbl) (r r1 : Renderer)
    (h : produceFrames fuel dt r = some r1) :
    tracksFind pid r1.tracks = (tracksFind pid r.tracks).bind (produceTrack fuel dt) := by
  obtain ⟨e1, e2⟩ := produceFrames_eq_map fuel dt r r1 h
  rw [e1]
  show tracksFind pid (r.tracks.map (fun kv => (kv.1, produceTrackOr fuel dt kv.2))) = _
  rw [tracksFind_map]
  cases hf : tracksFind pid r.tracks with
  | none => rfl
  | some t =>
    have := e2 (pid, t) (tracksFind_mem pid t r.tracks hf)
    simp only [Option.map_some', Option.some_bind]
    exact this.symm

/-- The same over a sequence of passes. -/
theorem produceFrames_foldlM_find (pid fuel : Nat) (dts : List Dbl) :
    ∀ r r1 : Renderer, dts.foldlM (fun r dt => produceFrames fuel dt r) r = some r1 →
      tracksFind pid r1.tracks
        = (tracksFind pid r.tracks).bind
            (fun t => dts.foldlM (fun t dt => produceTrack fuel dt t) t) := by
  induction dts with
  | nil =>
    intro r r1 h
    simp only [List.foldlM_nil, Option.pure_def, Option.some.injEq] at h
    subst h
    cases tracksFind pid r.tracks <;> rfl
  | cons dt dts ih =>
    intro r r1 h
    simp only [List.foldlM_cons, Option.bind_eq_bind] at h
    cases h1 : produceFrames fuel dt r with
    | none =>
      rw [h1] at h
      exact absurd h (by simp)
    | some r2 =>
      rw [h1] at h
      simp only [Option.some_bind] at h
      rw [ih r2 r1 h, produceFrames_find pid fuel dt r r2 h1]
      cases tracksFind pid r.tracks with
      | none => rfl
      | some t =>
        simp only [Option.some_bind, List.foldlM_cons, Option.bind_eq_bind]

theorem Dbl.pow_not_le_zero (p : Nat) : ¬ Dbl.fin false (2 ^ p) ≤ 0 := by
  rw [Dbl.zero_eq, Dbl.fin_le_fin]
  have : 0 < 2 ^ p := pow_pos (by decide) p
  omega

/-- One scheduler pass on a playing track whose rate is a power of two `2^p` (in units,
so `R = 2^(p - 1074)`), the accumulator and the delta being multiples of `2^e` that
divides the frame period, with a sum below `2^(53+e)`: every operation is exact, the
body runs `(accum + dt) div frameDur` times and the remainder is left in `accum`. -/
theorem produceTrack_exact (fuel : Nat) (t : Track) (p e ma mdt : Nat)
    (hanim : t.anim.isSome = true) (hplay : t.st.play = true)
    (hR : useFps t.st = Dbl.fin false (2 ^ p)) (hp1 : 51 ≤ p) (hp2 : p ≤ 2148)
    (he : e ≤ 2148 - p) (he2 : e ≤ 2045)
    (hacc : t.st.accum = Dbl.fin false ma) (hga : 2 ^ e ∣ ma) (hgdt : 2 ^ e ∣ mdt)
    (hlt : ma + mdt < 2 ^ (53 + e)) (hfuel : (ma + mdt) / 2 ^ (2148 - p) ≤ fuel) :
    produceTrack fuel (Dbl.fin false mdt) t
      = some { t with
          st := ((frameBody (Dbl.fin false (2 ^ (2148 - p))))^[(ma + mdt) / 2 ^ (2148 - p)]
            { t.st with accum := Dbl.fin false (ma + mdt) }) } ∧
    ((frameBody (Dbl.fin false (2 ^ (2148 - p))))^[(ma + mdt) / 2 ^ (2148 - p)]
        { t.st with accum := Dbl.fin false (ma + mdt) }).accum
      = Dbl.fin false ((ma + mdt) % 2 ^ (2148 - p)) := by
  have hfin : ma + mdt < 2 ^ 2098 :=
    lt_of_lt_of_le hlt (Nat.pow_le_pow_right (by decide) (by omega))
  have hsum : t.st.accum + Dbl.fin false mdt = Dbl.fin false (ma + mdt) := by
    rw [hacc, Dbl.add_exact ma mdt e hga hgdt hlt hfin]
  obtain ⟨l1, l2⟩ := frameLoop_exact (2 ^ (2148 - p)) e (pow_pos (by decide) _)
    (pow_dvd_pow 2 he) fuel (ma + mdt) { t.st with accum := Dbl.fin false (ma + mdt) } rfl
    (Nat.dvd_add hga hgdt) hlt hfin hfuel
  refine ⟨?_, l2⟩
  unfold produceTrack
  have h1 : t.anim.isNone = false := by
    cases ha : t.anim with
    | none => simp [ha] at hanim
    | some a => rfl
  rw [h1, hR, if_neg (Dbl.pow_not_le_zero p), hplay, Dbl.one_div_pow p hp1 hp2, hsum, l1]
  rfl

/-- Frames elapsed after `T` units of time at frame period `md` units, as a floor. -/
theorem floor_units (T p : Nat) (hp : p ≤ 2148) :
    ⌊((T : ℚ) / 2 ^ 1074) * ((2 : ℚ) ^ p / 2 ^ 1074)⌋ = ((T / 2 ^ (2148 - p) : Nat) : Int) := by
  have h2 : (2 : ℚ) ^ 1074 * 2 ^ 1074 = 2 ^ p * 2 ^ (2148 - p) := by
    rw [← pow_add, ← pow_add]
    congr 1
    omega
  have hpos : (0 : ℚ) < 2 ^ p := by positivity
  have hq : ((T : ℚ) / 2 ^ 1074) * ((2 : ℚ) ^ p / 2 ^ 1074)
      = (T : ℚ) / ((2 ^ (2148 - p) : Nat) : ℚ) := by
    rw [div_mul_div_comm, h2]
    push_cast
    field_simp
    ring
  rw [hq, Rat.floor_natCast_div_natCast]
  push_cast
  rfl

theorem units_div_add (T m md : Nat) (hmd : 0 < md) :
    (T + m) / md = T / md + (T % md + m) / md ∧ (T + m) % md = (T % md + m) % md := by
  constructor
  · conv_lhs => rw [← Nat.div_add_mod T md]
    rw [Nat.add_assoc, Nat.mul_add_div hmd]
  · rw [Nat.mod_add_mod]

theorem useFps_of_eq (st1 st2 : TrackState) (h1 : st2.customFps = st1.customFps)
    (h2 : st2.fps = st1.fps) : useFps st2 = useFps st1 := by
  unfold useFps
  rw [h1, h2]

/-- Invariant of a looping, playing track over a run of exact scheduler passes: after
`T` units of time the accumulator holds `T mod md` and the frame index is
`(T div md) mod N`, `md` being the frame period in units. -/
theorem produceTrack_run_loop (fuel N p e : Nat) (hN0 : 0 < N) (hN32 : N < 4294967296)
    (hp1 : 51 ≤ p) (hp2 : p ≤ 2148) (he : e ≤ 2148 - p) (he2 : e ≤ 2045) (ms : List Nat) :
    ∀ (t : Track) (T : Nat), (∀ m ∈ ms, 2 ^ e ∣ m) → 2 ^ e ∣ T →
      T + ms.sum < 2 ^ (53 + e) → (T + ms.sum) / 2 ^ (2148 - p) ≤ fuel →
      t.anim.isSome = true → t.st.play = true → t.st.loop = true →
      useFps t.st = Dbl.fin false (2 ^ p) → t.st.total = N →
      t.st.accum = Dbl.fin false (T % 2 ^ (2148 - p)) →
      t.st.curFrame = ((T / 2 ^ (2148 - p) : Nat) : Int) % (N : Int) →
      ∃ t1, (ms.map (Dbl.fin false)).foldlM (fun t dt => produceTrack fuel dt t) t = some t1 ∧
        t1.st.curFrame = (((T + ms.sum) / 2 ^ (2148 - p) : Nat) : Int) % (N : Int) := by
  induction ms with
  | nil =>
    intro t T _ _ _ _ _ _ _ _ _ _ hcur
    exact ⟨t, rfl, by simpa using hcur⟩
  | cons m ms ih =>
    intro t T hms hT hlt hfuel hanim hplay hloop hR hN hacc hcur
    have hmd : 0 < 2 ^ (2148 - p) := pow_pos (by decide) _
    have hgd : 2 ^ e ∣ 2 ^ (2148 - p) := pow_dvd_pow 2 he
    simp only [List.sum_cons] at hlt hfuel
    obtain ⟨u1, u2⟩ := units_div_add T m (2 ^ (2148 - p)) hmd
    have hmle : T % 2 ^ (2148 - p) ≤ T := Nat.mod_le _ _
    have hfuel1 : (T % 2 ^ (2148 - p) + m) / 2 ^ (2148 - p) ≤ fuel := by
      have a1 : (T % 2 ^ (2148 - p) + m) / 2 ^ (2148 - p) ≤ (T + m) / 2 ^ (2148 - p) := by
        rw [u1]
        exact Nat.le_add_left _ _
      have a2 : (T + m) / 2 ^ (2148 - p) ≤ (T + (m + ms.sum)) / 2 ^ (2148 - p) :=
        Nat.div_le_div_right (by omega)
      exact le_trans (le_trans a1 a2) hfuel
    obtain ⟨q1, q2⟩ := produceTrack_exact fuel t p e (T % 2 ^ (2148 - p)) m hanim hplay hR hp1 hp2
      he he2 hacc ((Nat.dvd_mod_iff hgd).mpr hT) (hms m (List.mem_cons_self _ _))
      (by omega) hfuel1
    obtain ⟨f1, f2, f3, f4, f5, -, -, -, -⟩ := iterate_frameBody_fields
      (Dbl.fin false (2 ^ (2148 - p))) ((T % 2 ^ (2148 - p) + m) / 2 ^ (2148 - p))
      { t.st with accum := Dbl.fin false (T % 2 ^ (2148 - p) + m) }
    have hNpos : (0 : Int) < (N : Int) := by omega
    have hc0 : 0 ≤ t.st.curFrame := by rw [hcur]; exact Int.emod_nonneg _ (by omega)
    have hc1 : t.st.curFrame < t.st.total := by
      rw [hcur, hN]; exact Int.emod_lt_of_pos _ hNpos
    have fc := iterate_frameBody_cur_loop (Dbl.fin false (2 ^ (2148 - p)))
      ((T % 2 ^ (2148 - p) + m) / 2 ^ (2148 - p))
      { t.st with accum := Dbl.fin false (T % 2 ^ (2148 - p) + m) } hloop
      (by simpa [hN] using hN32) hc0 hc1
    obtain ⟨t1, r1, r2⟩ := ih
      { t with
        st := ((frameBody (Dbl.fin false (2 ^ (2148 - p))))^[(T % 2 ^ (2148 - p) + m)
          / 2 ^ (2148 - p)] { t.st with accum := Dbl.fin false (T % 2 ^ (2148 - p) + m) }) }
      (T + m) (fun x hx => hms x (List.mem_cons_of_mem _ hx))
      (Nat.dvd_add hT (hms m (List.mem_cons_self _ _))) (by omega)
      (by rw [Nat.add_assoc]; exact hfuel) hanim (f2.trans hplay) (f1.trans hloop)
      ((useFps_of_eq _ _ f3 f4).trans hR) (f5.trans hN) (by rw [q2, u2])
      (by
        show TrackState.curFrame _ = _
        rw [fc]
        show (t.st.curFrame + _) % ((t.st.total : Nat) : Int) = _
        rw [hcur, hN, Int.emod_add_emod, u1]
        push_cast
        rfl)
    refine ⟨t1, ?_, ?_⟩
    · simp only [List.map_cons, List.foldlM_cons, Option.bind_eq_bind, q1, Option.some_bind]
      exact r1
    · rw [r2, Nat.add_assoc, List.sum_cons]

/-- Invariant of a non-looping, playing track over a run of exact scheduler passes:
after `T` units of time the frame index is `min (T div md) (N - 1)`. -/
theorem produceTrack_run_clamp (fuel N p e : Nat) (hN0 : 0 < N) (hN31 : N < 2147483648)
    (hp1 : 51 ≤ p) (hp2 : p ≤ 2148) (he : e ≤ 2148 - p) (he2 : e ≤ 2045) (ms : List Nat) :
    ∀ (t : Track) (T : Nat), (∀ m ∈ ms, 2 ^ e ∣ m) → 2 ^ e ∣ T →
      T + ms.sum < 2 ^ (53 + e) → (T + ms.sum) / 2 ^ (2148 - p) ≤ fuel →
      t.anim.isSome = true → t.st.play = true → t.st.loop = false →
      useFps t.st = Dbl.fin false (2 ^ p) → t.st.total = N →
      t.st.accum = Dbl.fin false (T % 2 ^ (2148 - p)) →
      t.st.curFrame = min ((T / 2 ^ (2148 - p) : Nat) : Int) ((N : Int) - 1) →
      ∃ t1, (ms.map (Dbl.fin false)).foldlM (fun t dt => produceTrack fuel dt t) t = some t1 ∧
        t1.st.curFrame = min (((T + ms.sum) / 2 ^ (2148 - p) : Nat) : Int) ((N : Int) - 1) := by
  induction ms with
  | nil =>
    intro t T _ _ _ _ _ _ _ _ _ _ hcur
    exact ⟨t, rfl, by simpa using hcur⟩
  | cons m ms ih =>
    intro t T hms hT hlt hfuel hanim hplay hloop hR hN hacc hcur
    have hmd : 0 < 2 ^ (2148 - p) := pow_pos (by decide) _
    have hgd : 2 ^ e ∣ 2 ^ (2148 - p) := pow_dvd_pow 2 he
    simp only [List.sum_cons] at hlt hfuel
    obtain ⟨u1, u2⟩ := units_div_add T m (2 ^ (2148 - p)) hmd
    have hmle : T % 2 ^ (2148 - p) ≤ T := Nat.mod_le _ _
    have hfuel1 : (T % 2 ^ (2148 - p) + m) / 2 ^ (2148 - p) ≤ fuel := by
      have a1 : (T % 2 ^ (2148 - p) + m) / 2 ^ (2148 - p) ≤ (T + m) / 2 ^ (2148 - p) := by
        rw [u1]
        exact Nat.le_add_left _ _
      have a2 : (T + m) / 2 ^ (2148 - p) ≤ (T + (m + ms.sum)) / 2 ^ (2148 - p) :=
        Nat.div_le_div_right (by omega)
      exact le_trans (le_trans a1 a2) hfuel
    obtain ⟨q1, q2⟩ := produceTrack_exact fuel t p e (T % 2 ^ (2148 - p)) m hanim hplay hR hp1 hp2
      he he2 hacc ((Nat.dvd_mod_iff hgd).mpr hT) (hms m (List.mem_cons_self _ _))
      (by omega) hfuel1
    obtain ⟨f1, f2, f3, f4, f5, -, -, -, -⟩ := iterate_frameBody_fields
      (Dbl.fin false (2 ^ (2148 - p))) ((T % 2 ^ (2148 - p) + m) / 2 ^ (2148 - p))
      { t.st with accum := Dbl.fin false (T % 2 ^ (2148 - p) + m) }
    have hnn : (0 : Int) ≤ ((T / 2 ^ (2148 - p) : Nat) : Int) := Int.natCast_nonneg _
    have hc0 : 0 ≤ t.st.curFrame := by
      rw [hcur]
      exact le_min hnn (by omega)
    have hc1 : t.st.curFrame < t.st.total := by
      rw [hcur, hN]
      exact lt_of_le_of_lt (min_le_right _ _) (by omega)
    have fc := iterate_frameBody_cur_clamp (Dbl.fin false (2 ^ (2148 - p)))
      ((T % 2 ^ (2148 - p) + m) / 2 ^ (2148 - p))
      { t.st with accum := Dbl.fin false (T % 2 ^ (2148 - p) + m) } hloop
      (by simpa [hN] using hN31) hc0 hc1
    obtain ⟨t1, r1, r2⟩ := ih
      { t with
        st := ((frameBody (Dbl.fin false (2 ^ (2148 - p))))^[(T % 2 ^ (2148 - p) + m)
          / 2 ^ (2148 - p)] { t.st with accum := Dbl.fin false (T % 2 ^ (2148 - p) + m) }) }
      (T + m) (fun x hx => hms x (List.mem_cons_of_mem _ hx))
      (Nat.dvd_add hT (hms m (List.mem_cons_self _ _))) (by omega)
      (by rw [Nat.add_assoc]; exact hfuel) hanim (f2.trans hplay) (f1.trans hloop)
      ((useFps_of_eq _ _ f3 f4).trans hR) (f5.trans hN) (by rw [q2, u2])
      (by
        show TrackState.curFrame _ = _
        rw [fc]
        show min (t.st.curFrame + _) (((t.st.total : Nat) : Int) - 1) = _
        rw [hcur, hN, u1]
        push_cast
        generalize ((T / 2 ^ (2148 - p) : Nat) : Int) = a at hnn
        have hkn : (0 : Int) ≤ (((T % 2 ^ (2148 - p) + m) / 2 ^ (2148 - p) : Nat) : Int) :=
          Int.natCast_nonneg _
        push_cast at hkn
        generalize ((T : Int) % 2 ^ (2148 - p) + (m : Int)) / 2 ^ (2148 - p) = k at hkn
        omega)
    refine ⟨t1, ?_, ?_⟩
    · simp only [List.map_cons, List.foldlM_cons, Option.bind_eq_bind, q1, Option.some_bind]
      exact r1
    · rw [r2, Nat.add_assoc, List.sum_cons]

theorem sum_toRat (ms : List Nat) :
    (ms.map (fun m => (Dbl.fin false m).toRat)).sum = (ms.sum : ℚ) / 2 ^ 1074 := by
  induction ms with
  | nil => simp
  | cons m ms ih =>
    rw [List.map_cons, List.sum_cons, ih, Dbl.toRat_fin, List.sum_cons]
    push_cast
    ring

/-- The loop exits after exactly `k` runs of its body when it exits with fuel `k` and
not with fuel `k - 1`; the count depends on the accumulator only. -/
theorem frameLoop_count (d : Dbl) (k : Nat) (st0 st : TrackState) (hacc : st.accum = st0.accum)
    (h1 : (frameLoop d (k + 1) st0).isSome = true) (h2 : frameLoop d k st0 = none)
    (fuel : Nat) (hfuel : k + 1 ≤ fuel) :
    frameLoop d fuel st = some ((frameBody d)^[k + 1] st) := by
  obtain ⟨st1, hst1⟩ := Option.isSome_iff_exists.mp h1
  obtain ⟨j, hj, e1, e2, e3⟩ := frameLoop_some d (k + 1) st0 st1 hst1
  have hjk : j = k + 1 := by
    by_contra hne
    have hle : j ≤ k := by omega
    rw [e1] at e2
    have := frameLoop_of_iterate d j k st0 hle e3 e2
    rw [h2] at this
    exact absurd this (by simp)
  subst hjk
  rw [e1] at e2
  have hiter : ∀ i, ((frameBody d)^[i] st).accum = ((frameBody d)^[i] st0).accum := by
    intro i
    rw [(iterate_frameBody_fields d i st).2.2.2.2.2.2.2.2,
      (iterate_frameBody_fields d i st0).2.2.2.2.2.2.2.2, hacc]
  refine frameLoop_of_iterate d (k + 1) fuel st hfuel (fun i hi => ?_) ?_
  · rw [hiter]
    exact e3 i hi
  · rw [hiter]
    exact e2

set_option maxRecDepth 100000 in
/-- At 30 frames per second, a pass of two seconds from an empty accumulator runs the
loop body 59 times: the rounded period `1 / 30` is above one thirtieth, and the
subtractions round as well. -/
theorem frameLoop_thirty (st : TrackState) (hacc : st.accum = 0 + 2) (fuel : Nat)
    (hfuel : 59 ≤ fuel) :
    frameLoop (1 / 30) fuel st = some ((frameBody (1 / 30))^[59] st) :=
  frameLoop_count (1 / 30) 58 { accum := 0 + 2 } st hacc (by decide!) (by decide!) fuel hfuel

theorem produceFrames_single (fuel pid : Nat) (dt : Dbl) (t t1 : Track)
    (h : produceTrack fuel dt t = some t1) :
    produceFrames fuel dt { tracks := [(pid, t)] } = some { tracks := [(pid, t1)] } := by
  simp [produceFrames, produceTracks, h]

theorem Dbl.toRat_two : Dbl.toRat 2 = 2 ∧ Dbl.toRat 30 = 30 := by
  have h2 : (2 : Dbl) = Dbl.fin false (2 * 2 ^ 1074) := by decide!
  have h30 : (30 : Dbl) = Dbl.fin false (30 * 2 ^ 1074) := by decide!
  rw [h2, h30, Dbl.toRat_fin, Dbl.toRat_fin]
  constructor
  · push_cast
    field_simp
  · push_cast
    field_simp

/-- C3 (amended): a loaded, looping, playing track with `total = N > 0`, starting from
`accum = 0` and `curFrame = 0`, whose effective rate `R` is a power of two (`2^p` units,
so that the frame period `1 / R` is a double), over any finite sequence of
`produceFrames(dt_i)` calls whose `dt_i` are non-negative finite doubles, multiples of a
power of two `q` (`2^e` units) that divides `1 / R`, with sum `t < 2^53 * q`: every
double operation is exact, the passes over this track return (given fuel for
`⌊t * R⌋` loop runs), and `curFrame = ⌊t * R⌋ mod N`; whenever the passes over the whole
store return, the store holds the track in that state. -/
theorem produceFrames_loop_wrap (fuel : Nat) (r : Renderer) (pid : Nat) (t : Track)
    (N p e : Nat) (ms : List Nat)
    (hfind : tracksFind pid r.tracks = some t) (hanim : t.anim.isSome = true)
    (hN : t.st.total = N) (hN0 : 0 < N) (hN32 : N < 4294967296)
    (hloop : t.st.loop = true) (hplay : t.st.play = true)
    (hR : useFps t.st = Dbl.fin false (2 ^ p)) (hp1 : 51 ≤ p) (hp2 : p ≤ 2097)
    (hacc : t.st.accum = 0) (hcur : t.st.curFrame = 0)
    (he : e ≤ 2148 - p) (he2 : e ≤ 2045)
    (hms : ∀ m ∈ ms, 2 ^ e ∣ m) (hlt : ms.sum < 2 ^ (53 + e))
    (hfuel : ms.sum / 2 ^ (2148 - p) ≤ fuel) :
    ∃ t1, (ms.map (Dbl.fin false)).foldlM (fun t dt => produceTrack fuel dt t) t = some t1 ∧
      t1.st.curFrame
        = ⌊(ms.map (fun m => (Dbl.fin false m).toRat)).sum * (Dbl.fin false (2 ^ p)).toRat⌋
          % (N : Int) ∧
      ∀ r1, (ms.map (Dbl.fin false)).foldlM (fun r dt => produceFrames fuel dt r) r = some r1 →
        tracksFind pid r1.tracks = some t1 := by
  have hmd : 0 < 2 ^ (2148 - p) := pow_pos (by decide) _
  obtain ⟨t1, h1, h2⟩ := produceTrack_run_loop fuel N p e hN0 hN32 hp1 (by omega) he he2 ms t 0
    hms (dvd_zero _) (by simpa using hlt) (by simpa using hfuel) hanim hplay hloop hR hN
    (by rw [hacc, Dbl.zero_eq, Nat.zero_mod]) (by rw [hcur, Nat.zero_div]; simp)
  refine ⟨t1, h1, ?_, ?_⟩
  · rw [h2, sum_toRat, Dbl.toRat_fin, Nat.zero_add]
    simp only [Nat.cast_pow, Nat.cast_ofNat]
    rw [floor_units ms.sum p (by omega)]
  · intro r1 hr1
    rw [produceFrames_foldlM_find pid fuel _ r r1 hr1, hfind, Option.some_bind, h1]

set_option maxRecDepth 100000 in
/-- C3, instance: five frames at rate 8 (`customFps = 8`), passes of 1/4 s and 1/2 s:
six frames have elapsed and the track is on frame `6 mod 5`. -/
theorem produceFrames_loop_wrap_witness :
    (8 : Dbl) = Dbl.fin false (2 ^ 1077) ∧ (1 / 4 : Dbl) = Dbl.fin false (2 ^ 1072) ∧
    (1 / 2 : Dbl) = Dbl.fin false (2 ^ 1073) ∧
    ∃ t1, ([2 ^ 1072, 2 ^ 1073].map (Dbl.fin false)).foldlM
        (fun t dt => produceTrack 10 dt t)
        { anim := some 0, st := { total := 5, customFps := 8 } } = some t1 ∧
      t1.st.curFrame
        = ⌊([2 ^ 1072, 2 ^ 1073].map (fun m => (Dbl.fin false m).toRat)).sum
            * (Dbl.fin false (2 ^ 1077)).toRat⌋ % ((5 : Nat) : Int) ∧
      ∀ r1, ([2 ^ 1072, 2 ^ 1073].map (Dbl.fin false)).foldlM
          (fun r dt => produceFrames 10 dt r)
          { tracks := [(1, { anim := some 0, st := { total := 5, customFps := 8 } })] } = some r1 →
        tracksFind 1 r1.tracks = some t1 :=
  ⟨by decide!, by decide!, by decide!,
   produceFrames_loop_wrap 10
    { tracks := [(1, { anim := some 0, st := { total := 5, customFps := 8 } })] } 1
    { anim := some 0, st := { total := 5, customFps := 8 } } 5 1077 1071 [2 ^ 1072, 2 ^ 1073]
    rfl rfl rfl (by decide) (by decide) rfl rfl (by decide!) (by decide) (by decide)
    rfl rfl (by decide) (by decide) (by decide!) (by decide!) (by decide!)⟩

/-- C3, counterexample: a looping track of 100 frames at `customFps = 30`, from
`accum = 0` and `curFrame = 0`; one `produceFrames(2.0)` call returns (for every fuel
from 59 on) and leaves `curFrame = 59`, whereas `⌊2 * 30⌋ mod 100 = 60`. -/
theorem produceFrames_loop_wrap_counterexample :
    (∀ fuel, 59 ≤ fuel →
      ∃ t1, produceFrames fuel 2
          { tracks := [(1, { anim := some 0, st := { total := 100, customFps := 30 } })] }
            = some { tracks := [(1, t1)] } ∧
        t1.st.curFrame = 59) ∧
    useFps { total := 100, customFps := 30 } = 30 ∧
    ⌊Dbl.toRat 2 * Dbl.toRat 30⌋ % ((100 : Nat) : Int) = 60 := by
  refine ⟨?_, rfl, ?_⟩
  · intro fuel hfuel
    have hloop := frameLoop_thirty { total := 100, customFps := 30, accum := 0 + 2 } rfl fuel hfuel
    have hcur := iterate_frameBody_cur_loop (1 / 30) 59
      { total := 100, customFps := 30, accum := 0 + 2 } rfl (by decide) (by decide) (by decide)
    have hno : ¬ (30 : Dbl) ≤ 0 := by decide!
    have hp : produceTrack fuel 2 { anim := some 0, st := { total := 100, customFps := 30 } }
        = some { anim := some 0,
                 st := ((frameBody (1 / 30))^[59]
                   { total := 100, customFps := 30, accum := 0 + 2 }) } := by
      unfold produceTrack
      have hu : useFps { total := 100, customFps := 30 } = 30 := rfl
      simp only [Option.isNone_some, Bool.false_eq_true, if_false, hu, hno, if_true]
      rw [hloop]
    refine ⟨_, produceFrames_single fuel 1 2 _ _ hp, ?_⟩
    rw [hcur]
    decide
  · rw [Dbl.toRat_two.1, Dbl.toRat_two.2]
    norm_num

/-- A non-looping track on its last frame stays there over a scheduler pass. -/
theorem produceTrack_last_stays (fuel N : Nat) (dt : Dbl) (t t1 : Track) (hN0 : 0 < N)
    (hN31 : N < 2147483648) (hloop : t.st.loop = false) (hN : t.st.total = N)
    (hcur : t.st.curFrame = (N : Int) - 1) (h : produceTrack fuel dt t = some t1) :
    t1.st.loop = false ∧ t1.st.total = N ∧ t1.st.curFrame = (N : Int) - 1 := by
  rcases produceTrack_cases fuel dt t t1 h with h1 | ⟨-, -, -, st, hst, h1⟩
  · rw [h1]
    exact ⟨hloop, hN, hcur⟩
  · obtain ⟨k, -, e1, -, -⟩ := frameLoop_some _ _ _ _ hst
    obtain ⟨f1, -, -, -, f5, -⟩ := iterate_frameBody_fields (1 / useFps t.st) k
      { t.st with accum := t.st.accum + dt }
    have fc := iterate_frameBody_cur_clamp (1 / useFps t.st) k
      { t.st with accum := t.st.accum + dt } hloop (by simpa [hN] using hN31)
      (by show 0 ≤ t.st.curFrame; omega) (by show t.st.curFrame < t.st.total; omega)
    rw [h1, e1]
    refine ⟨f1.trans hloop, f5.trans hN, ?_⟩
    show TrackState.curFrame _ = _
    rw [fc]
    show min (t.st.curFrame + _) (((t.st.total : Nat) : Int) - 1) = _
    rw [hcur, hN]
    omega

theorem produceTrack_last_stays_foldlM (fuel N : Nat) (hN0 : 0 < N) (hN31 : N < 2147483648)
    (dts : List Dbl) :
    ∀ t t1 : Track, t.st.loop = false → t.st.total = N → t.st.curFrame = (N : Int) - 1 →
      dts.foldlM (fun t dt => produceTrack fuel dt t) t = some t1 →
      t1.st.curFrame = (N : Int) - 1 := by
  induction dts with
  | nil =>
    intro t t1 _ _ hcur h
    simp only [List.foldlM_nil, Option.pure_def, Option.some.injEq] at h
    rw [← h]
    exact hcur
  | cons dt dts ih =>
    intro t t1 hloop hN hcur h
    simp only [List.foldlM_cons, Option.bind_eq_bind] at h
    cases h1 : produceTrack fuel dt t with
    | none =>
      rw [h1] at h
      exact absurd h (by simp)
    | some t2 =>
      rw [h1] at h
      simp only [Option.some_bind] at h
      obtain ⟨a1, a2, a3⟩ := produceTrack_last_stays fuel N dt t t2 hN0 hN31 hloop hN hcur h1
      exact ih t2 t1 a1 a2 a3 h

/-- C4 (amended): a loaded, playing, non-looping track with `total = N > 0`, starting from
`accum = 0` and `curFrame = 0`, whose effective rate `R` is a power of two (`2^p` units),
over `produceFrames(dt_i)` calls whose `dt_i` are non-negative finite doubles, multiples
of a power of two `q` (`2^e` units) that divides `1 / R`, all sums staying below
`2^53 * q`: once the sum `t` is at least `(N - 1) / R` the passes over this track have
returned with `curFrame = N - 1`; further such passes return with `curFrame = N - 1`;
and any further pass at all, with any `dt`, that returns leaves `curFrame = N - 1`.
Whenever the passes over the whole store return, the store holds the track in that
state. -/
theorem produceFrames_nonloop_clamp (fuel : Nat) (r : Renderer) (pid : Nat) (t : Track)
    (N p e : Nat) (ms further : List Nat)
    (hfind : tracksFind pid r.tracks = some t) (hanim : t.anim.isSome = true)
    (hN : t.st.total = N) (hN0 : 0 < N) (hN31 : N < 2147483648)
    (hloop : t.st.loop = false) (hplay : t.st.play = true)
    (hR : useFps t.st = Dbl.fin false (2 ^ p)) (hp1 : 51 ≤ p) (hp2 : p ≤ 2097)
    (hacc : t.st.accum = 0) (hcur : t.st.curFrame = 0)
    (he : e ≤ 2148 - p) (he2 : e ≤ 2045)
    (hms : ∀ m ∈ ms, 2 ^ e ∣ m) (hfurther : ∀ m ∈ further, 2 ^ e ∣ m)
    (hlt : ms.sum + further.sum < 2 ^ (53 + e))
    (hsum : ((N : ℚ) - 1) / (Dbl.fin false (2 ^ p)).toRat
      ≤ (ms.map (fun m => (Dbl.fin false m).toRat)).sum)
    (hfuel : (ms.sum + further.sum) / 2 ^ (2148 - p) ≤ fuel) :
    ∃ t1 t2, (ms.map (Dbl.fin false)).foldlM (fun t dt => produceTrack fuel dt t) t = some t1 ∧
      t1.st.curFrame = (N : Int) - 1 ∧
      (further.map (Dbl.fin false)).foldlM (fun t dt => produceTrack fuel dt t) t1 = some t2 ∧
      t2.st.curFrame = (N : Int) - 1 ∧
      (∀ (fuel2 : Nat) (dts : List Dbl) (t3 : Track),
        dts.foldlM (fun t dt => produceTrack fuel2 dt t) t1 = some t3 →
        t3.st.curFrame = (N : Int) - 1) ∧
      (∀ r1, ((ms ++ further).map (Dbl.fin false)).foldlM
          (fun r dt => produceFrames fuel dt r) r = some r1 →
        tracksFind pid r1.tracks = some t2) := by
  have hmd : 0 < 2 ^ (2148 - p) := pow_pos (by decide) _
  -- the frames elapsed after the first passes
  have hRq : (Dbl.fin false (2 ^ p)).toRat = (2 : ℚ) ^ p / 2 ^ 1074 := by
    rw [Dbl.toRat_fin]
    simp only [Nat.cast_pow, Nat.cast_ofNat]
  have hRpos : (0 : ℚ) < (2 : ℚ) ^ p / 2 ^ 1074 := by positivity
  have hk : (N : Int) - 1 ≤ ((ms.sum / 2 ^ (2148 - p) : Nat) : Int) := by
    rw [← floor_units ms.sum p (by omega)]
    apply Int.le_floor.mpr
    rw [hRq, sum_toRat, div_le_iff₀ hRpos] at hsum
    rw [Int.cast_sub, Int.cast_natCast, Int.cast_one]
    exact hsum
  have hdivle : ms.sum / 2 ^ (2148 - p) ≤ (ms.sum + further.sum) / 2 ^ (2148 - p) :=
    Nat.div_le_div_right (Nat.le_add_right _ _)
  obtain ⟨t1, a1, a2⟩ := produceTrack_run_clamp fuel N p e hN0 hN31 hp1 (by omega) he he2 ms t 0
    hms (dvd_zero _) (by rw [Nat.zero_add]; omega) (by rw [Nat.zero_add]; omega)
    hanim hplay hloop hR hN
    (by rw [hacc, Dbl.zero_eq, Nat.zero_mod]) (by rw [hcur, Nat.zero_div]; simp; omega)
  have hall : ∀ m ∈ ms ++ further, 2 ^ e ∣ m := by
    intro m hm
    rcases List.mem_append.mp hm with h | h
    · exact hms m h
    · exact hfurther m h
  obtain ⟨t2, b1, b2⟩ := produceTrack_run_clamp fuel N p e hN0 hN31 hp1 (by omega) he he2
    (ms ++ further) t 0 hall (dvd_zero _)
    (by rw [Nat.zero_add, List.sum_append]; exact hlt)
    (by rw [Nat.zero_add, List.sum_append]; exact hfuel)
    hanim hplay hloop hR hN
    (by rw [hacc, Dbl.zero_eq, Nat.zero_mod]) (by rw [hcur, Nat.zero_div]; simp; omega)
  rw [Nat.zero_add] at a2 b2
  have hcur1 : t1.st.curFrame = (N : Int) - 1 := by
    rw [a2]
    exact min_eq_right hk
  have hcur2 : t2.st.curFrame = (N : Int) - 1 := by
    rw [b2, List.sum_append]
    have : ((ms.sum / 2 ^ (2148 - p) : Nat) : Int)
        ≤ (((ms.sum + further.sum) / 2 ^ (2148 - p) : Nat) : Int) := by exact_mod_cast hdivle
    exact min_eq_right (le_trans hk this)
  have hsplit : (further.map (Dbl.fin false)).foldlM (fun t dt => produceTrack fuel dt t) t1
      = some t2 := by
    rw [List.map_append, List.foldlM_append, a1] at b1
    exact b1
  -- fields of `t1`, for the passes with arbitrary `dt`
  have hkeep : ∀ (dts : List Dbl) (u u1 : Track),
      dts.foldlM (fun t dt => produceTrack fuel dt t) u = some u1 →
      u1.st.loop = u.st.loop ∧ u1.st.total = u.st.total := by
    intro dts
    induction dts with
    | nil =>
      intro u u1 h
      simp only [List.foldlM_nil, Option.pure_def, Option.some.injEq] at h
      rw [h]
      exact ⟨rfl, rfl⟩
    | cons dt dts ih =>
      intro u u1 h
      simp only [List.foldlM_cons, Option.bind_eq_bind] at h
      cases h1 : produceTrack fuel dt u with
      | none =>
        rw [h1] at h
        exact absurd h (by simp)
      | some u2 =>
        rw [h1] at h
        simp only [Option.some_bind] at h
        obtain ⟨c1, c2⟩ := ih u2 u1 h
        obtain ⟨-, -, -, -, -, k1, -, -, -, k5, -⟩ := produceTrack_keeps fuel dt u u2 h1
        exact ⟨c1.trans k1, c2.trans k5⟩
  obtain ⟨l1, l2⟩ := hkeep _ t t1 a1
  refine ⟨t1, t2, a1, hcur1, hsplit, hcur2, ?_, ?_⟩
  · intro fuel2 dts t3 h3
    exact produceTrack_last_stays_foldlM fuel2 N hN0 hN31 dts t1 t3 (l1.trans hloop)
      (l2.trans hN) hcur1 h3
  · intro r1 hr1
    rw [produceFrames_foldlM_find pid fuel _ r r1 hr1, hfind, Option.some_bind, b1]

/-- The time condition `t ≥ (N - 1) / R` in units of `2^(-1074)`. -/
theorem time_reached_of_units (N p : Nat) (ms : List Nat) (hp : p ≤ 2148)
    (h : (N - 1) * 2 ^ (2148 - p) ≤ ms.sum) :
    ((N : ℚ) - 1) / (Dbl.fin false (2 ^ p)).toRat
      ≤ (ms.map (fun m => (Dbl.fin false m).toRat)).sum := by
  have hRq : (Dbl.fin false (2 ^ p)).toRat = (2 : ℚ) ^ p / 2 ^ 1074 := by
    rw [Dbl.toRat_fin]
    simp only [Nat.cast_pow, Nat.cast_ofNat]
  have hRpos : (0 : ℚ) < (2 : ℚ) ^ p / 2 ^ 1074 := by positivity
  have h2 : (2 : ℚ) ^ 1074 * 2 ^ 1074 = 2 ^ p * 2 ^ (2148 - p) := by
    rw [← pow_add, ← pow_add]
    congr 1
    omega
  have hq : ((ms.sum : ℚ) / 2 ^ 1074) * ((2 : ℚ) ^ p / 2 ^ 1074)
      = (ms.sum : ℚ) / 2 ^ (2148 - p) := by
    rw [div_mul_div_comm, h2]
    field_simp
    ring
  rw [hRq, sum_toRat, div_le_iff₀ hRpos, hq, le_div_iff₀ (by positivity)]
  have hc : (((N - 1) * 2 ^ (2148 - p) : Nat) : ℚ) ≤ (ms.sum : ℚ) := by exact_mod_cast h
  rw [Nat.cast_mul, Nat.cast_pow, Nat.cast_ofNat] at hc
  have hN1 : (N : ℚ) - 1 ≤ ((N - 1 : Nat) : ℚ) := by
    rcases Nat.eq_zero_or_pos N with h0 | h0
    · rw [h0]
      norm_num
    · rw [Nat.cast_sub h0]
      norm_num
  have hpow : (0 : ℚ) ≤ (2 : ℚ) ^ (2148 - p) := by positivity
  calc ((N : ℚ) - 1) * 2 ^ (2148 - p) ≤ ((N - 1 : Nat) : ℚ) * 2 ^ (2148 - p) :=
        mul_le_mul_of_nonneg_right hN1 hpow
    _ ≤ (ms.sum : ℚ) := hc

set_option maxRecDepth 100000 in
/-- C4, instance: five frames at rate 8 (`customFps = 8`), non-looping; two passes of
1/4 s reach the last frame, and further passes of 1 s and 3/2 s leave it there. -/
theorem produceFrames_nonloop_clamp_witness :
    (8 : Dbl) = Dbl.fin false (2 ^ 1077) ∧ (1 / 4 : Dbl) = Dbl.fin false (2 ^ 1072) ∧
    (1 : Dbl) = Dbl.fin false (2 ^ 1074) ∧ (3 / 2 : Dbl) = Dbl.fin false (3 * 2 ^ 1073) ∧
    ∃ t1 t2, ([2 ^ 1072, 2 ^ 1072].map (Dbl.fin false)).foldlM
        (fun t dt => produceTrack 30 dt t)
        { anim := some 0, st := { loop := false, total := 5, customFps := 8 } } = some t1 ∧
      t1.st.curFrame = ((5 : Nat) : Int) - 1 ∧
      ([2 ^ 1074, 3 * 2 ^ 1073].map (Dbl.fin false)).foldlM
        (fun t dt => produceTrack 30 dt t) t1 = some t2 ∧
      t2.st.curFrame = ((5 : Nat) : Int) - 1 :=
  ⟨by decide!, by decide!, by decide!, by decide!,
   match produceFrames_nonloop_clamp 30
    { tracks := [(1, { anim := some 0, st := { loop := false, total := 5, customFps := 8 } })] } 1
    { anim := some 0, st := { loop := false, total := 5, customFps := 8 } } 5 1077 1071
    [2 ^ 1072, 2 ^ 1072] [2 ^ 1074, 3 * 2 ^ 1073]
    rfl rfl rfl (by decide) (by decide) rfl rfl (by decide!) (by decide) (by decide)
    rfl rfl (by decide) (by decide) (by decide!) (by decide!) (by decide!)
    (time_reached_of_units 5 1077 [2 ^ 1072, 2 ^ 1072] (by decide) (by decide!))
    (by decide!) with
   | ⟨t1, t2, h1, h2, h3, h4, _⟩ => ⟨t1, t2, h1, h2, h3, h4⟩⟩

/-- C4, counterexample: a non-looping track of `N = 61` frames at `customFps = 30`, from
`accum = 0` and `curFrame = 0`; one `produceFrames(2.0)` call, with `2 = (N - 1) / 30`,
returns (for every fuel from 59 on) and leaves `curFrame = 59`, not `N - 1 = 60`. -/
theorem produceFrames_nonloop_clamp_counterexample :
    (∀ fuel, 59 ≤ fuel →
      ∃ t1, produceFrames fuel 2
          { tracks := [(1, { anim := some 0,
                             st := { loop := false, total := 61, customFps := 30 } })] }
            = some { tracks := [(1, t1)] } ∧
        t1.st.curFrame = 59) ∧
    useFps { loop := false, total := 61, customFps := 30 } = 30 ∧
    (((61 : Nat) : ℚ) - 1) / Dbl.toRat 30 ≤ Dbl.toRat 2 ∧
    ((61 : Nat) : Int) - 1 = 60 := by
  refine ⟨?_, rfl, ?_, by decide⟩
  · intro fuel hfuel
    have hloop := frameLoop_thirty
      { loop := false, total := 61, customFps := 30, accum := 0 + 2 } rfl fuel hfuel
    have hcur := iterate_frameBody_cur_clamp (1 / 30) 59
      { loop := false, total := 61, customFps := 30, accum := 0 + 2 } rfl (by decide)
      (by decide) (by decide)
    have hno : ¬ (30 : Dbl) ≤ 0 := by decide!
    have hp : produceTrack fuel 2
        { anim := some 0, st := { loop := false, total := 61, customFps := 30 } }
        = some { anim := some 0,
                 st := ((frameBody (1 / 30))^[59]
                   { loop := false, total := 61, customFps := 30, accum := 0 + 2 }) } := by
      unfold produceTrack
      have hu : useFps { loop := false, total := 61, customFps := 30 } = 30 := rfl
      simp only [Option.isNone_some, Bool.false_eq_true, if_false, hu, hno, if_true]
      rw [hloop]
    refine ⟨_, produceFrames_single fuel 1 2 _ _ hp, ?_⟩
    rw [hcur]
    decide
  · rw [Dbl.toRat_two.1, Dbl.toRat_two.2]
    norm_num

theorem produceTracks_paused (fuel : Nat) (dt : Dbl) (s : List (Nat × Track))
    (h : ∀ kv ∈ s, kv.2.st.play = false) : produceTracks fuel dt s = some s := by
  induction s with
  | nil => rfl
  | cons kv rest ih =>
    rw [produceTracks, produceTrack_paused fuel dt kv.2 (h kv (List.mem_cons_self _ _)),
      ih (fun x hx => h x (List.mem_cons_of_mem _ hx))]

/-- C5: for a track with `play = false` and every `dt`, the scheduler pass over that
track returns at once with the track unchanged (whatever the fuel), so that whenever
`produceFrames(dt)`, or a sequence of such calls, returns, the store holds the track as
it was, `curFrame` and `accum` included; and when every track of the store is paused,
every sequence of `produceFrames` calls returns and leaves the renderer as it was. -/
theorem produceFrames_paused_frozen (r : Renderer) (pid : Nat) (t : Track)
    (hfind : tracksFind pid r.tracks = some t) (hplay : t.st.play = false) :
    (∀ (fuel : Nat) (dt : Dbl), produceTrack fuel dt t = some t) ∧
    (∀ (fuel : Nat) (dt : Dbl) (r1 : Renderer), produceFrames fuel dt r = some r1 →
      tracksFind pid r1.tracks = some t) ∧
    (∀ (fuel : Nat) (dts : List Dbl) (r1 : Renderer),
      dts.foldlM (fun r dt => produceFrames fuel dt r) r = some r1 →
      tracksFind pid r1.tracks = some t) ∧
    ((∀ kv ∈ r.tracks, kv.2.st.play = false) →
      ∀ (fuel : Nat) (dts : List Dbl),
        dts.foldlM (fun r dt => produceFrames fuel dt r) r = some r) := by
  have hsteps : ∀ (fuel : Nat) (dts : List Dbl),
      dts.foldlM (fun t dt => produceTrack fuel dt t) t = some t := by
    intro fuel dts
    induction dts with
    | nil => rfl
    | cons dt dts ih =>
      simp only [List.foldlM_cons, Option.bind_eq_bind, produceTrack_paused fuel dt t hplay,
        Option.some_bind]
      exact ih
  refine ⟨fun fuel dt => produceTrack_paused fuel dt t hplay, ?_, ?_, ?_⟩
  · intro fuel dt r1 h
    rw [produceFrames_find pid fuel dt r r1 h, hfind, Option.some_bind,
      produceTrack_paused fuel dt t hplay]
  · intro fuel dts r1 h
    rw [produceFrames_foldlM_find pid fuel dts r r1 h, hfind, Option.some_bind, hsteps]
  · intro hall fuel dts
    induction dts with
    | nil => rfl
    | cons dt dts ih =>
      have h1 : produceFrames fuel dt r = some r := by
        unfold produceFrames
        rw [produceTracks_paused fuel dt r.tracks hall]
      simp only [List.foldlM_cons, Option.bind_eq_bind, h1, Option.some_bind]
      exact ih

/-- C5, instance: a paused track at frame 3 with accumulator 1/100 stays as it is over a
pass of 7/2 s and over passes of 1 s and 2 s. -/
theorem produceFrames_paused_frozen_witness :
    produceTrack 0 (7 / 2)
        { anim := some 0, st := { play := false, total := 5, accum := 1 / 100, curFrame := 3 } }
      = some { anim := some 0,
               st := { play := false, total := 5, accum := 1 / 100, curFrame := 3 } } ∧
    ([1, 2] : List Dbl).foldlM (fun r dt => produceFrames 0 dt r)
        { tracks := [(1, { anim := some 0, st := { play := false, total := 5, accum := 1 / 100, curFrame := 3 } })] }
      = some { tracks := [(1, { anim := some 0, st := { play := false, total := 5, accum := 1 / 100, curFrame := 3 } })] } :=
  ⟨(produceFrames_paused_frozen
      { tracks := [(1, { anim := some 0, st := { play := false, total := 5, accum := 1 / 100, curFrame := 3 } })] } 1
      { anim := some 0, st := { play := false, total := 5, accum := 1 / 100, curFrame := 3 } }
      rfl rfl).1 0 (7 / 2),
   (produceFrames_paused_frozen
      { tracks := [(1, { anim := some 0, st := { play := false, total := 5, accum := 1 / 100, curFrame := 3 } })] } 1
      { anim := some 0, st := { play := false, total := 5, accum := 1 / 100, curFrame := 3 } }
      rfl rfl).2.2.2 (by intro kv hkv; rw [List.mem_singleton.mp hkv]) 0 [1, 2]⟩

/-! ## Frame-index invariant: proofs -/

theorem frameOk_of_eq (st1 st2 : TrackState) (ht : st2.total = st1.total)
    (hc : st2.curFrame = st1.curFrame) (h : frameOk st1) : frameOk st2 := by
  unfold frameOk at h ⊢
  rw [ht, hc]
  exact h

theorem frameOk_frameBody (d : Dbl) (st : TrackState) (h : frameOk st) :
    frameOk (frameBody d st) := by
  obtain ⟨h16, hr⟩ := h
  obtain ⟨-, -, -, -, b5, -⟩ := frameBody_fields d st
  refine ⟨by rw [b5]; exact h16, ?_⟩
  rw [b5]
  intro hpos
  obtain ⟨h0, h1⟩ := hr hpos
  cases hl : st.loop with
  | true =>
    rw [frameBody_cur_loop d st hl (by omega) h0 h1]
    exact ⟨Int.emod_nonneg _ (by omega), Int.emod_lt_of_pos _ (by omega)⟩
  | false =>
    rw [frameBody_cur_clamp d st hl (by omega) h0 h1]
    omega

theorem frameOk_iterate (d : Dbl) (k : Nat) (st : TrackState) (h : frameOk st) :
    frameOk ((frameBody d)^[k] st) := by
  induction k generalizing st with
  | zero => exact h
  | succ k ih =>
    rw [Function.iterate_succ_apply]
    exact ih _ (frameOk_frameBody d st h)

theorem frameOk_produceTrack (fuel : Nat) (dt : Dbl) (t t1 : Track)
    (hp : produceTrack fuel dt t = some t1) (h : frameOk t.st) : frameOk t1.st := by
  rcases produceTrack_cases fuel dt t t1 hp with h1 | ⟨-, -, -, st, hst, h1⟩
  · rw [h1]
    exact h
  · obtain ⟨k, -, e1, -, -⟩ := frameLoop_some _ _ _ _ hst
    rw [h1, e1]
    exact frameOk_iterate _ _ _ (frameOk_of_eq t.st _ rfl rfl h)

theorem storeOk_modify (pid : Nat) (f : Track → Track) (s : List (Nat × Track))
    (hf : ∀ kv ∈ s, frameOk kv.2.st → frameOk (f kv.2).st) (h : storeOk s) :
    storeOk (tracksModify pid f s) := by
  intro kv hkv
  unfold tracksModify at hkv
  obtain ⟨kv0, hmem, heq⟩ := List.mem_map.mp hkv
  by_cases hk : kv0.1 = pid
  · rw [if_pos hk] at heq
    rw [← heq]
    exact hf kv0 hmem (h kv0 hmem)
  · rw [if_neg hk] at heq
    rw [← heq]
    exact h kv0 hmem

theorem storeOk_erase (pid : Nat) (s : List (Nat × Track)) (h : storeOk s) :
    storeOk (tracksErase pid s) := by
  intro kv hkv
  unfold tracksErase at hkv
  exact h kv (List.mem_filter.mp hkv).1

theorem storeOk_index (pid : Nat) (s : List (Nat × Track)) (h : storeOk s) :
    storeOk (tracksIndex pid s) := by
  unfold tracksIndex
  split
  · exact h
  · intro kv hkv
    rcases List.mem_cons.mp hkv with hnew | hold
    · rw [hnew]
      exact ⟨show (0 : Nat) < 65536 by decide, fun hp => absurd hp (Nat.lt_irrefl 0)⟩
    · exact h kv hold

theorem storeOk_produceFrames (fuel : Nat) (dt : Dbl) (r r1 : Renderer)
    (hp : produceFrames fuel dt r = some r1) (h : storeOk r.tracks) : storeOk r1.tracks := by
  obtain ⟨e1, e2⟩ := produceFrames_eq_map fuel dt r r1 hp
  intro kv hkv
  rw [e1] at hkv
  obtain ⟨kv0, hmem, heq⟩ := List.mem_map.mp hkv
  rw [← heq]
  exact frameOk_produceTrack fuel dt kv0.2 _ (e2 kv0 hmem) (h kv0 hmem)

theorem storeOk_setPlay (pid : Nat) (play : Bool) (r : Renderer) (h : storeOk r.tracks) :
    storeOk (setPlay pid play r).tracks := by
  unfold setPlay
  split
  · refine storeOk_modify pid _ r.tracks (fun kv _ hk => ?_) h
    exact frameOk_of_eq kv.2.st _ rfl rfl hk
  · exact h

theorem storeOk_onDiscard (pid : Nat) (r : Renderer) (g : Gfx) (h : storeOk r.tracks) :
    storeOk (onDiscard pid r g).1.tracks := by
  unfold onDiscard
  split
  · exact h
  · exact storeOk_erase pid r.tracks h

theorem frameOk_loadInto (rl : Rlottie) (anim : Nat) (tr : Track) :
    frameOk (loadInto rl anim tr).st := by
  unfold loadInto frameOk
  simp only [animationTotalFrame, toU16]
  refine ⟨Nat.mod_lt _ (by decide), fun hp => ⟨le_rfl, ?_⟩⟩
  exact_mod_cast hp

theorem storeOk_onLoadMem (rl : Rlottie) (c : Cmd) (r : Renderer) (h : storeOk r.tracks) :
    storeOk (onLoadMem rl c r).tracks := by
  unfold onLoadMem
  split
  · exact h
  · split
    · exact h
    · exact storeOk_modify c.pid _ _ (fun kv _ _ => frameOk_loadInto rl _ kv.2)
        (storeOk_index c.pid r.tracks h)

theorem storeOk_applyCmd (rl : Rlottie) (s : Renderer × Gfx) (c : Cmd)
    (h : storeOk s.1.tracks) : storeOk (applyCmd rl s c).1.tracks := by
  unfold applyCmd
  split
  · exact storeOk_onLoadMem rl c s.1 h
  · exact storeOk_setPlay c.pid true s.1 h
  · exact storeOk_setPlay c.pid false s.1 h
  · exact storeOk_onDiscard c.pid s.1 s.2 h

theorem storeOk_foldl_applyCmd (rl : Rlottie) (q : List Cmd) (s : Renderer × Gfx)
    (h : storeOk s.1.tracks) : storeOk (q.foldl (applyCmd rl) s).1.tracks := by
  induction q generalizing s with
  | nil => exact h
  | cons c q ih => exact ih _ (storeOk_applyCmd rl s c h)

theorem storeOk_processQueue (rl : Rlottie) (r : Renderer) (g : Gfx) (h : storeOk r.tracks) :
    storeOk (processQueue rl r g).1.tracks := by
  unfold processQueue
  exact storeOk_foldl_applyCmd rl r.queue _ h


theorem ensureTexture_frame (size : ImVec2) (tr tr1 : Track) (g g1 : Gfx)
    (h : ensureTexture size tr g = some (tr1, g1)) :
    tr1.st.total = tr.st.total ∧ tr1.st.curFrame = tr.st.curFrame := by
  unfold ensureTexture at h
  dsimp only at h
  split at h
  · exact absurd h (by simp)
  · split at h
    · split at h
      · exact absurd h (by simp)
      · simp only [Option.some.injEq, Prod.mk.injEq] at h
        rw [← h.1]
        exact ⟨rfl, rfl⟩
    · simp only [Option.some.injEq, Prod.mk.injEq] at h
      rw [← h.1]
      exact ⟨rfl, rfl⟩

theorem uploadAndDraw_frame (rl : Rlottie) (pos size : ImVec2) (tr : Track) (g : Gfx) :
    (uploadAndDraw rl pos size tr g).1.st.total = tr.st.total ∧
    (uploadAndDraw rl pos size tr g).1.st.curFrame = tr.st.curFrame :=
  ⟨rfl, rfl⟩

theorem storeOk_renderAt (rl : Rlottie) (pid : Nat) (pos size : ImVec2) (r : Renderer)
    (g : Gfx) (s : Renderer × Gfx) (hr : renderAt rl pid pos size r g = some s)
    (h : storeOk r.tracks) : storeOk s.1.tracks := by
  unfold renderAt at hr
  split at hr
  · simp only [Option.some.injEq] at hr
    rw [← hr]
    exact h
  · rename_i tr0 hfind
    split at hr
    · simp only [Option.some.injEq] at hr
      rw [← hr]
      exact h
    · split at hr
      · exact absurd hr (by simp)
      · rename_i tr1 g1 hens
        split at hr
        · exact absurd hr (by simp)
        · simp only [Option.some.injEq] at hr
          rw [← hr]
          have h0 : frameOk tr0.st := h (pid, tr0) (tracksFind_mem pid tr0 r.tracks hfind)
          obtain ⟨e1, e2⟩ := ensureTexture_frame size _ tr1 g g1 hens
          obtain ⟨u1, u2⟩ := uploadAndDraw_frame rl pos size tr1 g1
          show storeOk (tracksModify pid (fun _ => (uploadAndDraw rl pos size tr1 g1).1) r.tracks)
          refine storeOk_modify pid _ r.tracks (fun kv _ _ => ?_) h
          exact frameOk_of_eq tr0.st _ (u1.trans e1) (u2.trans e2) h0

theorem storeOk_apiDrawMem (rl : Rlottie) (pid : Nat) (data : List Nat) (sz : ImVec2)
    (loop play : Bool) (prerender customFps : Int) (pos : ImVec2) (r : Renderer) (g : Gfx)
    (s : Renderer × Gfx)
    (hr : apiDrawMem rl pid data sz loop play prerender customFps pos r g = some s)
    (h : storeOk r.tracks) : storeOk s.1.tracks := by
  unfold apiDrawMem at hr
  dsimp only at hr
  refine storeOk_renderAt rl pid pos sz _ g s hr ?_
  have hflags : storeOk (tracksModify pid (setFlags loop play customFps)
      (tracksIndex pid r.tracks)) := by
    refine storeOk_modify pid _ _ (fun kv _ hk => ?_) (storeOk_index pid r.tracks h)
    exact frameOk_of_eq kv.2.st _ rfl rfl hk
  split
  · exact hflags
  · exact hflags

theorem storeOk_step (rl : Rlottie) (fuel : Nat) (s s1 : Renderer × Gfx) (c : Call)
    (hs : step rl fuel s c = some s1) (h : storeOk s.1.tracks) : storeOk s1.1.tracks := by
  cases c with
  | draw pid data sz loop play prerender customFps pos =>
    exact storeOk_apiDrawMem rl pid data sz loop play prerender customFps pos s.1 s.2 s1 hs h
  | play pid =>
    simp only [step, Option.some.injEq] at hs
    rw [← hs]
    exact h
  | pause pid =>
    simp only [step, Option.some.injEq] at hs
    rw [← hs]
    exact h
  | discard pid =>
    simp only [step, Option.some.injEq] at hs
    rw [← hs]
    exact h
  | sync dt =>
    simp only [step, syncRenderer] at hs
    split at hs
    · exact absurd hs (by simp)
    · rename_i r1 hp
      simp only [Option.some.injEq] at hs
      rw [← hs]
      exact storeOk_produceFrames fuel dt _ r1 hp (storeOk_processQueue rl s.1 s.2 h)

theorem storeOk_run (rl : Rlottie) (fuel : Nat) (calls : List Call) (s s1 : Renderer × Gfx)
    (hs : run rl fuel s calls = some s1) (h : storeOk s.1.tracks) : storeOk s1.1.tracks := by
  induction calls generalizing s with
  | nil =>
    simp only [run, Option.some.injEq] at hs
    rw [← hs]
    exact h
  | cons c cs ih =>
    simp only [run] at hs
    split at hs
    · exact absurd hs (by simp)
    · rename_i s2 hstep
      exact ih s2 hs (storeOk_step rl fuel s s2 c hstep h)

/-- C2: in every state reached from the empty, initialised renderer by any sequence of
draw requests, Play/Pause/Discard calls and Sync calls (whatever the fuel of the
scheduler loops), every track whose frame count is positive has `0 ≤ curFrame < total`;
and one advancement from the last frame sets `curFrame` to `0` when `loop` is true and
to `total - 1` when it is false. -/
theorem frame_index_invariant (rl : Rlottie) (fuel : Nat) (g0 : Gfx) (calls : List Call)
    (s : Renderer × Gfx) (hrun : run rl fuel ({}, g0) calls = some s)
    (pid : Nat) (t : Track) (hfind : tracksFind pid s.1.tracks = some t)
    (hpos : 0 < t.st.total) :
    (0 ≤ t.st.curFrame ∧ t.st.curFrame < t.st.total) ∧
    (∀ frameDur : Dbl, t.st.curFrame = (t.st.total : Int) - 1 →
      (frameBody frameDur t.st).curFrame = if t.st.loop then 0 else (t.st.total : Int) - 1) := by
  have hstore : storeOk s.1.tracks :=
    storeOk_run rl fuel calls ({}, g0) s hrun (fun kv hkv => absurd hkv (List.not_mem_nil kv))
  have hok : frameOk t.st := hstore (pid, t) (tracksFind_mem pid t s.1.tracks hfind)
  obtain ⟨h16, hr⟩ := hok
  obtain ⟨h0, h1⟩ := hr hpos
  refine ⟨⟨h0, h1⟩, ?_⟩
  intro d hlast
  cases hl : t.st.loop with
  | true =>
    rw [frameBody_cur_loop d t.st hl (by omega) h0 h1, hlast]
    simp
  | false =>
    rw [frameBody_cur_clamp d t.st hl (by omega) h0 h1]
    simp only [Bool.false_eq_true, if_false]
    omega

/-- A sample run: one draw request for identifier 1, then a Sync of half a second. At
rate 5 the period `1 / 5` is not exact, and the accumulator is left at
`1/2 - 1/5 - 1/5` as rounded. -/
theorem sampleRun_loaded :
    run sampleRlottie 5 ({}, {})
        [Call.draw 1 [123] ⟨2, 1⟩ true true 0 0 ⟨0, 0⟩, Call.sync (1 / 2)]
      = some ({ tracks := [(1, { anim := some 0, st := { fps := 5, total := 5, duration := 1, accum := 1 / 2 - 1 / 5 - 1 / 5, curFrame := 2 } })] }, {}) := by
  decide!

/-- C2, instance: a draw request for an unseen animation followed by a Sync of half a
second leaves that track, of five frames at rate 5, on frame 2. -/
theorem frame_index_invariant_witness :
    run sampleRlottie 5 ({}, {})
        [Call.draw 1 [123] ⟨2, 1⟩ true true 0 0 ⟨0, 0⟩, Call.sync (1 / 2)]
      = some ({ tracks := [(1, { anim := some 0, st := { fps := 5, total := 5, duration := 1, accum := 1 / 2 - 1 / 5 - 1 / 5, curFrame := 2 } })] }, {}) ∧
    (0 ≤ (2 : Int) ∧ (2 : Int) < ((5 : Nat) : Int)) :=
  ⟨sampleRun_loaded, (frame_index_invariant sampleRlottie 5 {} _ _ sampleRun_loaded 1
    { anim := some 0, st := { fps := 5, total := 5, duration := 1, accum := 1 / 2 - 1 / 5 - 1 / 5, curFrame := 2 } }
    rfl (by decide)).1⟩

/-! ## Draw requests and command handlers: proofs -/

/-- A draw request leaves the renderer and the graphics context as they are when the
track is absent or has no decoded handle. -/
theorem renderAt_pending (rl : Rlottie) (pid : Nat) (pos size : ImVec2) (r : Renderer)
    (g : Gfx) (h : ∀ t, tracksFind pid r.tracks = some t → t.anim = none) :
    renderAt rl pid pos size r g = some (r, g) := by
  unfold renderAt
  split
  · rfl
  · rename_i tr0 hfind
    rw [h tr0 hfind]
    rfl

/-- C6 (amended): a draw request on a track that has no decoded handle yet (the first
draw of an unseen identifier included) skips decoding, conversion and upload, and
also texture allocation and the draw call: the graphics context and its call log are
unchanged, the track keeps its texture and staging buffers (texture id 0 and empty
buffers for a new track) and only receives the `loop`/`play`/`customFps` arguments;
other tracks are unchanged, and a Load is queued exactly when the identifier was unseen. -/
theorem draw_pending_skips_render (rl : Rlottie) (pid : Nat) (data : List Nat) (sz : ImVec2)
    (loop play : Bool) (prerender customFps : Int) (pos : ImVec2) (r : Renderer) (g : Gfx)
    (hpending : ∀ t, tracksFind pid r.tracks = some t → t.anim = none) :
    ∃ r1, apiDrawMem rl pid data sz loop play prerender customFps pos r g = some (r1, g) ∧
      tracksFind pid r1.tracks
        = some (setFlags loop play customFps ((tracksFind pid r.tracks).getD {})) ∧
      (∀ q, q ≠ pid → tracksFind q r1.tracks = tracksFind q r.tracks) ∧
      r1.queue = (if (tracksFind pid r.tracks).isNone
        then r.queue ++ [{ type := CmdType.LOAD_MEM, pid := pid, mem := data }]
        else r.queue) := by
  have hfind : ∀ q, tracksFind q (tracksModify pid (setFlags loop play customFps)
        (tracksIndex pid r.tracks))
      = if q = pid then some (setFlags loop play customFps ((tracksFind pid r.tracks).getD {}))
        else tracksFind q r.tracks := by
    intro q
    rw [tracksFind_modify, tracksFind_index]
    by_cases hq : q = pid <;> simp [hq]
  have hpend2 : ∀ t, tracksFind pid (tracksModify pid (setFlags loop play customFps)
      (tracksIndex pid r.tracks)) = some t → t.anim = none := by
    intro t ht
    rw [hfind, if_pos rfl] at ht
    simp only [Option.some.injEq] at ht
    rw [← ht]
    show ((tracksFind pid r.tracks).getD {}).anim = none
    cases hf : tracksFind pid r.tracks with
    | none => rfl
    | some t0 => exact hpending t0 hf
  unfold apiDrawMem
  dsimp only
  by_cases hnone : (tracksFind pid r.tracks).isNone = true
  · simp only [hnone, if_true]
    refine ⟨_, renderAt_pending rl pid pos sz _ g hpend2, ?_, ?_, rfl⟩
    · rw [push, hfind, if_pos rfl]
    · intro q hq
      rw [push, hfind, if_neg hq]
  · have hn : (tracksFind pid r.tracks).isNone = false := by
      cases hb : (tracksFind pid r.tracks).isNone with
      | true => exact absurd hb hnone
      | false => rfl
    rw [hn]
    simp only [Bool.false_eq_true, if_false]
    refine ⟨_, renderAt_pending rl pid pos sz _ g hpend2, ?_, ?_, rfl⟩
    · rw [hfind, if_pos rfl]
    · intro q hq
      rw [hfind, if_neg hq]

/-- C6, instance: the first draw of identifier 1 on the empty renderer. -/
theorem draw_pending_skips_render_witness :
    ∃ r1, apiDrawMem sampleRlottie 1 [123] ⟨100, 100⟩ true false 0 24 ⟨0, 0⟩ {} {}
        = some (r1, {}) ∧
      tracksFind 1 r1.tracks = some (setFlags true false 24 ((tracksFind 1 []).getD {})) :=
  match draw_pending_skips_render sampleRlottie 1 [123] ⟨100, 100⟩ true false 0 24 ⟨0, 0⟩ {} {}
    (fun _ h => nomatch h) with
  | ⟨r1, h1, h2, _⟩ => ⟨r1, h1, h2⟩

/-- C6, counterexample: the first draw of an unseen identifier, at size 100 x 100, leaves
the new track with texture id 0, texture size 0 x 0 and empty staging buffers, and
emits no draw call. -/
theorem draw_pending_allocates_counterexample :
    apiDrawMem sampleRlottie 1 [123] ⟨100, 100⟩ true true 0 0 ⟨0, 0⟩ {} {}
      = some ({ queue := [{ type := CmdType.LOAD_MEM, pid := 1, mem := [123] }],
                tracks := [(1, { anim := none, tex := { id := 0, w := 0, h := 0 },
                                 stagingBGRA := [], stagingRGBA := [] })] },
              { generated := 0, log := [] }) ∧
    drawCalls ([] : List Event) = 0 := by
  constructor
  · simp [apiDrawMem, push, tracksFind, tracksIndex, tracksModify, setFlags, renderAt]
  · rfl


theorem onLoadMem_empty (rl : Rlottie) (c : Cmd) (r : Renderer) (h : c.mem = []) :
    onLoadMem rl c r = r := by
  unfold onLoadMem
  rw [h]
  rfl

theorem onLoadMem_failed (rl : Rlottie) (c : Cmd) (r : Renderer)
    (h : animationLoadFromMemory rl c.mem = none) : onLoadMem rl c r = r := by
  unfold onLoadMem
  split
  · rfl
  · rw [h]

/-- The draw request for an identifier without a track: the track is created with the
given flags, a Load is queued, and nothing is rendered. -/
theorem apiDrawMem_unseen (rl : Rlottie) (pid : Nat) (data : List Nat) (sz : ImVec2)
    (loop play : Bool) (prerender customFps : Int) (pos : ImVec2) (r : Renderer) (g : Gfx)
    (hnew : tracksFind pid r.tracks = none) :
    apiDrawMem rl pid data sz loop play prerender customFps pos r g
      = some ({ queue := r.queue ++ [{ type := CmdType.LOAD_MEM, pid := pid, mem := data }],
                tracks := (pid, { st := { loop := loop, play := play, customFps := customFps } })
                  :: r.tracks }, g) := by
  have hidx : tracksIndex pid r.tracks = (pid, {}) :: r.tracks := by
    unfold tracksIndex
    rw [hnew]
    rfl
  have hmod : tracksModify pid (setFlags loop play customFps) ((pid, {}) :: r.tracks)
      = (pid, setFlags loop play customFps {}) :: r.tracks := by
    have := tracksModify_absent pid (setFlags loop play customFps) r.tracks hnew
    unfold tracksModify at this ⊢
    simp only [List.map_cons, if_true, this]
  unfold apiDrawMem
  dsimp only
  rw [hnew]
  simp only [Option.isNone_none, if_true, push, hidx, hmod]
  rw [renderAt_pending]
  · rfl
  · intro t ht
    rw [tracksFind_cons, if_pos rfl] at ht
    simp only [Option.some.injEq] at ht
    rw [← ht]
    rfl

theorem foldl_applyCmd_queue (rl : Rlottie) (q : List Cmd) (s : Renderer × Gfx) :
    (q.foldl (applyCmd rl) s).1.queue = s.1.queue := by
  induction q generalizing s with
  | nil => rfl
  | cons c q ih =>
    rw [List.foldl_cons, ih]
    unfold applyCmd
    split
    · unfold onLoadMem
      split
      · rfl
      · split <;> rfl
    · unfold setPlay
      split <;> rfl
    · unfold setPlay
      split <;> rfl
    · unfold onDiscard
      split <;> rfl

theorem processQueue_queue (rl : Rlottie) (r : Renderer) (g : Gfx) :
    (processQueue rl r g).1.queue = [] := by
  unfold processQueue
  rw [foldl_applyCmd_queue]

theorem processQueue_push (rl : Rlottie) (c : Cmd) (r : Renderer) (g : Gfx) :
    processQueue rl (push c r) g = applyCmd rl (processQueue rl r g) c := by
  unfold processQueue push
  simp only [List.foldl_append, List.foldl_cons, List.foldl_nil]

/-- C8: whatever commands are pending, once `Discard(id)` has been pushed and the queue
drained by `processQueue`, the queue is empty and the store has no entry for `id`;
compared with draining the same queue without the Discard, every other track is the
same and the only further graphics call is the deletion of `id`'s texture when the
track has one (with nothing else pending, that comparison is with the state before).
The next draw request for `id` then behaves as first-ever-seen: it queues
`Load(id, bytes)` and creates a fresh track with no decoded handle, no texture,
`accum = 0`, `curFrame = 0` and the `loop`/`play`/`customFps` of the draw arguments,
without any graphics call. -/
theorem discard_clears_state (rl : Rlottie) (r : Renderer) (g : Gfx) (pid : Nat)
    (data : List Nat) (sz : ImVec2) (loop play : Bool) (prerender customFps : Int)
    (pos : ImVec2) :
    (processQueue rl (apiDiscard pid r) g).1.queue = [] ∧
    tracksFind pid (processQueue rl (apiDiscard pid r) g).1.tracks = none ∧
    (∀ q, q ≠ pid → tracksFind q (processQueue rl (apiDiscard pid r) g).1.tracks
      = tracksFind q (processQueue rl r g).1.tracks) ∧
    (processQueue rl (apiDiscard pid r) g).2
      = (match tracksFind pid (processQueue rl r g).1.tracks with
         | some t =>
           if t.tex.id ≠ 0 then (processQueue rl r g).2.emit (Event.glDeleteTextures t.tex.id)
           else (processQueue rl r g).2
         | none => (processQueue rl r g).2) ∧
    (r.queue = [] → processQueue rl r g = (r, g)) ∧
    apiDrawMem rl pid data sz loop play prerender customFps pos
        (processQueue rl (apiDiscard pid r) g).1 (processQueue rl (apiDiscard pid r) g).2
      = some ({ queue := [{ type := CmdType.LOAD_MEM, pid := pid, mem := data }],
                tracks := (pid, { anim := none,
                                  st := { loop := loop, play := play, customFps := customFps,
                                          accum := 0, curFrame := 0 },
                                  tex := { id := 0 } })
                  :: (processQueue rl (apiDiscard pid r) g).1.tracks },
              (processQueue rl (apiDiscard pid r) g).2) := by
  have hstep : processQueue rl (apiDiscard pid r) g
      = onDiscard pid (processQueue rl r g).1 (processQueue rl r g).2 := by
    unfold apiDiscard
    rw [processQueue_push]
    rfl
  have hsame : r.queue = [] → processQueue rl r g = (r, g) := by
    intro hq
    unfold processQueue
    rw [hq]
    cases r
    simp only [List.foldl_nil] at hq ⊢
    rw [hq]
  have hq0 := processQueue_queue rl r g
  generalize processQueue rl r g = s0 at hstep hq0 hsame ⊢
  have hnone : tracksFind pid (processQueue rl (apiDiscard pid r) g).1.tracks = none := by
    rw [hstep]
    unfold onDiscard
    cases hf : tracksFind pid s0.1.tracks with
    | none => simpa using hf
    | some t => simp [tracksFind_erase]
  have hqueue : (processQueue rl (apiDiscard pid r) g).1.queue = [] :=
    processQueue_queue rl _ g
  refine ⟨hqueue, hnone, ?_, ?_, ?_, ?_⟩
  · intro q hq
    rw [hstep]
    unfold onDiscard
    cases hf : tracksFind pid s0.1.tracks with
    | none => rfl
    | some t => simp [tracksFind_erase, hq]
  · rw [hstep]
    unfold onDiscard
    cases hf : tracksFind pid s0.1.tracks with
    | none => rfl
    | some t => rfl
  · exact hsame
  · rw [apiDrawMem_unseen rl pid data sz loop play prerender customFps pos _ _ hnone, hqueue]
    rfl


/-- C9: applying (draining) a `Load(id, bytes)` whose bytes are empty or whose decode
fails, or a `Play(id)`, `Pause(id)` or `Discard(id)` for an `id` without a track,
leaves the renderer and the graphics context exactly as they were: no track is
created or changed, no decoded handle is created, no texture is freed; and a queue
holding just that command drains to the same track store. -/
theorem dropped_commands_unchanged (rl : Rlottie) (r : Renderer) (g : Gfx) (c : Cmd)
    (hdrop : (c.type = CmdType.LOAD_MEM ∧
                (c.mem = [] ∨ animationLoadFromMemory rl c.mem = none)) ∨
             (c.type ≠ CmdType.LOAD_MEM ∧ tracksFind c.pid r.tracks = none)) :
    applyCmd rl (r, g) c = (r, g) ∧
    (processQueue rl { queue := [c], tracks := r.tracks } g).1.tracks = r.tracks ∧
    (processQueue rl { queue := [c], tracks := r.tracks } g).2 = g := by
  have hone : ∀ r0 : Renderer, tracksFind c.pid r0.tracks = tracksFind c.pid r.tracks →
      applyCmd rl (r0, g) c = (r0, g) := by
    intro r0 hr0
    rcases hdrop with ⟨hty, hmem | hdec⟩ | ⟨hty, hnone⟩
    · simp only [applyCmd, hty]
      rw [onLoadMem_empty rl c r0 hmem]
    · simp only [applyCmd, hty]
      rw [onLoadMem_failed rl c r0 hdec]
    · rw [← hr0] at hnone
      cases hc : c.type with
      | LOAD_MEM => exact absurd hc hty
      | PLAY => simp only [applyCmd, hc, setPlay, hnone]
      | PAUSE => simp only [applyCmd, hc, setPlay, hnone]
      | DISCARD => simp only [applyCmd, hc, onDiscard, hnone]
  refine ⟨hone r rfl, ?_, ?_⟩
  · unfold processQueue
    simp only [List.foldl_cons, List.foldl_nil]
    rw [hone { queue := [], tracks := r.tracks } rfl]
  · unfold processQueue
    simp only [List.foldl_cons, List.foldl_nil]
    rw [hone { queue := [], tracks := r.tracks } rfl]

/-- C9, instance: `Pause(7)` and a Load with no bytes on a store holding only track 1. -/
theorem dropped_commands_unchanged_witness :
    (applyCmd sampleRlottie ({ tracks := [(1, {})] }, {}) { type := CmdType.PAUSE, pid := 7 }
      = ({ tracks := [(1, {})] }, {}) ∧
     (processQueue sampleRlottie
        { queue := [{ type := CmdType.PAUSE, pid := 7 }], tracks := [(1, {})] } {}).1.tracks
      = [(1, {})] ∧
     (processQueue sampleRlottie
        { queue := [{ type := CmdType.PAUSE, pid := 7 }], tracks := [(1, {})] } {}).2 = {}) ∧
    applyCmd sampleRlottie ({ tracks := [(1, {})] }, {}) { type := CmdType.LOAD_MEM, pid := 1 }
      = ({ tracks := [(1, {})] }, {}) :=
  ⟨dropped_commands_unchanged sampleRlottie { tracks := [(1, {})] } {}
      { type := CmdType.PAUSE, pid := 7 } (Or.inr ⟨by decide, rfl⟩),
   (dropped_commands_unchanged sampleRlottie { tracks := [(1, {})] } {}
      { type := CmdType.LOAD_MEM, pid := 1 } (Or.inl ⟨rfl, Or.inl rfl⟩)).1⟩

/-- C10: a `Load(id, bytes)` whose decode succeeds with handle `anim`, frame count
`T = animationTotalFrame(anim)` and duration `D = animationDuration(anim)`: after the
command is applied, the track for `id` exists (created with default flags if it was
absent) with the decoded handle set, `accum = 0`, `curFrame = 0`,
`uploadedOnce = false`, `total = T`, `duration = D`, and `fps = T / D` (the `double`
quotient) when `T > 0` and `D > 0`, otherwise `fps = 30`; its `loop`, `play` and `customFps` flags (and texture and
staging buffers), all other tracks, the queue and the graphics context are unchanged. -/
theorem load_success_postcondition (rl : Rlottie) (r : Renderer) (g : Gfx) (c : Cmd)
    (anim : Nat) (hty : c.type = CmdType.LOAD_MEM)
    (hdec : animationLoadFromMemory rl c.mem = some anim) :
    tracksFind c.pid (applyCmd rl (r, g) c).1.tracks
      = some { (tracksFind c.pid r.tracks).getD {} with
          anim := some anim
          st := { ((tracksFind c.pid r.tracks).getD {}).st with
            total := animationTotalFrame rl (some anim)
            duration := animationDuration rl (some anim)
            fps := if 0 < animationTotalFrame rl (some anim) ∧ 0 < animationDuration rl (some anim)
              then Dbl.ofInt (animationTotalFrame rl (some anim)) / animationDuration rl (some anim)
              else 30
            accum := 0
            curFrame := 0
            uploadedOnce := false } } ∧
    (∀ q, q ≠ c.pid →
      tracksFind q (applyCmd rl (r, g) c).1.tracks = tracksFind q r.tracks) ∧
    (applyCmd rl (r, g) c).1.queue = r.queue ∧
    (applyCmd rl (r, g) c).2 = g := by
  have hne : c.mem.isEmpty = false := by
    cases hm : c.mem with
    | nil =>
      rw [hm] at hdec
      simp [animationLoadFromMemory] at hdec
    | cons b bs => rfl
  have happly : applyCmd rl (r, g) c
      = ({ r with tracks := tracksModify c.pid (loadInto rl anim) (tracksIndex c.pid r.tracks) },
         g) := by
    simp only [applyCmd, hty, onLoadMem, hne, hdec, Bool.false_eq_true, if_false]
  rw [happly]
  refine ⟨?_, ?_, rfl, rfl⟩
  · show tracksFind c.pid (tracksModify c.pid (loadInto rl anim) (tracksIndex c.pid r.tracks)) = _
    rw [tracksFind_modify, if_pos rfl, tracksFind_index, if_pos rfl]
    simp only [Option.map_some', loadInto, gt_iff_lt, and_comm]
  · intro q hq
    show tracksFind q (tracksModify c.pid (loadInto rl anim) (tracksIndex c.pid r.tracks)) = _
    rw [tracksFind_modify, if_neg hq, tracksFind_index, if_neg hq]



/-- C10, instance: the sample animation (5 frames, 1 s) loaded into a non-looping track. -/
theorem load_success_postcondition_witness :
    tracksFind 1 (applyCmd sampleRlottie ({ tracks := [(1, { st := { loop := false } })] }, {})
        { type := CmdType.LOAD_MEM, pid := 1, mem := [123] }).1.tracks
      = some { anim := some 0, st := { loop := false, fps := 5, total := 5, duration := 1 } } :=
  (load_success_postcondition sampleRlottie { tracks := [(1, { st := { loop := false } })] } {}
    { type := CmdType.LOAD_MEM, pid := 1, mem := [123] } 0 rfl rfl).1.trans
    (by decide!)

/-! ## Texture and upload-flag invariants: proofs -/

theorem tracksFind_none_iff (pid : Nat) (s : List (Nat × Track)) :
    tracksFind pid s = none ↔ ∀ kv ∈ s, kv.1 ≠ pid := by
  induction s with
  | nil => simp [tracksFind_nil]
  | cons kv s ih =>
    obtain ⟨k, u⟩ := kv
    rw [tracksFind_cons]
    by_cases hk : pid = k
    · simp [hk]
    · simp only [hk, if_false, ih, List.mem_cons, forall_eq_or_imp]
      constructor
      · intro h
        exact ⟨fun e => hk e.symm, h⟩
      · intro h
        exact h.2

theorem mem_tracksModify (pid : Nat) (f : Track → Track) (s : List (Nat × Track))
    (kv : Nat × Track) (h : kv ∈ tracksModify pid f s) :
    ∃ kv0 ∈ s, kv.1 = kv0.1 ∧ ((kv0.1 = pid ∧ kv.2 = f kv0.2) ∨ (kv0.1 ≠ pid ∧ kv.2 = kv0.2)) := by
  unfold tracksModify at h
  obtain ⟨kv0, hmem, heq⟩ := List.mem_map.mp h
  refine ⟨kv0, hmem, ?_⟩
  by_cases hk : kv0.1 = pid
  · rw [if_pos hk] at heq
    rw [← heq]
    exact ⟨rfl, Or.inl ⟨hk, rfl⟩⟩
  · rw [if_neg hk] at heq
    rw [← heq]
    exact ⟨rfl, Or.inr ⟨hk, rfl⟩⟩

theorem mem_tracksModify_of_mem (pid : Nat) (f : Track → Track) (s : List (Nat × Track))
    (kv0 : Nat × Track) (h : kv0 ∈ s) :
    ∃ kv ∈ tracksModify pid f s, kv.1 = kv0.1 := by
  unfold tracksModify
  refine ⟨_, List.mem_map.mpr ⟨kv0, h, rfl⟩, ?_⟩
  by_cases hk : kv0.1 = pid
  · rw [if_pos hk]
  · rw [if_neg hk]

theorem mem_tracksErase (pid : Nat) (s : List (Nat × Track)) (kv : Nat × Track)
    (h : kv ∈ tracksErase pid s) : kv ∈ s ∧ kv.1 ≠ pid := by
  unfold tracksErase at h
  have := List.mem_filter.mp h
  exact ⟨this.1, by simpa using this.2⟩

theorem mem_tracksIndex (pid : Nat) (s : List (Nat × Track)) (kv : Nat × Track)
    (h : kv ∈ tracksIndex pid s) :
    kv ∈ s ∨ (kv = (pid, {}) ∧ tracksFind pid s = none) := by
  unfold tracksIndex at h
  cases hf : tracksFind pid s with
  | none =>
    rw [hf] at h
    simp only [Option.isSome_none, Bool.false_eq_true, if_false, List.mem_cons] at h
    rcases h with h | h
    · exact Or.inr ⟨h, rfl⟩
    · exact Or.inl h
  | some t =>
    rw [hf] at h
    exact Or.inl h

theorem mem_tracksIndex_of_mem (pid : Nat) (s : List (Nat × Track)) (kv : Nat × Track)
    (h : kv ∈ s) : kv ∈ tracksIndex pid s := by
  unfold tracksIndex
  split
  · exact h
  · exact List.mem_cons_of_mem _ h

theorem tracksIndex_of_find (pid : Nat) (s : List (Nat × Track)) (t : Track)
    (h : tracksFind pid s = some t) : tracksIndex pid s = s := by
  unfold tracksIndex
  rw [h]
  rfl

theorem trackOk_of_eq (t1 t2 : Track) (ha : t2.anim = t1.anim) (hi : t2.tex.id = t1.tex.id)
    (hu : t2.st.uploadedOnce = t1.st.uploadedOnce) (h : trackOk t1) : trackOk t2 := by
  unfold trackOk at h ⊢
  rw [ha, hi, hu]
  exact h

theorem trackOk_default : trackOk {} := by
  unfold trackOk
  exact ⟨fun _ => rfl, by decide⟩

theorem loadsOk_tail (c : Cmd) (rest : List Cmd) (s : List (Nat × Track))
    (h : loadsOk (c :: rest) s) : loadsOk rest s :=
  ⟨(List.pairwise_cons.mp h.1).2, fun d hd => h.2 d (List.mem_cons_of_mem _ hd)⟩

theorem loadsOk_nil (s : List (Nat × Track)) : loadsOk [] s :=
  ⟨List.Pairwise.nil, fun _ hc => absurd hc (List.not_mem_nil _)⟩

/-- A modification that keeps handle, texture name and upload flag keeps the invariants. -/
theorem trackOk_modify_keep (pid : Nat) (f : Track → Track) (s : List (Nat × Track))
    (hf : ∀ t, (f t).anim = t.anim ∧ (f t).tex.id = t.tex.id ∧
      (f t).st.uploadedOnce = t.st.uploadedOnce)
    (h : ∀ kv ∈ s, trackOk kv.2) : ∀ kv ∈ tracksModify pid f s, trackOk kv.2 := by
  intro kv hkv
  obtain ⟨kv0, hmem, -, hcase⟩ := mem_tracksModify pid f s kv hkv
  rcases hcase with ⟨-, he⟩ | ⟨-, he⟩
  · rw [he]
    exact trackOk_of_eq kv0.2 _ (hf kv0.2).1 (hf kv0.2).2.1 (hf kv0.2).2.2 (h kv0 hmem)
  · rw [he]
    exact h kv0 hmem

theorem loadsOk_modify_keep (pid : Nat) (f : Track → Track) (q : List Cmd)
    (s : List (Nat × Track)) (hf : ∀ t, (f t).anim = t.anim) (h : loadsOk q s) :
    loadsOk q (tracksModify pid f s) := by
  refine ⟨h.1, ?_⟩
  intro c hc hty kv hkv hkey
  obtain ⟨kv0, hmem, hk, hcase⟩ := mem_tracksModify pid f s kv hkv
  have h0 := h.2 c hc hty kv0 hmem (hk ▸ hkey)
  rcases hcase with ⟨-, he⟩ | ⟨-, he⟩
  · rw [he, hf]
    exact h0
  · rw [he]
    exact h0

theorem loadsTracked_modify (pid : Nat) (f : Track → Track) (q : List Cmd)
    (s : List (Nat × Track)) (h : loadsTracked q s) : loadsTracked q (tracksModify pid f s) := by
  intro c hc hty
  obtain ⟨kv0, hmem, hk⟩ := h c hc hty
  obtain ⟨kv, hkv, hk2⟩ := mem_tracksModify_of_mem pid f s kv0 hmem
  exact ⟨kv, hkv, hk2.trans hk⟩

/-- One command of the drain keeps the track invariant and the invariant of the Loads
that remain to be applied. -/
theorem loads_applyCmd (rl : Rlottie) (s : Renderer × Gfx) (c : Cmd) (rest : List Cmd)
    (ht : ∀ kv ∈ s.1.tracks, trackOk kv.2) (hl : loadsOk (c :: rest) s.1.tracks) :
    (∀ kv ∈ (applyCmd rl s c).1.tracks, trackOk kv.2) ∧
    loadsOk rest (applyCmd rl s c).1.tracks := by
  have htail := loadsOk_tail c rest s.1.tracks hl
  have hkeepPlay : ∀ (p : Bool) (t : Track), (assignPlay p t).anim = t.anim ∧
      (assignPlay p t).tex.id = t.tex.id ∧
      (assignPlay p t).st.uploadedOnce = t.st.uploadedOnce := fun _ _ => ⟨rfl, rfl, rfl⟩
  cases hty : c.type with
  | LOAD_MEM =>
    simp only [applyCmd, hty]
    unfold onLoadMem
    split
    · exact ⟨ht, htail⟩
    · split
      · exact ⟨ht, htail⟩
      · rename_i anim hdec
        have hhead : ∀ kv ∈ s.1.tracks, kv.1 = c.pid → kv.2.anim = none :=
          hl.2 c (List.mem_cons_self _ _) hty
        constructor
        · intro kv hkv
          obtain ⟨kv0, hmem, -, hcase⟩ := mem_tracksModify _ _ _ kv hkv
          rcases mem_tracksIndex _ _ _ hmem with hold | ⟨hnew, -⟩
          · rcases hcase with ⟨hk, he⟩ | ⟨-, he⟩
            · rw [he]
              have h0 : kv0.2.tex.id = 0 := (ht kv0 hold).1 (hhead kv0 hold hk)
              unfold trackOk loadInto
              simp [h0]
            · rw [he]
              exact ht kv0 hold
          · rcases hcase with ⟨-, he⟩ | ⟨hk, -⟩
            · rw [he, hnew]
              unfold trackOk loadInto
              simp
            · rw [hnew] at hk
              exact absurd rfl hk
        · refine ⟨htail.1, ?_⟩
          intro d hd hdty kv hkv hkey
          have hne : c.pid ≠ d.pid := (List.pairwise_cons.mp hl.1).1 d hd hty hdty
          obtain ⟨kv0, hmem, hk, hcase⟩ := mem_tracksModify _ _ _ kv hkv
          have hk0 : kv0.1 = d.pid := hk ▸ hkey
          rcases hcase with ⟨hk1, -⟩ | ⟨-, he⟩
          · exact absurd (hk1.symm.trans hk0) hne
          · rw [he]
            rcases mem_tracksIndex _ _ _ hmem with hold | ⟨hnew, -⟩
            · exact htail.2 d hd hdty kv0 hold hk0
            · rw [hnew]
  | PLAY =>
    simp only [applyCmd, hty]
    unfold setPlay
    split
    · exact ⟨trackOk_modify_keep _ _ _ (hkeepPlay true) ht,
        loadsOk_modify_keep _ _ _ _ (fun t => (hkeepPlay true t).1) htail⟩
    · exact ⟨ht, htail⟩
  | PAUSE =>
    simp only [applyCmd, hty]
    unfold setPlay
    split
    · exact ⟨trackOk_modify_keep _ _ _ (hkeepPlay false) ht,
        loadsOk_modify_keep _ _ _ _ (fun t => (hkeepPlay false t).1) htail⟩
    · exact ⟨ht, htail⟩
  | DISCARD =>
    simp only [applyCmd, hty]
    unfold onDiscard
    split
    · exact ⟨ht, htail⟩
    · exact ⟨fun kv hkv => ht kv (mem_tracksErase _ _ kv hkv).1,
        htail.1, fun d hd hdty kv hkv hkey =>
          htail.2 d hd hdty kv (mem_tracksErase _ _ kv hkv).1 hkey⟩

/-- Draining a front part of the queue keeps the invariants for the part that remains. -/
theorem loads_foldl (rl : Rlottie) (front rest : List Cmd) (s : Renderer × Gfx)
    (ht : ∀ kv ∈ s.1.tracks, trackOk kv.2) (hl : loadsOk (front ++ rest) s.1.tracks) :
    (∀ kv ∈ (front.foldl (applyCmd rl) s).1.tracks, trackOk kv.2) ∧
    loadsOk rest (front.foldl (applyCmd rl) s).1.tracks := by
  induction front generalizing s with
  | nil => exact ⟨ht, hl⟩
  | cons c front ih =>
    obtain ⟨h1, h2⟩ := loads_applyCmd rl s c (front ++ rest) ht hl
    exact ih (applyCmd rl s c) h1 h2


/-- The two ways the block "ensure texture" can return: the texture is (re)created, or
the track and the graphics context are left as they are. -/
theorem ensureTexture_cases (size : ImVec2) (tr tr1 : Track) (g g1 : Gfx)
    (h : ensureTexture size tr g = some (tr1, g1)) :
    ((tr.tex.id = 0 ∨ tr.tex.w ≠ truncInt size.x ∨ tr.tex.h ≠ truncInt size.y) ∧
      0 ≤ truncInt size.x * truncInt size.y * 4 ∧
      tr1 = { tr with
              tex := { id := g.generated + 1, w := truncInt size.x, h := truncInt size.y }
              stagingBGRA := resizeVec tr.stagingBGRA (truncInt size.x * truncInt size.y * 4).toNat
              stagingRGBA := resizeVec tr.stagingRGBA
                (resizeVec tr.stagingBGRA (truncInt size.x * truncInt size.y * 4).toNat).length
              st := { tr.st with uploadedOnce := false } } ∧
      g1 = { generated := g.generated + 1,
             log := g.log ++ (if tr.tex.id ≠ 0 then [Event.glDeleteTextures tr.tex.id] else []) ++
               [Event.glGenTextures (g.generated + 1), Event.glBindTexture (g.generated + 1),
                Event.glTexParameteri, Event.glTexParameteri, Event.glTexParameteri,
                Event.glTexParameteri, Event.glBindTexture 0] }) ∨
    (¬ (tr.tex.id = 0 ∨ tr.tex.w ≠ truncInt size.x ∨ tr.tex.h ≠ truncInt size.y) ∧
      tr1 = tr ∧ g1 = g) := by
  unfold ensureTexture at h
  dsimp only at h
  by_cases hr : ¬ (inInt (truncInt size.x) ∧ inInt (truncInt size.y))
  · rw [if_pos hr] at h
    exact absurd h (by simp)
  rw [if_neg hr] at h
  by_cases hc : tr.tex.id = 0 ∨ tr.tex.w ≠ truncInt size.x ∨ tr.tex.h ≠ truncInt size.y
  · rw [if_pos hc] at h
    by_cases hn : ¬ inInt (truncInt size.x * truncInt size.y) ∨
        ¬ inInt (truncInt size.x * truncInt size.y * 4) ∨
        truncInt size.x * truncInt size.y * 4 < 0
    · rw [if_pos hn] at h
      exact absurd h (by simp)
    · rw [if_neg hn] at h
      simp only [Option.some.injEq, Prod.mk.injEq] at h
      refine Or.inl ⟨hc, not_lt.mp (fun hlt => hn (Or.inr (Or.inr hlt))), ?_, ?_⟩
      · rw [← h.1]
        by_cases hid : tr.tex.id ≠ 0 <;> simp [hid, Gfx.gen, Gfx.emit]
      · rw [← h.2]
        by_cases hid : tr.tex.id ≠ 0 <;> simp [hid, Gfx.gen, Gfx.emit]
  · rw [if_neg hc] at h
    simp only [Option.some.injEq, Prod.mk.injEq] at h
    exact Or.inr ⟨hc, h.1.symm, h.2.symm⟩

/-- A block "ensure texture" that returns was given a size whose components are `int`
values, and a byte count below `2^31` when it allocated. -/
theorem ensureTexture_range (size : ImVec2) (tr tr1 : Track) (g g1 : Gfx)
    (h : ensureTexture size tr g = some (tr1, g1)) :
    inInt (truncInt size.x) ∧ inInt (truncInt size.y) ∧
    ((tr.tex.id = 0 ∨ tr.tex.w ≠ truncInt size.x ∨ tr.tex.h ≠ truncInt size.y) →
      truncInt size.x * truncInt size.y * 4 < 2147483648) := by
  unfold ensureTexture at h
  dsimp only at h
  by_cases hr : ¬ (inInt (truncInt size.x) ∧ inInt (truncInt size.y))
  · rw [if_pos hr] at h
    exact absurd h (by simp)
  rw [if_neg hr] at h
  have hr2 := not_not.mp hr
  refine ⟨hr2.1, hr2.2, fun hc => ?_⟩
  rw [if_pos hc] at h
  by_cases hn : ¬ inInt (truncInt size.x * truncInt size.y) ∨
      ¬ inInt (truncInt size.x * truncInt size.y * 4) ∨
      truncInt size.x * truncInt size.y * 4 < 0
  · rw [if_pos hn] at h
    exact absurd h (by simp)
  · have h4 : inInt (truncInt size.x * truncInt size.y * 4) :=
      not_not.mp (fun hx => hn (Or.inr (Or.inl hx)))
    exact h4.2

/-- The block "ensure texture" returns at a size whose components, pitch and byte count
are in range. -/
theorem ensureTexture_isSome (size : ImVec2) (tr : Track) (g : Gfx) (h : sizeOk size) :
    ∃ tr1 g1, ensureTexture size tr g = some (tr1, g1) := by
  obtain ⟨hx, hy, -, h0, h1⟩ := h
  unfold ensureTexture
  dsimp only
  rw [if_neg (not_not.mpr ⟨hx, hy⟩)]
  have hprod : inInt (truncInt size.x * truncInt size.y) := by
    unfold inInt
    constructor <;> omega
  have hbytes : inInt (truncInt size.x * truncInt size.y * 4) := by
    unfold inInt
    constructor <;> omega
  have hno : ¬ (¬ inInt (truncInt size.x * truncInt size.y) ∨
      ¬ inInt (truncInt size.x * truncInt size.y * 4) ∨
      truncInt size.x * truncInt size.y * 4 < 0) := by
    rintro (hh | hh | hh)
    · exact hh hprod
    · exact hh hbytes
    · omega
  by_cases hc : tr.tex.id = 0 ∨ tr.tex.w ≠ truncInt size.x ∨ tr.tex.h ≠ truncInt size.y
  · rw [if_pos hc, if_neg hno]
    exact ⟨_, _, rfl⟩
  · rw [if_neg hc]
    exact ⟨_, _, rfl⟩

theorem sizeOk_nat (w h : Nat) (hw : 0 < w) (hh : 0 < h) (hb : w * h * 4 < 2147483648) :
    sizeOk ⟨w, h⟩ := by
  have hwle : w ≤ w * h := Nat.le_mul_of_pos_right w hh
  have hhle : h ≤ w * h := Nat.le_mul_of_pos_left h hw
  have e1 : truncInt ((w : ℚ)) = (w : Int) := by unfold truncInt; simp
  have e2 : truncInt ((h : ℚ)) = (h : Int) := by unfold truncInt; simp
  have hc : ((w : Int) * (h : Int) * 4) = ((w * h * 4 : Nat) : Int) := by push_cast; ring
  unfold sizeOk inInt
  simp only [e1, e2]
  rw [hc]
  refine ⟨⟨by omega, by omega⟩, ⟨by omega, by omega⟩, ⟨by omega, by omega⟩, by omega, by omega⟩

/-- What the block "ensure texture" keeps, and that a texture exists afterwards. -/
theorem ensureTexture_keeps (size : ImVec2) (tr tr1 : Track) (g g1 : Gfx)
    (h : ensureTexture size tr g = some (tr1, g1)) :
    tr1.anim = tr.anim ∧ tr1.tex.id ≠ 0 ∧ tr1.tex.w = truncInt size.x ∧
    tr1.tex.h = truncInt size.y ∧ tr1.st.loop = tr.st.loop ∧ tr1.st.play = tr.st.play ∧
    tr1.st.customFps = tr.st.customFps ∧ tr1.st.accum = tr.st.accum ∧
    tr1.st.curFrame = tr.st.curFrame := by
  rcases ensureTexture_cases size tr tr1 g g1 h with ⟨-, -, h1, -⟩ | ⟨hc, h1, -⟩
  · rw [h1]
    exact ⟨rfl, Nat.succ_ne_zero _, rfl, rfl, rfl, rfl, rfl, rfl, rfl⟩
  · rw [h1]
    have hid : tr.tex.id ≠ 0 := fun e => hc (Or.inl e)
    have hw : tr.tex.w = truncInt size.x := by
      by_contra hne
      exact hc (Or.inr (Or.inl hne))
    have hh : tr.tex.h = truncInt size.y := by
      by_contra hne
      exact hc (Or.inr (Or.inr hne))
    exact ⟨rfl, hid, hw, hh, rfl, rfl, rfl, rfl, rfl⟩

/-- The two ways `renderAt` can return: nothing to render, or texture ensured and
frame uploaded and drawn. -/
theorem renderAt_cases (rl : Rlottie) (pid : Nat) (pos size : ImVec2) (r : Renderer)
    (g : Gfx) (s : Renderer × Gfx) (h : renderAt rl pid pos size r g = some s) :
    (s = (r, g) ∧ ∀ t, tracksFind pid r.tracks = some t → t.anim = none) ∨
    (∃ tr0 tr1 g1, tracksFind pid r.tracks = some tr0 ∧ tr0.anim ≠ none ∧
      ensureTexture size { tr0 with st := { tr0.st with size := size } } g = some (tr1, g1) ∧
      s = ({ queue := r.queue,
             tracks := tracksModify pid (fun _ => (uploadAndDraw rl pos size tr1 g1).1) r.tracks },
           (uploadAndDraw rl pos size tr1 g1).2)) := by
  unfold renderAt at h
  split at h
  · rename_i hfind
    simp only [Option.some.injEq] at h
    exact Or.inl ⟨h.symm, fun t ht => by rw [hfind] at ht; exact absurd ht (by simp)⟩
  · rename_i tr0 hfind
    split at h
    · rename_i hnone
      simp only [Option.some.injEq] at h
      refine Or.inl ⟨h.symm, fun t ht => ?_⟩
      rw [hfind] at ht
      simp only [Option.some.injEq] at ht
      rw [← ht]
      simpa using hnone
    · rename_i hsome
      split at h
      · exact absurd h (by simp)
      · rename_i tr1 g1 hens
        split at h
        · exact absurd h (by simp)
        · simp only [Option.some.injEq] at h
          refine Or.inr ⟨tr0, tr1, g1, hfind, ?_, hens, h.symm⟩
          intro e
          rw [e] at hsome
          exact hsome rfl

/-- `renderAt` on a track with a decoded handle, once the texture block has returned
and the pitch is an `int` value. -/
theorem renderAt_loaded (rl : Rlottie) (pid : Nat) (pos size : ImVec2) (r : Renderer)
    (g : Gfx) (tr0 tr1 : Track) (g1 : Gfx) (hfind : tracksFind pid r.tracks = some tr0)
    (hanim : tr0.anim.isNone = false)
    (hens : ensureTexture size { tr0 with st := { tr0.st with size := size } } g = some (tr1, g1))
    (hpitch : inInt (tr1.tex.w * 4)) :
    renderAt rl pid pos size r g
      = some ({ queue := r.queue,
                tracks := tracksModify pid (fun _ => (uploadAndDraw rl pos size tr1 g1).1) r.tracks },
              (uploadAndDraw rl pos size tr1 g1).2) := by
  unfold renderAt
  rw [hfind]
  dsimp only
  rw [hanim]
  simp only [Bool.false_eq_true, if_false]
  rw [hens]
  dsimp only
  rw [if_neg (not_not.mpr hpitch)]

/-- The draw request for an identifier that has a track: the flags are stored, then
`renderAt` runs. -/
theorem apiDrawMem_seen (rl : Rlottie) (pid : Nat) (data : List Nat) (sz : ImVec2)
    (loop play : Bool) (prerender customFps : Int) (pos : ImVec2) (r : Renderer) (g : Gfx)
    (t : Track) (hfind : tracksFind pid r.tracks = some t) :
    apiDrawMem rl pid data sz loop play prerender customFps pos r g
      = renderAt rl pid pos sz
          { r with tracks := tracksModify pid (setFlags loop play customFps) r.tracks } g := by
  unfold apiDrawMem
  dsimp only
  rw [hfind, tracksIndex_of_find pid r.tracks t hfind]
  rfl


theorem flagInv_push (c : Cmd) (r : Renderer) (hty : c.type ≠ CmdType.LOAD_MEM)
    (h : flagInv r) : flagInv (push c r) := by
  obtain ⟨ht, hl, hk⟩ := h
  refine ⟨ht, ⟨?_, ?_⟩, ?_⟩
  · show List.Pairwise _ (r.queue ++ [c])
    rw [List.pairwise_append]
    exact ⟨hl.1, List.pairwise_singleton _ _, fun a _ b hb _ hbty => by
      rw [List.mem_singleton.mp hb] at hbty
      exact absurd hbty hty⟩
  · intro d hd hdty
    rcases List.mem_append.mp hd with h1 | h1
    · exact hl.2 d h1 hdty
    · rw [List.mem_singleton.mp h1] at hdty
      exact absurd hdty hty
  · intro d hd hdty
    rcases List.mem_append.mp hd with h1 | h1
    · exact hk d h1 hdty
    · rw [List.mem_singleton.mp h1] at hdty
      exact absurd hdty hty

theorem flagInv_apiDrawMem (rl : Rlottie) (pid : Nat) (data : List Nat) (sz : ImVec2)
    (loop play : Bool) (prerender customFps : Int) (pos : ImVec2) (r : Renderer) (g : Gfx)
    (s : Renderer × Gfx)
    (hr : apiDrawMem rl pid data sz loop play prerender customFps pos r g = some s)
    (h : flagInv r) : flagInv s.1 := by
  obtain ⟨ht, hl, hk⟩ := h
  cases hfind : tracksFind pid r.tracks with
  | none =>
    rw [apiDrawMem_unseen rl pid data sz loop play prerender customFps pos r g hfind] at hr
    simp only [Option.some.injEq] at hr
    rw [← hr]
    have habsent := (tracksFind_none_iff pid r.tracks).mp hfind
    refine ⟨?_, ⟨?_, ?_⟩, ?_⟩
    · intro kv hkv
      rcases List.mem_cons.mp hkv with hnew | hold
      · rw [hnew]
        exact ⟨fun _ => rfl, by simp⟩
      · exact ht kv hold
    · show List.Pairwise _ (r.queue ++ [_])
      rw [List.pairwise_append]
      refine ⟨hl.1, List.pairwise_singleton _ _, fun a ha b hb haty _ => ?_⟩
      rw [List.mem_singleton.mp hb]
      obtain ⟨kv, hkv, hkey⟩ := hk a ha haty
      intro e
      exact habsent kv hkv (hkey.trans e)
    · intro d hd hdty kv hkv hkey
      rcases List.mem_append.mp hd with h1 | h1
      · rcases List.mem_cons.mp hkv with hnew | hold
        · rw [hnew]
        · exact hl.2 d h1 hdty kv hold hkey
      · rw [List.mem_singleton.mp h1] at hkey
        rcases List.mem_cons.mp hkv with hnew | hold
        · rw [hnew]
        · exact absurd hkey (habsent kv hold)
    · intro d hd hdty
      rcases List.mem_append.mp hd with h1 | h1
      · obtain ⟨kv, hkv, hkey⟩ := hk d h1 hdty
        exact ⟨kv, List.mem_cons_of_mem _ hkv, hkey⟩
      · rw [List.mem_singleton.mp h1]
        exact ⟨_, List.mem_cons_self _ _, rfl⟩
  | some t =>
    rw [apiDrawMem_seen rl pid data sz loop play prerender customFps pos r g t hfind] at hr
    have hkeep : ∀ u : Track, (setFlags loop play customFps u).anim = u.anim ∧
        (setFlags loop play customFps u).tex.id = u.tex.id ∧
        (setFlags loop play customFps u).st.uploadedOnce = u.st.uploadedOnce :=
      fun _ => ⟨rfl, rfl, rfl⟩
    have ht1 := trackOk_modify_keep pid _ r.tracks hkeep ht
    have hl1 := loadsOk_modify_keep pid (setFlags loop play customFps) r.queue r.tracks
      (fun u => (hkeep u).1) hl
    have hk1 := loadsTracked_modify pid (setFlags loop play customFps) r.queue r.tracks hk
    rcases renderAt_cases rl pid pos sz _ g s hr with ⟨hs, -⟩ | ⟨tr0, tr1, g1, hf0, ha0, hens, hs⟩
    · rw [hs]
      exact ⟨ht1, hl1, hk1⟩
    · rw [hs]
      obtain ⟨e1, e2, -⟩ := ensureTexture_keeps sz _ tr1 g g1 hens
      have hmem0 := tracksFind_mem pid tr0 _ hf0
      refine ⟨?_, ⟨hl1.1, ?_⟩,
        loadsTracked_modify pid (fun _ => (uploadAndDraw rl pos sz tr1 g1).1) r.queue _ hk1⟩
      · intro kv hkv
        dsimp only at hkv
        obtain ⟨kv0, hmem, -, hcase⟩ := mem_tracksModify _ _ _ kv hkv
        rcases hcase with ⟨-, he⟩ | ⟨-, he⟩
        · rw [he]
          refine ⟨fun hn => ?_, fun _ => e2, fun _ => rfl⟩
          exact absurd (e1 ▸ hn) ha0
        · rw [he]
          exact ht1 kv0 hmem
      · intro d hd hdty kv hkv hkey
        dsimp only at hkv
        obtain ⟨kv0, hmem, hk0, hcase⟩ := mem_tracksModify _ _ _ kv hkv
        rcases hcase with ⟨hkp, -⟩ | ⟨-, he⟩
        · have : tr0.anim = none := hl1.2 d hd hdty (pid, tr0) hmem0 (hkp.symm.trans (hk0 ▸ hkey))
          exact absurd this ha0
        · rw [he]
          exact hl1.2 d hd hdty kv0 hmem (hk0 ▸ hkey)

/-- A `Sync()` that returns leaves the drained renderer with each track replaced by
what the scheduler made of it. -/
theorem syncRenderer_eq (rl : Rlottie) (fuel : Nat) (dt : Dbl) (r : Renderer) (g : Gfx)
    (s : Renderer × Gfx) (h : syncRenderer rl fuel dt r g = some s) :
    s = ({ queue := (processQueue rl r g).1.queue,
           tracks := (processQueue rl r g).1.tracks.map
             (fun kv => (kv.1, produceTrackOr fuel dt kv.2)) },
         (processQueue rl r g).2) := by
  unfold syncRenderer at h
  dsimp only at h
  split at h
  · exact absurd h (by simp)
  · rename_i r1 hp
    simp only [Option.some.injEq] at h
    rw [← h, (produceFrames_eq_map fuel dt _ r1 hp).1]

theorem flagInv_sync (rl : Rlottie) (fuel : Nat) (dt : Dbl) (r : Renderer) (g : Gfx)
    (s : Renderer × Gfx) (hs : syncRenderer rl fuel dt r g = some s) (h : flagInv r) :
    flagInv s.1 := by
  obtain ⟨ht, hl, -⟩ := h
  have hfold := loads_foldl rl r.queue [] ({ r with queue := [] }, g) ht
    (by simpa using hl)
  have hq : (processQueue rl r g).1.queue = [] := processQueue_queue rl r g
  rw [syncRenderer_eq rl fuel dt r g s hs]
  dsimp only
  rw [hq]
  refine ⟨?_, loadsOk_nil _, fun c hc => absurd hc (List.not_mem_nil _)⟩
  intro kv hkv
  obtain ⟨kv0, hmem, heq⟩ := List.mem_map.mp hkv
  rw [← heq]
  obtain ⟨k1, k2, k3, -, -⟩ := produceTrackOr_keeps fuel dt kv0.2
  exact trackOk_of_eq kv0.2 _ k1 (by rw [k2]) k3 (hfold.1 kv0 hmem)

theorem flagInv_step (rl : Rlottie) (fuel : Nat) (s s1 : Renderer × Gfx) (c : Call)
    (hs : step rl fuel s c = some s1) (h : flagInv s.1) : flagInv s1.1 := by
  cases c with
  | draw pid data sz loop play prerender customFps pos =>
    exact flagInv_apiDrawMem rl pid data sz loop play prerender customFps pos s.1 s.2 s1 hs h
  | play pid =>
    simp only [step, Option.some.injEq] at hs
    rw [← hs]
    exact flagInv_push _ s.1 (by simp) h
  | pause pid =>
    simp only [step, Option.some.injEq] at hs
    rw [← hs]
    exact flagInv_push _ s.1 (by simp) h
  | discard pid =>
    simp only [step, Option.some.injEq] at hs
    rw [← hs]
    exact flagInv_push _ s.1 (by simp) h
  | sync dt =>
    simp only [step] at hs
    exact flagInv_sync rl fuel dt s.1 s.2 s1 hs h

theorem flagInv_empty : flagInv {} :=
  ⟨fun kv hkv => absurd hkv (List.not_mem_nil kv), loadsOk_nil _,
    fun c hc => absurd hc (List.not_mem_nil c)⟩

theorem flagInv_run (rl : Rlottie) (fuel : Nat) (calls : List Call) (s s1 : Renderer × Gfx)
    (hs : run rl fuel s calls = some s1) (h : flagInv s.1) : flagInv s1.1 := by
  induction calls generalizing s with
  | nil =>
    simp only [run, Option.some.injEq] at hs
    rw [← hs]
    exact h
  | cons c cs ih =>
    simp only [run] at hs
    split at hs
    · exact absurd hs (by simp)
    · rename_i s2 hstep
      exact ih s2 hs (flagInv_step rl fuel s s2 c hstep h)


theorem resizeVec_length (v : List Nat) (n : Nat) : (resizeVec v n).length = n := by
  unfold resizeVec
  simp only [List.length_append, List.length_take, List.length_replicate]
  omega

theorem animationRenderSync_length (rl : Rlottie)
    (hrl : ∀ a f w h buf, (rl.renderSync a f w h buf).length = buf.length)
    (a : Option Nat) (frameIndex : Int) (dst : List Nat) (w h : Int) :
    (animationRenderSync rl a frameIndex dst w h).length = dst.length := by
  cases a with
  | none => rfl
  | some x =>
    simp only [animationRenderSync]
    split
    · rfl
    · split
      · rfl
      · exact hrl _ _ _ _ _

theorem uploadAndDraw_keeps (rl : Rlottie) (pos size : ImVec2) (tr : Track) (g : Gfx) :
    (uploadAndDraw rl pos size tr g).1.anim = tr.anim ∧
    (uploadAndDraw rl pos size tr g).1.tex = tr.tex ∧
    (uploadAndDraw rl pos size tr g).1.st.uploadedOnce = true ∧
    (uploadAndDraw rl pos size tr g).1.st.loop = tr.st.loop ∧
    (uploadAndDraw rl pos size tr g).1.st.play = tr.st.play ∧
    (uploadAndDraw rl pos size tr g).1.st.customFps = tr.st.customFps ∧
    (uploadAndDraw rl pos size tr g).1.st.accum = tr.st.accum ∧
    (uploadAndDraw rl pos size tr g).1.st.curFrame = tr.st.curFrame ∧
    (uploadAndDraw rl pos size tr g).2.generated = g.generated :=
  ⟨rfl, rfl, rfl, rfl, rfl, rfl, rfl, rfl, by unfold uploadAndDraw; dsimp only; split <;> rfl⟩

theorem uploadAndDraw_lengths (rl : Rlottie)
    (hrl : ∀ a f w h buf, (rl.renderSync a f w h buf).length = buf.length)
    (pos size : ImVec2) (tr : Track) (g : Gfx) :
    (uploadAndDraw rl pos size tr g).1.stagingBGRA.length = tr.stagingBGRA.length ∧
    (uploadAndDraw rl pos size tr g).1.stagingRGBA.length = tr.stagingRGBA.length := by
  unfold uploadAndDraw
  dsimp only
  exact ⟨animationRenderSync_length rl hrl _ _ _ _ _, argb_length _ _ _⟩

theorem stagingOk_modify_keep (pid : Nat) (f : Track → Track) (s : List (Nat × Track))
    (hf : ∀ t, (f t).tex = t.tex ∧ (f t).stagingBGRA = t.stagingBGRA ∧
      (f t).stagingRGBA = t.stagingRGBA)
    (h : stagingOk s) : stagingOk (tracksModify pid f s) := by
  intro kv hkv
  obtain ⟨kv0, hmem, -, hcase⟩ := mem_tracksModify pid f s kv hkv
  rcases hcase with ⟨-, he⟩ | ⟨-, he⟩
  · rw [he, (hf kv0.2).1, (hf kv0.2).2.1, (hf kv0.2).2.2]
    exact h kv0 hmem
  · rw [he]
    exact h kv0 hmem

theorem stagingOk_index (pid : Nat) (s : List (Nat × Track)) (h : stagingOk s) :
    stagingOk (tracksIndex pid s) := by
  intro kv hkv
  rcases mem_tracksIndex pid s kv hkv with hold | ⟨hnew, -⟩
  · exact h kv hold
  · rw [hnew]
    intro hne
    exact absurd rfl hne

theorem stagingOk_applyCmd (rl : Rlottie) (s : Renderer × Gfx) (c : Cmd)
    (h : stagingOk s.1.tracks) : stagingOk (applyCmd rl s c).1.tracks := by
  unfold applyCmd
  split
  · unfold onLoadMem
    split
    · exact h
    · split
      · exact h
      · exact stagingOk_modify_keep _ _ _ (fun _ => ⟨rfl, rfl, rfl⟩) (stagingOk_index _ _ h)
  · unfold setPlay
    split
    · exact stagingOk_modify_keep _ _ _ (fun _ => ⟨rfl, rfl, rfl⟩) h
    · exact h
  · unfold setPlay
    split
    · exact stagingOk_modify_keep _ _ _ (fun _ => ⟨rfl, rfl, rfl⟩) h
    · exact h
  · unfold onDiscard
    split
    · exact h
    · exact fun kv hkv => h kv (mem_tracksErase _ _ kv hkv).1

theorem stagingOk_sync (rl : Rlottie) (fuel : Nat) (dt : Dbl) (r : Renderer) (g : Gfx)
    (s : Renderer × Gfx) (hs : syncRenderer rl fuel dt r g = some s)
    (h : stagingOk r.tracks) : stagingOk s.1.tracks := by
  have hfold : ∀ (q : List Cmd) (s : Renderer × Gfx), stagingOk s.1.tracks →
      stagingOk (q.foldl (applyCmd rl) s).1.tracks := by
    intro q
    induction q with
    | nil => exact fun _ hs => hs
    | cons c q ih => exact fun s hs => ih _ (stagingOk_applyCmd rl s c hs)
  have hp : stagingOk (processQueue rl r g).1.tracks := hfold r.queue _ h
  intro kv hkv
  rw [syncRenderer_eq rl fuel dt r g s hs] at hkv
  obtain ⟨kv0, hmem, heq⟩ := List.mem_map.mp hkv
  rw [← heq]
  obtain ⟨-, k2, -, k4, k5⟩ := produceTrackOr_keeps fuel dt kv0.2
  show (produceTrackOr fuel dt kv0.2).tex.id ≠ 0 → _
  rw [k2, k4, k5]
  exact hp kv0 hmem

theorem stagingOk_apiDrawMem (rl : Rlottie)
    (hrl : ∀ a f w h buf, (rl.renderSync a f w h buf).length = buf.length)
    (pid : Nat) (data : List Nat) (sz : ImVec2)
    (loop play : Bool) (prerender customFps : Int) (pos : ImVec2) (r : Renderer) (g : Gfx)
    (s : Renderer × Gfx)
    (hr : apiDrawMem rl pid data sz loop play prerender customFps pos r g = some s)
    (h : stagingOk r.tracks) : stagingOk s.1.tracks := by
  cases hfind : tracksFind pid r.tracks with
  | none =>
    rw [apiDrawMem_unseen rl pid data sz loop play prerender customFps pos r g hfind] at hr
    simp only [Option.some.injEq] at hr
    rw [← hr]
    intro kv hkv
    rcases List.mem_cons.mp hkv with hnew | hold
    · rw [hnew]
      intro hne
      exact absurd rfl hne
    · exact h kv hold
  | some t =>
    rw [apiDrawMem_seen rl pid data sz loop play prerender customFps pos r g t hfind] at hr
    have h1 : stagingOk (tracksModify pid (setFlags loop play customFps) r.tracks) :=
      stagingOk_modify_keep _ _ _ (fun _ => ⟨rfl, rfl, rfl⟩) h
    rcases renderAt_cases rl pid pos sz _ g s hr with ⟨hs, -⟩ | ⟨tr0, tr1, g1, hf0, -, hens, hs⟩
    · rw [hs]
      exact h1
    · rw [hs]
      have hmem0 := tracksFind_mem pid tr0 _ hf0
      intro kv hkv
      dsimp only at hkv
      obtain ⟨kv0, hmem, -, hcase⟩ := mem_tracksModify _ _ _ kv hkv
      rcases hcase with ⟨-, he⟩ | ⟨-, he⟩
      · rw [he]
        obtain ⟨l1, l2⟩ := uploadAndDraw_lengths rl hrl pos sz tr1 g1
        obtain ⟨-, k2, -⟩ := uploadAndDraw_keeps rl pos sz tr1 g1
        rw [l1, l2, k2]
        intro _
        rcases ensureTexture_cases sz _ tr1 g g1 hens with ⟨-, -, e1, -⟩ | ⟨hc, e1, -⟩
        · rw [e1]
          exact ⟨resizeVec_length _ _, by rw [resizeVec_length, resizeVec_length]⟩
        · rw [e1]
          exact h1 (pid, tr0) hmem0 (fun e => hc (Or.inl e))
      · rw [he]
        exact h1 kv0 hmem

theorem stagingOk_run (rl : Rlottie)
    (hrl : ∀ a f w h buf, (rl.renderSync a f w h buf).length = buf.length)
    (fuel : Nat) (calls : List Call) (s s1 : Renderer × Gfx)
    (hs : run rl fuel s calls = some s1) (h : stagingOk s.1.tracks) : stagingOk s1.1.tracks := by
  induction calls generalizing s with
  | nil =>
    simp only [run, Option.some.injEq] at hs
    rw [← hs]
    exact h
  | cons c cs ih =>
    simp only [run] at hs
    split at hs
    · exact absurd hs (by simp)
    · rename_i s2 hstep
      refine ih s2 hs ?_
      cases c with
      | draw pid data sz loop play prerender customFps pos =>
        exact stagingOk_apiDrawMem rl hrl pid data sz loop play prerender customFps pos
          s.1 s.2 s2 hstep h
      | play pid =>
        simp only [step, Option.some.injEq] at hstep
        rw [← hstep]
        exact h
      | pause pid =>
        simp only [step, Option.some.injEq] at hstep
        rw [← hstep]
        exact h
      | discard pid =>
        simp only [step, Option.some.injEq] at hstep
        rw [← hstep]
        exact h
      | sync dt =>
        simp only [step] at hstep
        exact stagingOk_sync rl fuel dt s.1 s.2 s2 hstep h


theorem truncInt_natCast (n : Nat) : truncInt (n : ℚ) = (n : Int) := by
  unfold truncInt
  simp

/-- A draw request at a positive integer size whose byte count is an `int`, on a track
with a decoded handle, in a state satisfying the flag and staging invariants: what the
track and the call log look like afterwards. -/
theorem draw_loaded_effect (rl : Rlottie)
    (hrl : ∀ a f w h buf, (rl.renderSync a f w h buf).length = buf.length)
    (pid : Nat) (data : List Nat) (loop play : Bool) (prerender customFps : Int)
    (pos : ImVec2) (r : Renderer) (g : Gfx)
    (hflag : ∀ kv ∈ r.tracks, trackOk kv.2) (hst : stagingOk r.tracks)
    (t : Track) (hfind : tracksFind pid r.tracks = some t) (hanim : t.anim.isSome = true)
    (w h : Nat) (hw0 : 0 < w) (hh0 : 0 < h) (hbytes : w * h * 4 < 2147483648) :
    ∃ r1 g1 t1,
      apiDrawMem rl pid data ⟨w, h⟩ loop play prerender customFps pos r g = some (r1, g1) ∧
      tracksFind pid r1.tracks = some t1 ∧
      t1.tex.w = w ∧ t1.tex.h = h ∧
      t1.stagingBGRA.length = w * h * 4 ∧ t1.stagingRGBA.length = w * h * 4 ∧
      t1.st.uploadedOnce = true ∧ t1.anim = t.anim ∧
      ((t.tex.id = 0 ∨ t.tex.w ≠ w ∨ t.tex.h ≠ h) →
        t1.tex.id = g.generated + 1 ∧ g1.generated = g.generated + 1 ∧
        g1.log = g.log ++ (if t.tex.id ≠ 0 then [Event.glDeleteTextures t.tex.id] else []) ++
          [Event.glGenTextures (g.generated + 1), Event.glBindTexture (g.generated + 1),
           Event.glTexParameteri, Event.glTexParameteri, Event.glTexParameteri,
           Event.glTexParameteri, Event.glBindTexture 0,
           Event.glBindTexture (g.generated + 1), Event.glPixelStorei,
           Event.glTexImage2D w h t1.stagingRGBA, Event.glBindTexture 0,
           Event.SetCursorScreenPos pos, Event.Image (g.generated + 1) ⟨w, h⟩]) ∧
      (¬ (t.tex.id = 0 ∨ t.tex.w ≠ w ∨ t.tex.h ≠ h) →
        t1.tex.id = t.tex.id ∧ g1.generated = g.generated ∧
        g1.log = g.log ++
          [Event.glBindTexture t.tex.id, Event.glTexSubImage2D w h t1.stagingRGBA,
           Event.glBindTexture 0, Event.SetCursorScreenPos pos,
           Event.Image t.tex.id ⟨w, h⟩]) := by
  have hmem := tracksFind_mem pid t r.tracks hfind
  have hfind1 : tracksFind pid (tracksModify pid (setFlags loop play customFps) r.tracks)
      = some (setFlags loop play customFps t) := by
    rw [tracksFind_modify, if_pos rfl, hfind]
    rfl
  have hsz : sizeOk ⟨w, h⟩ := sizeOk_nat w h hw0 hh0 hbytes
  obtain ⟨tr1, g1, hens⟩ := ensureTexture_isSome ⟨w, h⟩
    { setFlags loop play customFps t with
      st := { (setFlags loop play customFps t).st with size := ⟨w, h⟩ } } g hsz
  have hpitch : inInt (tr1.tex.w * 4) := by
    rw [(ensureTexture_keeps _ _ tr1 g g1 hens).2.2.1]
    exact hsz.2.2.1
  have hnone : (setFlags loop play customFps t).anim.isNone = false := by
    show t.anim.isNone = false
    cases ha : t.anim with
    | none => rw [ha] at hanim; exact absurd hanim (by simp)
    | some a => rfl
  have hdraw : apiDrawMem rl pid data ⟨w, h⟩ loop play prerender customFps pos r g
      = some ({ queue := r.queue,
                tracks := tracksModify pid (fun _ => (uploadAndDraw rl pos ⟨w, h⟩ tr1 g1).1)
                  (tracksModify pid (setFlags loop play customFps) r.tracks) },
              (uploadAndDraw rl pos ⟨w, h⟩ tr1 g1).2) := by
    rw [apiDrawMem_seen rl pid data ⟨w, h⟩ loop play prerender customFps pos r g t hfind]
    exact renderAt_loaded rl pid pos ⟨w, h⟩ _ g _ tr1 g1 hfind1 hnone hens hpitch
  obtain ⟨l1, l2⟩ := uploadAndDraw_lengths rl hrl pos ⟨w, h⟩ tr1 g1
  obtain ⟨k1, k2, k3, -, -, -, -, -, k9⟩ := uploadAndDraw_keeps rl pos ⟨w, h⟩ tr1 g1
  obtain ⟨e1, -, e3, e4, -⟩ := ensureTexture_keeps _ _ tr1 g g1 hens
  have hcast : ((w : Int) * (h : Int) * 4).toNat = w * h * 4 := by
    have : ((w : Int) * (h : Int) * 4) = ((w * h * 4 : Nat) : Int) := by push_cast; ring
    rw [this, Int.toNat_ofNat]
  refine ⟨_, _, (uploadAndDraw rl pos ⟨w, h⟩ tr1 g1).1, hdraw, ?_, ?_, ?_, ?_, ?_, k3, ?_, ?_, ?_⟩
  · dsimp only
    rw [tracksFind_modify, if_pos rfl, hfind1]
    rfl
  · rw [k2, e3]
    exact truncInt_natCast w
  · rw [k2, e4]
    exact truncInt_natCast h
  · rw [l1]
    rcases ensureTexture_cases _ _ tr1 g g1 hens with ⟨-, -, c1, -⟩ | ⟨hc, c1, -⟩
    · rw [c1]
      show (resizeVec _ _).length = _
      rw [resizeVec_length]
      show (truncInt ((w : ℚ)) * truncInt ((h : ℚ)) * 4).toNat = _
      rw [truncInt_natCast, truncInt_natCast, hcast]
    · rw [c1]
      show t.stagingBGRA.length = _
      have hid : t.tex.id ≠ 0 := fun e => hc (Or.inl e)
      have hw : t.tex.w = w := by
        by_contra hne
        exact hc (Or.inr (Or.inl (by rw [truncInt_natCast]; exact hne)))
      have hh : t.tex.h = h := by
        by_contra hne
        exact hc (Or.inr (Or.inr (by rw [truncInt_natCast]; exact hne)))
      rw [(hst (pid, t) hmem hid).1, hw, hh, hcast]
  · rw [l2]
    rcases ensureTexture_cases _ _ tr1 g g1 hens with ⟨-, -, c1, -⟩ | ⟨hc, c1, -⟩
    · rw [c1]
      show (resizeVec _ _).length = _
      rw [resizeVec_length, resizeVec_length]
      show (truncInt ((w : ℚ)) * truncInt ((h : ℚ)) * 4).toNat = _
      rw [truncInt_natCast, truncInt_natCast, hcast]
    · rw [c1]
      show t.stagingRGBA.length = _
      have hid : t.tex.id ≠ 0 := fun e => hc (Or.inl e)
      have hw : t.tex.w = w := by
        by_contra hne
        exact hc (Or.inr (Or.inl (by rw [truncInt_natCast]; exact hne)))
      have hh : t.tex.h = h := by
        by_contra hne
        exact hc (Or.inr (Or.inr (by rw [truncInt_natCast]; exact hne)))
      rw [(hst (pid, t) hmem hid).2, hw, hh, hcast]
  · rw [k1, e1]
    rfl
  · intro hcond
    rcases ensureTexture_cases _ _ tr1 g g1 hens with ⟨-, -, c1, c2⟩ | ⟨hc, -, -⟩
    · refine ⟨by rw [k2, c1], by rw [k9, c2], ?_⟩
      rw [c1, c2]
      simp only [uploadAndDraw, Gfx.emit, truncInt_natCast, List.append_assoc, setFlags,
        if_true, List.cons_append, List.nil_append]
    · exact absurd (by simpa [truncInt_natCast] using hcond) hc
  · intro hcond
    rcases ensureTexture_cases _ _ tr1 g g1 hens with ⟨hc, -, -, -⟩ | ⟨-, c1, c2⟩
    · exact absurd (by simpa [truncInt_natCast] using hc) hcond
    · have hid : t.tex.id ≠ 0 := fun e => hcond (Or.inl e)
      have hup : t.st.uploadedOnce = true := (hflag (pid, t) hmem).2.mpr hid
      have hw : t.tex.w = w := by
        by_contra hne
        exact hcond (Or.inr (Or.inl hne))
      have hh : t.tex.h = h := by
        by_contra hne
        exact hcond (Or.inr (Or.inr hne))
      refine ⟨by rw [k2, c1]; rfl, by rw [k9, c2], ?_⟩
      rw [c1, c2]
      simp [uploadAndDraw, Gfx.emit, setFlags, hup, hw, hh]


/-- Events other than the generation or deletion of texture `id` do not clear the
"uploaded" reading of the log. -/
theorem scan_keep (id : Nat) (evs : List Event)
    (hev : ∀ e ∈ evs, e ≠ Event.glGenTextures id ∧ e ≠ Event.glDeleteTextures id)
    (b : Nat) : (evs.foldl (scanStep id) (b, true)).2 = true := by
  induction evs generalizing b with
  | nil => rfl
  | cons e evs ih =>
    have he := hev e (List.mem_cons_self _ _)
    have hrest : ∀ e ∈ evs, e ≠ Event.glGenTextures id ∧ e ≠ Event.glDeleteTextures id :=
      fun x hx => hev x (List.mem_cons_of_mem _ hx)
    rw [List.foldl_cons]
    cases e with
    | glDeleteTextures i =>
      have hi : i ≠ id := fun e => he.2 (by rw [e])
      simp only [scanStep, hi, if_false]
      exact ih hrest b
    | glGenTextures i =>
      have hi : i ≠ id := fun e => he.1 (by rw [e])
      simp only [scanStep, hi, if_false]
      exact ih hrest b
    | glBindTexture i => exact ih hrest i
    | glTexParameteri => exact ih hrest b
    | glPixelStorei => exact ih hrest b
    | glTexImage2D w h px =>
      simp only [scanStep]
      split
      · exact ih hrest b
      · exact ih hrest b
    | glTexSubImage2D w h px =>
      simp only [scanStep]
      split
      · exact ih hrest b
      · exact ih hrest b
    | SetCursorScreenPos p => exact ih hrest b
    | Image i sz => exact ih hrest b

theorem uploadedSince_append_keep (id : Nat) (log evs : List Event)
    (hev : ∀ e ∈ evs, e ≠ Event.glGenTextures id ∧ e ≠ Event.glDeleteTextures id)
    (h : uploadedSince id log = true) : uploadedSince id (log ++ evs) = true := by
  unfold uploadedSince at h ⊢
  rw [List.foldl_append]
  have : log.foldl (scanStep id) (0, false) = ((log.foldl (scanStep id) (0, false)).1, true) := by
    rw [← h]
  rw [this]
  exact scan_keep id evs hev _

/-- The calls `uploadAndDraw` adds to the log: no texture is generated or deleted, and
pixels are uploaded to the track's texture. -/
theorem uploadAndDraw_log (rl : Rlottie) (pos size : ImVec2) (tr : Track) (g : Gfx) :
    ∃ evs, (uploadAndDraw rl pos size tr g).2.log = g.log ++ evs ∧
      (∀ e ∈ evs, ∀ i, e ≠ Event.glGenTextures i ∧ e ≠ Event.glDeleteTextures i) ∧
      uploadedSince tr.tex.id (g.log ++ evs) = true := by
  unfold uploadAndDraw
  dsimp only
  generalize argbPremul_to_rgbaStraight tr.stagingRGBA _ _ = rgba
  by_cases hu : tr.st.uploadedOnce = false
  · rw [if_pos hu]
    refine ⟨[Event.glBindTexture tr.tex.id, Event.glPixelStorei,
      Event.glTexImage2D tr.tex.w tr.tex.h rgba, Event.glBindTexture 0,
      Event.SetCursorScreenPos pos, Event.Image tr.tex.id size], ?_, ?_, ?_⟩
    · simp [Gfx.emit]
    · intro e he i
      simp only [List.mem_cons, List.mem_singleton, List.not_mem_nil, or_false] at he
      rcases he with h | h | h | h | h | h <;> rw [h] <;> exact ⟨by simp, by simp⟩
    · simp [uploadedSince, List.foldl_append, scanStep]
  · rw [if_neg hu]
    refine ⟨[Event.glBindTexture tr.tex.id,
      Event.glTexSubImage2D tr.tex.w tr.tex.h rgba, Event.glBindTexture 0,
      Event.SetCursorScreenPos pos, Event.Image tr.tex.id size], ?_, ?_, ?_⟩
    · simp [Gfx.emit]
    · intro e he i
      simp only [List.mem_cons, List.mem_singleton, List.not_mem_nil, or_false] at he
      rcases he with h | h | h | h | h <;> rw [h] <;> exact ⟨by simp, by simp⟩
    · simp [uploadedSince, List.foldl_append, scanStep]

/-- The calls the block "ensure texture" adds to the log: at most the deletion of the
track's old texture and the generation of the next texture name. -/
theorem ensureTexture_log (size : ImVec2) (tr tr1 : Track) (g g1 : Gfx)
    (h : ensureTexture size tr g = some (tr1, g1)) :
    ∃ evs, g1.log = g.log ++ evs ∧
      (∀ e ∈ evs, ∀ i, (e = Event.glGenTextures i → i = g.generated + 1) ∧
        (e = Event.glDeleteTextures i → i = tr.tex.id ∧ i ≠ 0)) ∧
      ((tr1.tex.id = tr.tex.id ∧ tr.tex.id ≠ 0 ∧ g1.generated = g.generated ∧ evs = []) ∨
       (tr1.tex.id = g.generated + 1 ∧ g1.generated = g.generated + 1)) := by
  rcases ensureTexture_cases size tr tr1 g g1 h with ⟨-, -, c1, c2⟩ | ⟨hc, c1, c2⟩
  · refine ⟨(if tr.tex.id ≠ 0 then [Event.glDeleteTextures tr.tex.id] else []) ++
        [Event.glGenTextures (g.generated + 1), Event.glBindTexture (g.generated + 1),
          Event.glTexParameteri, Event.glTexParameteri, Event.glTexParameteri,
          Event.glTexParameteri, Event.glBindTexture 0],
      by rw [c2, List.append_assoc], ?_, Or.inr ⟨by rw [c1], by rw [c2]⟩⟩
    intro e he i
    by_cases hid : tr.tex.id ≠ 0
    · simp only [hid, ne_eq, not_false_eq_true, if_true, List.mem_append, List.mem_cons,
        List.mem_singleton, List.not_mem_nil, or_false] at he
      rcases he with h | h | h | h | h | h | h | h <;> rw [h] <;> simp [hid]
      · intro e1
        rw [← e1]
        exact ⟨rfl, hid⟩
      · intro e1
        exact e1.symm
    · simp only [hid, if_false, List.nil_append, List.mem_cons,
        List.mem_singleton, List.not_mem_nil, or_false] at he
      rcases he with h | h | h | h | h | h | h <;> rw [h] <;> simp
      · intro e1
        exact e1.symm
  · refine ⟨[], by rw [c2, List.append_nil], ?_,
      Or.inl ⟨by rw [c1], fun e => hc (Or.inl e), by rw [c2], rfl⟩⟩
    intro e he
    exact absurd he (List.not_mem_nil e)


theorem ghostOk_modify_keep (pid : Nat) (f : Track → Track) (s : List (Nat × Track)) (g : Gfx)
    (hf : ∀ t, (f t).tex.id = t.tex.id) (h : ghostOk s g) :
    ghostOk (tracksModify pid f s) g := by
  obtain ⟨hb, hk, hi, hu⟩ := h
  have hid : ∀ kv ∈ tracksModify pid f s, ∃ kv0 ∈ s, kv.1 = kv0.1 ∧
      kv.2.tex.id = kv0.2.tex.id := by
    intro kv hkv
    obtain ⟨kv0, hmem, hkey, hcase⟩ := mem_tracksModify pid f s kv hkv
    rcases hcase with ⟨-, he⟩ | ⟨-, he⟩
    · exact ⟨kv0, hmem, hkey, by rw [he, hf]⟩
    · exact ⟨kv0, hmem, hkey, by rw [he]⟩
  refine ⟨?_, ?_, ?_, ?_⟩
  · intro kv hkv
    obtain ⟨kv0, hmem, -, he⟩ := hid kv hkv
    rw [he]
    exact hb kv0 hmem
  · intro a ha b hb2 hab
    obtain ⟨a0, hma, hka, hca⟩ := mem_tracksModify pid f s a ha
    obtain ⟨b0, hmb, hkb, hcb⟩ := mem_tracksModify pid f s b hb2
    have h0 : a0.2 = b0.2 := hk a0 hma b0 hmb (hka ▸ hkb ▸ hab)
    have hkeys : a0.1 = b0.1 := hka ▸ hkb ▸ hab
    rcases hca with ⟨ha1, ea⟩ | ⟨ha1, ea⟩ <;> rcases hcb with ⟨hb1, eb⟩ | ⟨hb1, eb⟩
    · rw [ea, eb, h0]
    · exact absurd (hkeys ▸ ha1) hb1
    · exact absurd (hkeys ▸ hb1) ha1
    · rw [ea, eb, h0]
  · intro a ha b hb2 hne heq
    obtain ⟨a0, hma, hka, ea⟩ := hid a ha
    obtain ⟨b0, hmb, hkb, eb⟩ := hid b hb2
    rw [hka, hkb]
    exact hi a0 hma b0 hmb (ea ▸ hne) (ea ▸ eb ▸ heq)
  · intro kv hkv hne
    obtain ⟨kv0, hmem, -, he⟩ := hid kv hkv
    rw [he] at hne ⊢
    exact hu kv0 hmem hne

theorem ghostOk_index (pid : Nat) (s : List (Nat × Track)) (g : Gfx) (h : ghostOk s g) :
    ghostOk (tracksIndex pid s) g := by
  obtain ⟨hb, hk, hi, hu⟩ := h
  cases hf : tracksFind pid s with
  | some t => rw [tracksIndex_of_find pid s t hf]; exact ⟨hb, hk, hi, hu⟩
  | none =>
    have habs := (tracksFind_none_iff pid s).mp hf
    have hidx : tracksIndex pid s = (pid, {}) :: s := by
      unfold tracksIndex
      rw [hf]
      rfl
    rw [hidx]
    refine ⟨?_, ?_, ?_, ?_⟩
    · intro kv hkv
      rcases List.mem_cons.mp hkv with hn | ho
      · rw [hn]; exact Nat.zero_le _
      · exact hb kv ho
    · intro a ha b hb2 hab
      rcases List.mem_cons.mp ha with hn | ho <;> rcases List.mem_cons.mp hb2 with hn2 | ho2
      · rw [hn, hn2]
      · rw [hn] at hab
        exact absurd hab.symm (habs b ho2)
      · rw [hn2] at hab
        exact absurd hab (habs a ho)
      · exact hk a ho b ho2 hab
    · intro a ha b hb2 hne heq
      rcases List.mem_cons.mp ha with hn | ho <;> rcases List.mem_cons.mp hb2 with hn2 | ho2
      · rw [hn, hn2]
      · rw [hn] at hne
        exact absurd rfl hne
      · rw [hn2] at heq
        exact absurd heq hne
      · exact hi a ho b ho2 hne heq
    · intro kv hkv hne
      rcases List.mem_cons.mp hkv with hn | ho
      · rw [hn] at hne
        exact absurd rfl hne
      · exact hu kv ho hne

theorem ghostOk_onDiscard (pid : Nat) (r : Renderer) (g : Gfx) (h : ghostOk r.tracks g) :
    ghostOk (onDiscard pid r g).1.tracks (onDiscard pid r g).2 := by
  obtain ⟨hb, hk, hi, hu⟩ := h
  unfold onDiscard
  cases hf : tracksFind pid r.tracks with
  | none => exact ⟨hb, hk, hi, hu⟩
  | some t =>
    have hmem := tracksFind_mem pid t r.tracks hf
    dsimp only
    refine ⟨?_, ?_, ?_, ?_⟩
    · intro kv hkv
      have := hb kv (mem_tracksErase _ _ kv hkv).1
      split
      · exact this
      · exact this
    · exact fun a ha b hb2 hab =>
        hk a (mem_tracksErase _ _ a ha).1 b (mem_tracksErase _ _ b hb2).1 hab
    · exact fun a ha b hb2 hne heq =>
        hi a (mem_tracksErase _ _ a ha).1 b (mem_tracksErase _ _ b hb2).1 hne heq
    · intro kv hkv hne
      obtain ⟨hm, hkey⟩ := mem_tracksErase _ _ kv hkv
      split
      · show uploadedSince _ (g.log ++ [_]) = true
        refine uploadedSince_append_keep _ _ _ ?_ (hu kv hm hne)
        intro e he
        rw [List.mem_singleton.mp he]
        refine ⟨by simp, ?_⟩
        intro e1
        simp only [Event.glDeleteTextures.injEq] at e1
        exact hkey (hi kv hm (pid, t) hmem hne e1.symm)
      · exact hu kv hm hne

theorem ghostOk_applyCmd (rl : Rlottie) (s : Renderer × Gfx) (c : Cmd)
    (h : ghostOk s.1.tracks s.2) : ghostOk (applyCmd rl s c).1.tracks (applyCmd rl s c).2 := by
  unfold applyCmd
  split
  · unfold onLoadMem
    split
    · exact h
    · split
      · exact h
      · exact ghostOk_modify_keep _ _ _ _ (fun _ => rfl) (ghostOk_index _ _ _ h)
  · unfold setPlay
    split
    · exact ghostOk_modify_keep _ _ _ _ (fun _ => rfl) h
    · exact h
  · unfold setPlay
    split
    · exact ghostOk_modify_keep _ _ _ _ (fun _ => rfl) h
    · exact h
  · exact ghostOk_onDiscard c.pid s.1 s.2 h

theorem ghostOk_foldl (rl : Rlottie) (q : List Cmd) (s : Renderer × Gfx)
    (h : ghostOk s.1.tracks s.2) :
    ghostOk (q.foldl (applyCmd rl) s).1.tracks (q.foldl (applyCmd rl) s).2 := by
  induction q generalizing s with
  | nil => exact h
  | cons c q ih => exact ih _ (ghostOk_applyCmd rl s c h)

theorem ghostOk_sync (rl : Rlottie) (fuel : Nat) (dt : Dbl) (r : Renderer) (g : Gfx)
    (s : Renderer × Gfx) (hs : syncRenderer rl fuel dt r g = some s)
    (h : ghostOk r.tracks g) : ghostOk s.1.tracks s.2 := by
  have hp : ghostOk (processQueue rl r g).1.tracks (processQueue rl r g).2 :=
    ghostOk_foldl rl r.queue _ h
  obtain ⟨hb, hk, hi, hu⟩ := hp
  rw [syncRenderer_eq rl fuel dt r g s hs]
  dsimp only
  have hid : ∀ kv ∈ (processQueue rl r g).1.tracks.map
        (fun kv => (kv.1, produceTrackOr fuel dt kv.2)),
      ∃ kv0 ∈ (processQueue rl r g).1.tracks, kv = (kv0.1, produceTrackOr fuel dt kv0.2) := by
    intro kv hkv
    obtain ⟨kv0, hmem, heq⟩ := List.mem_map.mp hkv
    exact ⟨kv0, hmem, heq.symm⟩
  refine ⟨?_, ?_, ?_, ?_⟩
  · intro kv hkv
    obtain ⟨kv0, hmem, he⟩ := hid kv hkv
    rw [he]
    show (produceTrackOr fuel dt kv0.2).tex.id ≤ _
    rw [(produceTrackOr_keeps fuel dt kv0.2).2.1]
    exact hb kv0 hmem
  · intro a ha b hb2 hab
    obtain ⟨a0, hma, ea⟩ := hid a ha
    obtain ⟨b0, hmb, eb⟩ := hid b hb2
    rw [ea, eb] at hab ⊢
    show produceTrackOr fuel dt a0.2 = produceTrackOr fuel dt b0.2
    rw [hk a0 hma b0 hmb hab]
  · intro a ha b hb2 hne heq
    obtain ⟨a0, hma, ea⟩ := hid a ha
    obtain ⟨b0, hmb, eb⟩ := hid b hb2
    rw [ea] at hne heq ⊢
    rw [eb] at heq ⊢
    have ka := (produceTrackOr_keeps fuel dt a0.2).2.1
    have kb := (produceTrackOr_keeps fuel dt b0.2).2.1
    exact hi a0 hma b0 hmb (by rw [← ka]; exact hne)
      (by rw [← ka, ← kb]; exact heq)
  · intro kv hkv hne
    obtain ⟨kv0, hmem, he⟩ := hid kv hkv
    rw [he] at hne ⊢
    have ka := (produceTrackOr_keeps fuel dt kv0.2).2.1
    show uploadedSince (produceTrackOr fuel dt kv0.2).tex.id _ = true
    rw [ka]
    exact hu kv0 hmem (by rw [← ka]; exact hne)


theorem ghostOk_renderAt (rl : Rlottie) (pid : Nat) (pos size : ImVec2) (r : Renderer)
    (g : Gfx) (s : Renderer × Gfx) (hr : renderAt rl pid pos size r g = some s)
    (h : ghostOk r.tracks g) : ghostOk s.1.tracks s.2 := by
  rcases renderAt_cases rl pid pos size r g s hr with ⟨hs, -⟩ | ⟨tr0, tr1, g1, hf0, -, hens, hs⟩
  · rw [hs]
    exact h
  obtain ⟨hb, hk, hi, hu⟩ := h
  have hmem0 := tracksFind_mem pid tr0 r.tracks hf0
  obtain ⟨evs1, hlog1, hev1, hdisj⟩ := ensureTexture_log size _ tr1 g g1 hens
  obtain ⟨evs2, hlog2, hev2, hup2⟩ := uploadAndDraw_log rl pos size tr1 g1
  obtain ⟨-, k2, -, -, -, -, -, -, k9⟩ := uploadAndDraw_keeps rl pos size tr1 g1
  have hgen : g.generated ≤ g1.generated := by
    rcases hdisj with ⟨-, -, e, -⟩ | ⟨-, e⟩ <;> rw [e]
    exact Nat.le_succ _
  have hnew : tr1.tex.id ≤ g1.generated ∧ tr1.tex.id ≠ 0 ∧
      (tr1.tex.id = tr0.tex.id ∨ g.generated < tr1.tex.id) := by
    rcases hdisj with ⟨e1, e2, e3, -⟩ | ⟨e1, e3⟩
    · exact ⟨by rw [e1, e3]; exact hb (pid, tr0) hmem0, by rw [e1]; exact e2, Or.inl e1⟩
    · exact ⟨by rw [e1, e3], by rw [e1]; exact Nat.succ_ne_zero _, Or.inr (by rw [e1]; omega)⟩
  rw [hs]
  dsimp only
  -- every entry of the new store comes from an entry of the old one
  have hid : ∀ kv ∈ tracksModify pid (fun _ => (uploadAndDraw rl pos size tr1 g1).1) r.tracks,
      ∃ kv0 ∈ r.tracks, kv.1 = kv0.1 ∧
        ((kv0.1 = pid ∧ kv.2 = (uploadAndDraw rl pos size tr1 g1).1) ∨
         (kv0.1 ≠ pid ∧ kv.2 = kv0.2)) :=
    fun kv hkv => mem_tracksModify pid _ r.tracks kv hkv
  refine ⟨?_, ?_, ?_, ?_⟩
  · intro kv hkv
    obtain ⟨kv0, hm, -, hc⟩ := hid kv hkv
    rw [k9]
    rcases hc with ⟨-, he⟩ | ⟨-, he⟩
    · rw [he, k2]
      exact hnew.1
    · rw [he]
      exact le_trans (hb kv0 hm) hgen
  · intro a ha b hb2 hab
    obtain ⟨a0, hma, hka, hca⟩ := hid a ha
    obtain ⟨b0, hmb, hkb, hcb⟩ := hid b hb2
    have hkeys : a0.1 = b0.1 := hka ▸ hkb ▸ hab
    have h0 : a0.2 = b0.2 := hk a0 hma b0 hmb hkeys
    rcases hca with ⟨ha1, ea⟩ | ⟨ha1, ea⟩ <;> rcases hcb with ⟨hb1, eb⟩ | ⟨hb1, eb⟩
    · rw [ea, eb]
    · exact absurd (hkeys ▸ ha1) hb1
    · exact absurd (hkeys ▸ hb1) ha1
    · rw [ea, eb, h0]
  · intro a ha b hb2 hne heq
    obtain ⟨a0, hma, hka, hca⟩ := hid a ha
    obtain ⟨b0, hmb, hkb, hcb⟩ := hid b hb2
    rw [hka, hkb]
    rcases hca with ⟨ha1, ea⟩ | ⟨ha1, ea⟩ <;> rcases hcb with ⟨hb1, eb⟩ | ⟨hb1, eb⟩
    · rw [ha1, hb1]
    · rw [ea, eb, k2] at heq
      rcases hnew.2.2 with hsame | hfresh
      · rw [hsame] at heq
        have := hi (pid, tr0) hmem0 b0 hmb (hsame ▸ hnew.2.1) heq
        exact absurd this.symm hb1
      · have := hb b0 hmb
        omega
    · rw [ea, eb, k2] at heq
      rw [ea] at hne
      rcases hnew.2.2 with hsame | hfresh
      · rw [hsame] at heq
        have := hi a0 hma (pid, tr0) hmem0 hne heq
        exact absurd this ha1
      · have := hb a0 hma
        omega
    · rw [ea] at hne heq
      rw [eb] at heq
      exact hi a0 hma b0 hmb hne heq
  · intro kv hkv hne
    obtain ⟨kv0, hm, -, hc⟩ := hid kv hkv
    rcases hc with ⟨-, he⟩ | ⟨hkey, he⟩
    · rw [he, k2, hlog2]
      exact hup2
    · rw [he] at hne ⊢
      rw [hlog2, hlog1]
      have hle := hb kv0 hm
      refine uploadedSince_append_keep _ _ _ (fun e he2 => hev2 e he2 _) ?_
      refine uploadedSince_append_keep _ _ _ ?_ (hu kv0 hm hne)
      intro e he1
      constructor
      · intro e1
        have := (hev1 e he1 kv0.2.tex.id).1 e1
        omega
      · intro e1
        have := ((hev1 e he1 kv0.2.tex.id).2 e1).1
        exact hkey (hi kv0 hm (pid, tr0) hmem0 hne this)

theorem ghostOk_apiDrawMem (rl : Rlottie) (pid : Nat) (data : List Nat) (sz : ImVec2)
    (loop play : Bool) (prerender customFps : Int) (pos : ImVec2) (r : Renderer) (g : Gfx)
    (s : Renderer × Gfx)
    (hr : apiDrawMem rl pid data sz loop play prerender customFps pos r g = some s)
    (h : ghostOk r.tracks g) : ghostOk s.1.tracks s.2 := by
  unfold apiDrawMem at hr
  dsimp only at hr
  refine ghostOk_renderAt rl pid pos sz _ g s hr ?_
  have hflags : ghostOk (tracksModify pid (setFlags loop play customFps)
      (tracksIndex pid r.tracks)) g :=
    ghostOk_modify_keep _ _ _ _ (fun _ => rfl) (ghostOk_index _ _ _ h)
  split
  · exact hflags
  · exact hflags

theorem ghostOk_run (rl : Rlottie) (fuel : Nat) (calls : List Call) (s s1 : Renderer × Gfx)
    (hs : run rl fuel s calls = some s1) (h : ghostOk s.1.tracks s.2) :
    ghostOk s1.1.tracks s1.2 := by
  induction calls generalizing s with
  | nil =>
    simp only [run, Option.some.injEq] at hs
    rw [← hs]
    exact h
  | cons c cs ih =>
    simp only [run] at hs
    split at hs
    · exact absurd hs (by simp)
    · rename_i s2 hstep
      refine ih s2 hs ?_
      cases c with
      | draw pid data sz loop play prerender customFps pos =>
        exact ghostOk_apiDrawMem rl pid data sz loop play prerender customFps pos
          s.1 s.2 s2 hstep h
      | play pid =>
        simp only [step, Option.some.injEq] at hstep
        rw [← hstep]
        exact h
      | pause pid =>
        simp only [step, Option.some.injEq] at hstep
        rw [← hstep]
        exact h
      | discard pid =>
        simp only [step, Option.some.injEq] at hstep
        rw [← hstep]
        exact h
      | sync dt =>
        simp only [step] at hstep
        exact ghostOk_sync rl fuel dt s.1 s.2 s2 hstep h

theorem ghostOk_empty (g : Gfx) : ghostOk [] g :=
  ⟨fun kv hkv => absurd hkv (List.not_mem_nil kv),
   fun a ha => absurd ha (List.not_mem_nil a),
   fun a ha => absurd ha (List.not_mem_nil a),
   fun kv hkv => absurd hkv (List.not_mem_nil kv)⟩


theorem run_append (rl : Rlottie) (fuel : Nat) (cs ds : List Call) (s : Renderer × Gfx) :
    run rl fuel s (cs ++ ds) = (run rl fuel s cs).bind (fun s1 => run rl fuel s1 ds) := by
  induction cs generalizing s with
  | nil => rfl
  | cons c cs ih =>
    simp only [List.cons_append, run]
    cases step rl fuel s c with
    | none => rfl
    | some s1 => exact ih s1

theorem sampleRlottie_length (a f : Nat) (w h : Int) (buf : List Nat) :
    (sampleRlottie.renderSync a f w h buf).length = buf.length := by
  simp [sampleRlottie]

theorem stagingOk_empty : stagingOk [] := fun kv hkv => absurd hkv (List.not_mem_nil kv)

/-- C11 (amended): in every state reached from the empty, initialised renderer (the
decoder writing into the buffer it is given, so keeping its length), a draw request at a
positive integer size `(w, h)` whose byte count `w*h*4` is an `int` value (below `2^31`),
on a track with a decoded handle, returns and leaves texture width/height `(w, h)`, both
staging buffers of length `w*h*4` and `uploadedOnce = true`. Exactly when the track had
no texture or its width/height differed from `(w, h)`, the old texture (if any) is
deleted and a new one generated, followed by a full `glTexImage2D` upload (the path
taken while `uploadedOnce` is false); otherwise the texture name is kept, nothing is
generated or deleted, and the only upload is one `glTexSubImage2D`. Hence a draw at
`(100, 100)` followed by a draw at `(200, 150)` on the same identifier makes the second
draw delete one texture and generate one. -/
theorem draw_texture_reallocation (rl : Rlottie)
    (hrl : ∀ a f w h buf, (rl.renderSync a f w h buf).length = buf.length)
    (fuel : Nat) (g0 : Gfx) (calls : List Call) (s : Renderer × Gfx)
    (hrun : run rl fuel ({}, g0) calls = some s)
    (pid : Nat) (t : Track) (hfind : tracksFind pid s.1.tracks = some t)
    (hanim : t.anim.isSome = true)
    (data : List Nat) (loop play : Bool) (prerender customFps : Int) (pos : ImVec2)
    (w h : Nat) (hw : 0 < w) (hh : 0 < h) (hbytes : w * h * 4 < 2147483648) :
    (∃ r1 g1 t1,
      apiDrawMem rl pid data ⟨w, h⟩ loop play prerender customFps pos s.1 s.2 = some (r1, g1) ∧
      tracksFind pid r1.tracks = some t1 ∧
      t1.tex.w = w ∧ t1.tex.h = h ∧
      t1.stagingBGRA.length = w * h * 4 ∧ t1.stagingRGBA.length = w * h * 4 ∧
      t1.st.uploadedOnce = true ∧
      ((t.tex.id = 0 ∨ t.tex.w ≠ w ∨ t.tex.h ≠ h) →
        t1.tex.id = s.2.generated + 1 ∧ g1.generated = s.2.generated + 1 ∧
        g1.log = s.2.log ++ (if t.tex.id ≠ 0 then [Event.glDeleteTextures t.tex.id] else []) ++
          [Event.glGenTextures (s.2.generated + 1), Event.glBindTexture (s.2.generated + 1),
           Event.glTexParameteri, Event.glTexParameteri, Event.glTexParameteri,
           Event.glTexParameteri, Event.glBindTexture 0,
           Event.glBindTexture (s.2.generated + 1), Event.glPixelStorei,
           Event.glTexImage2D w h t1.stagingRGBA, Event.glBindTexture 0,
           Event.SetCursorScreenPos pos, Event.Image (s.2.generated + 1) ⟨w, h⟩]) ∧
      (¬ (t.tex.id = 0 ∨ t.tex.w ≠ w ∨ t.tex.h ≠ h) →
        t1.tex.id = t.tex.id ∧ g1.generated = s.2.generated ∧
        g1.log = s.2.log ++
          [Event.glBindTexture t.tex.id, Event.glTexSubImage2D w h t1.stagingRGBA,
           Event.glBindTexture 0, Event.SetCursorScreenPos pos,
           Event.Image t.tex.id ⟨w, h⟩])) ∧
    (∃ r1 g1 r2 g2 t1 t2,
      apiDrawMem rl pid data ⟨(100 : Nat), (100 : Nat)⟩ loop play prerender customFps pos s.1 s.2
        = some (r1, g1) ∧
      tracksFind pid r1.tracks = some t1 ∧
      apiDrawMem rl pid data ⟨(200 : Nat), (150 : Nat)⟩ loop play prerender customFps pos r1 g1
        = some (r2, g2) ∧
      tracksFind pid r2.tracks = some t2 ∧
      t2.tex.w = 200 ∧ t2.tex.h = 150 ∧ t2.st.uploadedOnce = true ∧
      deleteCalls g2.log = deleteCalls g1.log + 1 ∧
      genCalls g2.log = genCalls g1.log + 1) := by
  have hflag : flagInv s.1 := flagInv_run rl fuel calls ({}, g0) s hrun flagInv_empty
  have hst : stagingOk s.1.tracks :=
    stagingOk_run rl hrl fuel calls ({}, g0) s hrun stagingOk_empty
  constructor
  · obtain ⟨r1, g1, t1, h1, h2, h3, h4, h5, h6, h7, -, h9, h10⟩ :=
      draw_loaded_effect rl hrl pid data loop play prerender customFps pos s.1 s.2 hflag.1 hst
        t hfind hanim w h hw hh hbytes
    exact ⟨r1, g1, t1, h1, h2, h3, h4, h5, h6, h7, h9, h10⟩
  · obtain ⟨r1, g1, t1, h1, h2, h3, -, -, -, h7, h8, -, -⟩ :=
      draw_loaded_effect rl hrl pid data loop play prerender customFps pos s.1 s.2 hflag.1 hst
        t hfind hanim 100 100 (by decide) (by decide) (by decide)
    have hflag1 : flagInv r1 :=
      flagInv_apiDrawMem rl pid data _ loop play prerender customFps pos s.1 s.2 (r1, g1) h1 hflag
    have hst1 : stagingOk r1.tracks :=
      stagingOk_apiDrawMem rl hrl pid data _ loop play prerender customFps pos s.1 s.2 (r1, g1)
        h1 hst
    have hanim1 : t1.anim.isSome = true := by rw [h8]; exact hanim
    obtain ⟨r2, g2, t2, d1, d2, d3, d4, -, -, d7, -, d9, -⟩ :=
      draw_loaded_effect rl hrl pid data loop play prerender customFps pos r1 g1 hflag1.1 hst1
        t1 h2 hanim1 200 150 (by decide) (by decide) (by decide)
    have hcond : t1.tex.id = 0 ∨ t1.tex.w ≠ ((200 : Nat) : Int) ∨ t1.tex.h ≠ ((150 : Nat) : Int) := by
      refine Or.inr (Or.inl ?_)
      rw [h3]
      decide
    obtain ⟨-, -, c3⟩ := d9 hcond
    have hid1 : t1.tex.id ≠ 0 :=
      (hflag1.1 (pid, t1) (tracksFind_mem pid t1 r1.tracks h2)).2.mp h7
    refine ⟨r1, g1, r2, g2, t1, t2, h1, h2, d1, d2, d3, d4, d7, ?_, ?_⟩
    · rw [c3]
      simp [deleteCalls, List.filter_append, hid1]
    · rw [c3]
      simp [genCalls, List.filter_append, hid1]

/-- C11, instance: the loaded sample track drawn at size 3 x 2. -/
theorem draw_texture_reallocation_witness :
    ∃ r1 g1 t1,
      apiDrawMem sampleRlottie 1 [123] ⟨((3 : Nat) : ℚ), ((2 : Nat) : ℚ)⟩ true true 0 0 ⟨0, 0⟩ { tracks := [(1, { anim := some 0, st := { fps := 5, total := 5, duration := 1, accum := 1 / 2 - 1 / 5 - 1 / 5, curFrame := 2 } })] } {} = some (r1, g1) ∧
      tracksFind 1 r1.tracks = some t1 ∧
      t1.tex.w = ((3 : Nat) : Int) ∧ t1.tex.h = ((2 : Nat) : Int) ∧
      t1.stagingBGRA.length = 3 * 2 * 4 :=
  match (draw_texture_reallocation sampleRlottie sampleRlottie_length 5 {} _ _ sampleRun_loaded 1
    { anim := some 0, st := { fps := 5, total := 5, duration := 1, accum := 1 / 2 - 1 / 5 - 1 / 5, curFrame := 2 } }
    rfl rfl [123] true true 0 0 ⟨0, 0⟩ 3 2 (by decide) (by decide) (by decide)).1 with
  | ⟨r1, g1, t1, h1, h2, h3, h4, h5, _⟩ => ⟨r1, g1, t1, h1, h2, h3, h4, h5⟩

/-- C11, counterexample: the sample track, loaded by a draw and a Sync, is drawn at the
positive integer size 23171 x 23171. The byte count `23171 * 23171 * 4 = 2147580964`
is above the largest `int`, and the draw request gives no result (on the usual
two's-complement hardware the product wraps to a negative `int`, and `resize` throws),
so it does not leave a texture of that size. -/
theorem draw_texture_overflow_counterexample :
    run sampleRlottie 5 ({}, {})
        [Call.draw 1 [123] ⟨2, 1⟩ true true 0 0 ⟨0, 0⟩, Call.sync (1 / 2)]
      = some ({ tracks := [(1, { anim := some 0, st := { fps := 5, total := 5, duration := 1, accum := 1 / 2 - 1 / 5 - 1 / 5, curFrame := 2 } })] }, {}) ∧
    apiDrawMem sampleRlottie 1 [123] ⟨((23171 : Nat) : ℚ), ((23171 : Nat) : ℚ)⟩ true true 0 0 ⟨0, 0⟩
        { tracks := [(1, { anim := some 0, st := { fps := 5, total := 5, duration := 1, accum := 1 / 2 - 1 / 5 - 1 / 5, curFrame := 2 } })] } {}
      = none ∧
    (23171 : Int) * 23171 * 4 = 2147580964 ∧ ¬ inInt 2147580964 :=
  ⟨sampleRun_loaded, by decide!, by decide, by decide⟩


/-- A sample run: draw, Sync of half a second, and a second draw of the loaded track. -/
theorem sampleRun_drawn :
    run sampleRlottie 5 ({}, {})
        [Call.draw 1 [123] ⟨2, 1⟩ true true 0 0 ⟨0, 0⟩, Call.sync (1 / 2),
         Call.draw 1 [123] ⟨2, 1⟩ true true 0 0 ⟨0, 0⟩]
      = some ({ tracks := [(1, sampleDrawnTrack)] }, { generated := 1, log := sampleDrawnLog }) := by
  decide!

/-- C12: in every state reached from the empty, initialised renderer through draw
requests, control calls and Sync calls (whatever the fuel of the scheduler loops), for
every track `uploadedOnce` is false exactly
when no pixel upload has occurred since the track's current texture was allocated
(the track has no texture, or the call log shows no upload to it since its
`glGenTextures`); `uploadedOnce = true` implies a texture with non-zero id and a
decoded handle; and whenever the drain reaches a Load, the track it is applied to (if
there is one) has `uploadedOnce = false` and no texture. -/
theorem upload_flag_invariant (rl : Rlottie) (fuel : Nat) (g0 : Gfx) (calls : List Call)
    (s : Renderer × Gfx) (hrun : run rl fuel ({}, g0) calls = some s) :
    (∀ pid t, tracksFind pid s.1.tracks = some t →
      (t.st.uploadedOnce = false ↔
        (t.tex.id = 0 ∨ uploadedSince t.tex.id s.2.log = false)) ∧
      (t.st.uploadedOnce = true → t.tex.id ≠ 0 ∧ t.anim.isSome = true)) ∧
    (∀ front c rest, s.1.queue = front ++ c :: rest → c.type = CmdType.LOAD_MEM →
      ∀ t, tracksFind c.pid
          (front.foldl (applyCmd rl) ({ queue := [], tracks := s.1.tracks }, s.2)).1.tracks = some t →
        t.st.uploadedOnce = false ∧ t.tex.id = 0) := by
  have hflag : flagInv s.1 := flagInv_run rl fuel calls ({}, g0) s hrun flagInv_empty
  have hghost : ghostOk s.1.tracks s.2 :=
    ghostOk_run rl fuel calls ({}, g0) s hrun (ghostOk_empty g0)
  constructor
  · intro pid t hfind
    have hmem := tracksFind_mem pid t s.1.tracks hfind
    obtain ⟨hanim, hup⟩ := hflag.1 (pid, t) hmem
    have hgh := hghost.2.2.2 (pid, t) hmem
    constructor
    · constructor
      · intro hfalse
        left
        by_contra hne
        have := hup.mpr hne
        rw [hfalse] at this
        exact absurd this (by simp)
      · intro hor
        have hid : t.tex.id = 0 := by
          rcases hor with h0 | hs
          · exact h0
          · by_contra hne
            rw [hgh hne] at hs
            exact absurd hs (by simp)
        cases hu : t.st.uploadedOnce with
        | false => rfl
        | true => exact absurd hid (hup.mp hu)
    · intro htrue
      refine ⟨hup.mp htrue, ?_⟩
      cases ha : t.anim with
      | none => exact absurd (hanim ha) (hup.mp htrue)
      | some a => rfl
  · intro front c rest hq hty t hfind
    have hl : loadsOk (front ++ c :: rest) s.1.tracks := hq ▸ hflag.2.1
    obtain ⟨ht1, hl1⟩ := loads_foldl rl front (c :: rest)
      ({ queue := [], tracks := s.1.tracks }, s.2) hflag.1 hl
    have hmem := tracksFind_mem c.pid t _ hfind
    have hnone : t.anim = none := hl1.2 c (List.mem_cons_self _ _) hty (c.pid, t) hmem rfl
    obtain ⟨hanim, hup⟩ := ht1 (c.pid, t) hmem
    have hid : t.tex.id = 0 := hanim hnone
    refine ⟨?_, hid⟩
    cases hu : t.st.uploadedOnce with
    | false => rfl
    | true => exact absurd hid (hup.mp hu)

/-- C12, instance: after draw, Sync and draw, the sample track has texture 1, the log
shows the upload to it, and `uploadedOnce` is true. -/
theorem upload_flag_invariant_witness :
    run sampleRlottie 5 ({}, {})
        [Call.draw 1 [123] ⟨2, 1⟩ true true 0 0 ⟨0, 0⟩, Call.sync (1 / 2),
         Call.draw 1 [123] ⟨2, 1⟩ true true 0 0 ⟨0, 0⟩]
      = some ({ tracks := [(1, sampleDrawnTrack)] }, { generated := 1, log := sampleDrawnLog }) ∧
    (sampleDrawnTrack.st.uploadedOnce = false ↔
      (sampleDrawnTrack.tex.id = 0 ∨ uploadedSince sampleDrawnTrack.tex.id sampleDrawnLog = false)) :=
  ⟨sampleRun_drawn,
   ((upload_flag_invariant sampleRlottie 5 {} _ _ sampleRun_drawn).1 1 sampleDrawnTrack rfl).1⟩

/-! ## Command queue: proofs -/

theorem foldl_push_queue (cs : List Cmd) (r : Renderer) :
    (cs.foldl (fun r c => push c r) r).queue = r.queue ++ cs ∧
    (cs.foldl (fun r c => push c r) r).tracks = r.tracks := by
  induction cs generalizing r with
  | nil => simp
  | cons c cs ih =>
    rw [List.foldl_cons]
    obtain ⟨h1, h2⟩ := ih (push c r)
    rw [h1, h2]
    simp [push]

/-- C13: after `push(c1)`, ..., `push(cn)` the pending queue is the old queue followed
by `[c1, ..., cn]` in push order and the track store is untouched; `processQueue`
then applies exactly these commands, in that order, as a left fold of the command
handlers starting from the store with an emptied queue, and leaves the queue empty
(so, when nothing was pending before the pushes, the result is the left fold over
`[c1, ..., cn]` from the state before); a second `processQueue` without a push in
between changes nothing. -/
theorem queue_fifo_drain (rl : Rlottie) (r : Renderer) (g : Gfx) (cs : List Cmd) :
    (cs.foldl (fun r c => push c r) r).queue = r.queue ++ cs ∧
    (cs.foldl (fun r c => push c r) r).tracks = r.tracks ∧
    processQueue rl (cs.foldl (fun r c => push c r) r) g
      = (r.queue ++ cs).foldl (applyCmd rl) ({ queue := [], tracks := r.tracks }, g) ∧
    (r.queue = [] →
      processQueue rl (cs.foldl (fun r c => push c r) r) g = cs.foldl (applyCmd rl) (r, g)) ∧
    (processQueue rl (cs.foldl (fun r c => push c r) r) g).1.queue = [] ∧
    processQueue rl (processQueue rl (cs.foldl (fun r c => push c r) r) g).1
        (processQueue rl (cs.foldl (fun r c => push c r) r) g).2
      = processQueue rl (cs.foldl (fun r c => push c r) r) g := by
  obtain ⟨hq, ht⟩ := foldl_push_queue cs r
  have hdrain : processQueue rl (cs.foldl (fun r c => push c r) r) g
      = (r.queue ++ cs).foldl (applyCmd rl) ({ queue := [], tracks := r.tracks }, g) := by
    unfold processQueue
    rw [hq, ht]
  have hidem : ∀ s : Renderer × Gfx, s.1.queue = [] → processQueue rl s.1 s.2 = s := by
    intro s hs
    unfold processQueue
    rw [hs]
    obtain ⟨⟨q, t⟩, g1⟩ := s
    simp only at hs
    simp [hs]
  refine ⟨hq, ht, hdrain, ?_, processQueue_queue rl _ g, hidem _ (processQueue_queue rl _ g)⟩
  intro hempty
  rw [hdrain, hempty, List.nil_append]
  obtain ⟨q, t⟩ := r
  simp only at hempty
  simp [hempty]


/-! ## Lazy creation and flags: proofs -/

/-- A draw request on an existing track returns when the track has no decoded handle
or the size is one `renderAt` can serve (`sizeOk`). -/
theorem apiDrawMem_returns (rl : Rlottie) (pid : Nat) (data : List Nat) (sz : ImVec2)
    (loop play : Bool) (prerender customFps : Int) (pos : ImVec2) (r : Renderer) (g : Gfx)
    (t : Track) (hfind : tracksFind pid r.tracks = some t)
    (hok : t.anim = none ∨ sizeOk sz) :
    ∃ s, apiDrawMem rl pid data sz loop play prerender customFps pos r g = some s := by
  rw [apiDrawMem_seen rl pid data sz loop play prerender customFps pos r g t hfind]
  have hfind1 : tracksFind pid (tracksModify pid (setFlags loop play customFps) r.tracks)
      = some (setFlags loop play customFps t) := by
    rw [tracksFind_modify, if_pos rfl, hfind]
    rfl
  unfold renderAt
  simp only [hfind1]
  split
  · exact ⟨_, rfl⟩
  · rename_i hsome
    rcases hok with hnone | hsize
    · have : (setFlags loop play customFps t).anim.isNone = true := by
        show t.anim.isNone = true
        rw [hnone]
        rfl
      exact absurd this hsome
    · obtain ⟨tr1, g1, hens⟩ := ensureTexture_isSome sz
        { setFlags loop play customFps t with
          st := { (setFlags loop play customFps t).st with size := sz } } g hsize
      rw [hens]
      dsimp only
      have hpitch : inInt (tr1.tex.w * 4) := by
        rw [(ensureTexture_keeps _ _ tr1 g g1 hens).2.2.1]
        exact hsize.2.2.1
      rw [if_neg (not_not.mpr hpitch)]
      exact ⟨_, rfl⟩

theorem renderAt_queue (rl : Rlottie) (pid : Nat) (pos size : ImVec2) (r : Renderer)
    (g : Gfx) (s : Renderer × Gfx) (h : renderAt rl pid pos size r g = some s) :
    s.1.queue = r.queue := by
  rcases renderAt_cases rl pid pos size r g s h with ⟨hs, -⟩ | ⟨_, _, _, -, -, -, hs⟩
  · rw [hs]
  · rw [hs]

theorem apiDrawMem_seen_pending (rl : Rlottie) (pid : Nat) (data : List Nat) (sz : ImVec2)
    (loop play : Bool) (prerender customFps : Int) (pos : ImVec2) (r : Renderer) (g : Gfx)
    (t : Track) (hfind : tracksFind pid r.tracks = some t) (hnone : t.anim = none) :
    apiDrawMem rl pid data sz loop play prerender customFps pos r g
      = some ({ queue := r.queue,
                tracks := tracksModify pid (setFlags loop play customFps) r.tracks }, g) := by
  rw [apiDrawMem_seen rl pid data sz loop play prerender customFps pos r g t hfind]
  apply renderAt_pending
  intro u hu
  dsimp only at hu
  rw [tracksFind_modify, if_pos rfl, hfind] at hu
  simp only [Option.map_some', Option.some.injEq] at hu
  rw [← hu]
  exact hnone

/-- Draw requests for an identifier whose track has no decoded handle: they all
return, make no graphics call, queue nothing, and leave the track without handle. -/
theorem run_draws_pending (rl : Rlottie) (fuel pid : Nat) (cs : List Call)
    (hcs : ∀ c ∈ cs, c.isDrawOf pid = true) (r : Renderer) (g : Gfx) (t : Track)
    (hfind : tracksFind pid r.tracks = some t) (hnone : t.anim = none) :
    ∃ r1, run rl fuel (r, g) cs = some (r1, g) ∧ r1.queue = r.queue := by
  induction cs generalizing r t with
  | nil => exact ⟨r, rfl, rfl⟩
  | cons c cs ih =>
    have hc := hcs c (List.mem_cons_self _ _)
    cases c with
    | draw p data sz loop play prerender customFps pos =>
      have hp : p = pid := by simpa [Call.isDrawOf] using hc
      subst hp
      have h1 := apiDrawMem_seen_pending rl p data sz loop play prerender customFps pos r g t
        hfind hnone
      have h2 : tracksFind p (tracksModify p (setFlags loop play customFps) r.tracks)
          = some (setFlags loop play customFps t) := by
        rw [tracksFind_modify, if_pos rfl, hfind]
        rfl
      obtain ⟨r2, e1, e2⟩ := ih (fun c hc => hcs c (List.mem_cons_of_mem _ hc))
        { queue := r.queue, tracks := tracksModify p (setFlags loop play customFps) r.tracks }
        (setFlags loop play customFps t) h2 hnone
      refine ⟨r2, ?_, e2⟩
      simp only [run, step, h1]
      exact e1
    | play p => simp [Call.isDrawOf] at hc
    | pause p => simp [Call.isDrawOf] at hc
    | discard p => simp [Call.isDrawOf] at hc
    | sync dt => simp [Call.isDrawOf] at hc

/-- C14: a draw request for an identifier with no track creates the track with the
given `loop`/`play`/`customFps` and appends exactly one `Load(id, bytes)` carrying the
given bytes; a draw request for an identifier that has a track appends no command
(and it returns whenever the track has no decoded handle or the requested size is one
`renderAt` can serve, `sizeOk`: components and pitch are `int` values and the byte count
is a non-negative `int` value). Consequently a first draw of an unseen identifier followed by any
number of further draw requests for it, with no Sync in between, returns with the
queue extended by that one Load; and in a state reached from the empty renderer the
queue then holds exactly one Load for the identifier. -/
theorem draw_get_or_create (rl : Rlottie) (fuel pid : Nat) (data : List Nat) (sz : ImVec2)
    (loop play : Bool) (prerender customFps : Int) (pos : ImVec2) (r : Renderer) (g : Gfx)
    (hnew : tracksFind pid r.tracks = none) :
    apiDrawMem rl pid data sz loop play prerender customFps pos r g
      = some ({ queue := r.queue ++ [{ type := CmdType.LOAD_MEM, pid := pid, mem := data }],
                tracks := (pid, { st := { loop := loop, play := play, customFps := customFps } })
                  :: r.tracks }, g) ∧
    (∀ (r0 : Renderer) (g0 : Gfx) (t0 : Track) (data0 : List Nat) (sz0 : ImVec2) (l0 p0 : Bool)
        (pre0 fps0 : Int) (pos0 : ImVec2), tracksFind pid r0.tracks = some t0 →
      (∀ s0, apiDrawMem rl pid data0 sz0 l0 p0 pre0 fps0 pos0 r0 g0 = some s0 →
        s0.1.queue = r0.queue) ∧
      ((t0.anim = none ∨ sizeOk sz0) →
        ∃ s0, apiDrawMem rl pid data0 sz0 l0 p0 pre0 fps0 pos0 r0 g0 = some s0)) ∧
    (∀ further : List Call, (∀ c ∈ further, c.isDrawOf pid = true) →
      ∃ r1, run rl fuel (r, g)
          (Call.draw pid data sz loop play prerender customFps pos :: further) = some (r1, g) ∧
        r1.queue = r.queue ++ [{ type := CmdType.LOAD_MEM, pid := pid, mem := data }] ∧
        ((∃ fuel0 g0 calls, run rl fuel0 ({}, g0) calls = some (r, g)) →
          (r1.queue.filter (Cmd.isLoadOf pid)).length = 1)) := by
  have hfirst := apiDrawMem_unseen rl pid data sz loop play prerender customFps pos r g hnew
  refine ⟨hfirst, ?_, ?_⟩
  · intro r0 g0 t0 data0 sz0 l0 p0 pre0 fps0 pos0 hf0
    constructor
    · intro s0 hs0
      rw [apiDrawMem_seen rl pid data0 sz0 l0 p0 pre0 fps0 pos0 r0 g0 t0 hf0] at hs0
      exact renderAt_queue rl pid pos0 sz0
        { queue := r0.queue, tracks := tracksModify pid (setFlags l0 p0 fps0) r0.tracks }
        g0 s0 hs0
    · exact apiDrawMem_returns rl pid data0 sz0 l0 p0 pre0 fps0 pos0 r0 g0 t0 hf0
  · intro further hfurther
    obtain ⟨r1, e1, e2⟩ := run_draws_pending rl fuel pid further hfurther
      { queue := r.queue ++ [{ type := CmdType.LOAD_MEM, pid := pid, mem := data }],
        tracks := (pid, { st := { loop := loop, play := play, customFps := customFps } })
          :: r.tracks } g
      { st := { loop := loop, play := play, customFps := customFps } }
      (by rw [tracksFind_cons, if_pos rfl]) rfl
    refine ⟨r1, ?_, e2, ?_⟩
    · simp only [run, step, hfirst]
      exact e1
    · rintro ⟨fuel0, g0, calls, hreach⟩
      have hflag : flagInv r := flagInv_run rl fuel0 calls ({}, g0) (r, g) hreach flagInv_empty
      have habs := (tracksFind_none_iff pid r.tracks).mp hnew
      have hold : r.queue.filter (Cmd.isLoadOf pid) = [] := by
        rw [List.filter_eq_nil_iff]
        intro c hc hload
        simp only [Cmd.isLoadOf, Bool.decide_and, Bool.and_eq_true, decide_eq_true_eq] at hload
        obtain ⟨kv, hkv, hkey⟩ := hflag.2.2 c hc hload.1
        exact habs kv hkv (hkey.trans hload.2)
      rw [e2, List.filter_append, hold]
      simp [Cmd.isLoadOf]

/-- C14, instance: three draw requests for identifier 1 on the empty renderer. -/
theorem draw_get_or_create_witness :
    ∃ r1, run sampleRlottie 0 ({}, {})
        [Call.draw 1 [123] ⟨2, 1⟩ true true 0 0 ⟨0, 0⟩,
         Call.draw 1 [123] ⟨2, 1⟩ true false 0 0 ⟨0, 0⟩,
         Call.draw 1 [7] ⟨4, 4⟩ false true 0 30 ⟨5, 5⟩] = some (r1, {}) ∧
      r1.queue = [] ++ [{ type := CmdType.LOAD_MEM, pid := 1, mem := [123] }] :=
  match (draw_get_or_create sampleRlottie 0 1 [123] ⟨2, 1⟩ true true 0 0 ⟨0, 0⟩ {} {} rfl).2.2
    [Call.draw 1 [123] ⟨2, 1⟩ true false 0 0 ⟨0, 0⟩,
     Call.draw 1 [7] ⟨4, 4⟩ false true 0 30 ⟨5, 5⟩] (by decide) with
  | ⟨r1, h1, h2, _⟩ => ⟨r1, h1, h2⟩


/-! ## Lifecycle: proofs -/

theorem shutdown_log (s : List (Nat × Track)) (g : Gfx) :
    (s.foldl (fun g1 kv =>
        if kv.2.tex.id ≠ 0 then g1.emit (Event.glDeleteTextures kv.2.tex.id) else g1) g)
      = { generated := g.generated,
          log := g.log ++ (s.filter (fun kv => kv.2.tex.id ≠ 0)).map
            (fun kv => Event.glDeleteTextures kv.2.tex.id) } := by
  induction s generalizing g with
  | nil => simp
  | cons kv s ih =>
    rw [List.foldl_cons, ih]
    by_cases h : kv.2.tex.id ≠ 0
    · simp [h, Gfx.emit, List.filter_cons]
    · simp [h, List.filter_cons]

/-- C15: with the process-wide state an optional renderer, `Init` on an initialised
state leaves it unchanged (and `Init` twice equals `Init` once, the first creating the
empty renderer); `Shutdown` on an uninitialised state changes nothing, and on an
initialised state deletes the texture of every track whose texture id is non-zero,
makes no other graphics call, and returns to the uninitialised state; `Sync`, the draw
request, `Play`, `Pause` and `Discard` on the uninitialised state return with the state
still uninitialised (so no command is queued and no track created) and the graphics
context untouched. -/
theorem lifecycle_guards (rl : Rlottie) (keyOf : List Nat → Option (List Nat) → Nat)
    (r : Renderer) (g : Gfx) (G : Option Renderer) (fuel : Nat) (dt : Dbl) (pid : Nat)
    (data : List Nat)
    (tag : Option (List Nat)) (sz : ImVec2) (loop play : Bool) (prerender customFps : Int)
    (pos : ImVec2) :
    Init (some r) = some r ∧ Init none = some {} ∧ Init (Init G) = Init G ∧
    Shutdown none g = (none, g) ∧
    (Shutdown (some r) g).1 = none ∧
    (Shutdown (some r) g).2.log
      = g.log ++ (r.tracks.filter (fun kv => kv.2.tex.id ≠ 0)).map
          (fun kv => Event.glDeleteTextures kv.2.tex.id) ∧
    (Shutdown (some r) g).2.generated = g.generated ∧
    Sync rl fuel dt none g = some (none, g) ∧
    LottieAnimation_Internal_FromMemory rl pid data sz loop play prerender customFps pos none g
      = some (none, g) ∧
    Play keyOf data tag none = none ∧
    Pause keyOf data tag none = none ∧
    Discard keyOf data tag none = none := by
  refine ⟨rfl, rfl, ?_, rfl, rfl, ?_, ?_, rfl, rfl, rfl, rfl, rfl⟩
  · cases G <;> rfl
  · show (r.tracks.foldl _ g).log = _
    rw [shutdown_log]
  · show (r.tracks.foldl _ g).generated = _
    rw [shutdown_log]

/-! ## Flags overwritten by a draw: proofs -/

/-- A draw request on an existing track that returns: the track afterwards carries
the draw's flags and keeps `accum` and `curFrame`. -/
theorem apiDrawMem_flags (rl : Rlottie) (pid : Nat) (data : List Nat) (sz : ImVec2)
    (loop play : Bool) (prerender customFps : Int) (pos : ImVec2) (r : Renderer) (g : Gfx)
    (t : Track) (hfind : tracksFind pid r.tracks = some t)
    (hok : t.anim = none ∨ sizeOk sz) :
    ∃ r1 g1 t1, apiDrawMem rl pid data sz loop play prerender customFps pos r g = some (r1, g1) ∧
      tracksFind pid r1.tracks = some t1 ∧
      t1.st.loop = loop ∧ t1.st.play = play ∧ t1.st.customFps = customFps ∧
      t1.st.accum = t.st.accum ∧ t1.st.curFrame = t.st.curFrame ∧ t1.anim = t.anim := by
  have hfind1 : tracksFind pid (tracksModify pid (setFlags loop play customFps) r.tracks)
      = some (setFlags loop play customFps t) := by
    rw [tracksFind_modify, if_pos rfl, hfind]
    rfl
  obtain ⟨s, hs⟩ := apiDrawMem_returns rl pid data sz loop play prerender customFps pos r g t
    hfind hok
  have hs2 := hs
  rw [apiDrawMem_seen rl pid data sz loop play prerender customFps pos r g t hfind] at hs2
  rcases renderAt_cases rl pid pos sz _ g s hs2 with ⟨e, -⟩ | ⟨tr0, tr1, g1, hf0, -, hens, e⟩
  · refine ⟨s.1, s.2, setFlags loop play customFps t, hs, ?_, rfl, rfl, rfl, rfl, rfl, rfl⟩
    rw [e]
    exact hfind1
  · dsimp only at hf0
    rw [hfind1] at hf0
    simp only [Option.some.injEq] at hf0
    obtain ⟨k1, -, -, k4, k5, k6, k7, k8, -⟩ := uploadAndDraw_keeps rl pos sz tr1 g1
    obtain ⟨e1, -, -, -, e5, e6, e7, e8, e9⟩ := ensureTexture_keeps sz _ tr1 g g1 hens
    refine ⟨s.1, s.2, (uploadAndDraw rl pos sz tr1 g1).1, hs, ?_, ?_, ?_, ?_, ?_, ?_, ?_⟩
    · rw [e]
      dsimp only
      rw [tracksFind_modify, if_pos rfl, hfind1]
      rfl
    · rw [k4, e5, ← hf0]; rfl
    · rw [k5, e6, ← hf0]; rfl
    · rw [k6, e7, ← hf0]; rfl
    · rw [k7, e8, ← hf0]; rfl
    · rw [k8, e9, ← hf0]; rfl
    · rw [k1, e1, ← hf0]; rfl

/-- C17: for an existing track, a draw request with arguments `(loop, play, customFps)`
that returns (it does whenever the track has no decoded handle or the requested size
is one `renderAt` can serve, `sizeOk`) leaves the track's `loop`, `play` and `customFps` equal to those
arguments, whatever they were before, and `accum` and `curFrame` unchanged. In
particular, once a `Pause(id)` has been drained the track has `play = false`, and the
next draw request for `id` with `play = true` sets `play` back to `true`. -/
theorem draw_overwrites_flags (rl : Rlottie) (pid : Nat) (data : List Nat) (sz : ImVec2)
    (loop play : Bool) (prerender customFps : Int) (pos : ImVec2) (r : Renderer) (g : Gfx)
    (t : Track) (hfind : tracksFind pid r.tracks = some t)
    (hok : t.anim = none ∨ sizeOk sz) :
    (∃ r1 g1 t1, apiDrawMem rl pid data sz loop play prerender customFps pos r g = some (r1, g1) ∧
      tracksFind pid r1.tracks = some t1 ∧
      t1.st.loop = loop ∧ t1.st.play = play ∧ t1.st.customFps = customFps ∧
      t1.st.accum = t.st.accum ∧ t1.st.curFrame = t.st.curFrame) ∧
    (∃ t0, tracksFind pid
        (processQueue rl (apiPlay pid false { queue := [], tracks := r.tracks }) g).1.tracks
          = some t0 ∧
      t0.st.play = false ∧
      ∃ r1 g1 t1, apiDrawMem rl pid data sz loop true prerender customFps pos
          (processQueue rl (apiPlay pid false { queue := [], tracks := r.tracks }) g).1
          (processQueue rl (apiPlay pid false { queue := [], tracks := r.tracks }) g).2
            = some (r1, g1) ∧
        tracksFind pid r1.tracks = some t1 ∧ t1.st.play = true) := by
  constructor
  · obtain ⟨r1, g1, t1, h1, h2, h3, h4, h5, h6, h7, -⟩ :=
      apiDrawMem_flags rl pid data sz loop play prerender customFps pos r g t hfind hok
    exact ⟨r1, g1, t1, h1, h2, h3, h4, h5, h6, h7⟩
  · have hp : processQueue rl (apiPlay pid false { queue := [], tracks := r.tracks }) g
        = ({ queue := [], tracks := tracksModify pid (assignPlay false) r.tracks }, g) := by
      simp [processQueue, apiPlay, push, applyCmd, setPlay, hfind]
    rw [hp]
    have hf0 : tracksFind pid (tracksModify pid (assignPlay false) r.tracks)
        = some (assignPlay false t) := by
      rw [tracksFind_modify, if_pos rfl, hfind]
      rfl
    refine ⟨assignPlay false t, hf0, rfl, ?_⟩
    obtain ⟨r1, g1, t1, h1, h2, -, h4, -⟩ :=
      apiDrawMem_flags rl pid data sz loop true prerender customFps pos
        { queue := [], tracks := tracksModify pid (assignPlay false) r.tracks } g
        (assignPlay false t) hf0 hok
    exact ⟨r1, g1, t1, h1, h2, h4⟩

/-- C17, instance: the loaded sample track, paused by its draw arguments, drawn again
with `play = true` and a custom rate. -/
theorem draw_overwrites_flags_witness :
    ∃ r1 g1 t1, apiDrawMem sampleRlottie 1 [123] ⟨2, 1⟩ false true 0 24 ⟨0, 0⟩ { tracks := [(1, { anim := some 0, st := { play := false, total := 5, accum := 1 / 100, curFrame := 3 } })] } {} = some (r1, g1) ∧
      tracksFind 1 r1.tracks = some t1 ∧
      t1.st.loop = false ∧ t1.st.play = true ∧ t1.st.customFps = 24 ∧
      t1.st.accum = 1 / 100 ∧ t1.st.curFrame = 3 :=
  (draw_overwrites_flags sampleRlottie 1 [123] ⟨2, 1⟩ false true 0 24 ⟨0, 0⟩
    { tracks := [(1, { anim := some 0, st := { play := false, total := 5, accum := 1 / 100, curFrame := 3 } })] } {}
    { anim := some 0, st := { play := false, total := 5, accum := 1 / 100, curFrame := 3 } } rfl
    (Or.inr (by unfold sizeOk; decide!))).1


/-! ## Pixel conversion without wrap-around, identity function: proofs -/

theorem unpremul_le (c A : Nat) (hc : c ≤ A) : c * 255 / A ≤ 255 := by
  apply Nat.div_le_of_le_mul
  nlinarith

theorem unpremul_gt (c A : Nat) (hA : 0 < A) (hA8 : A ≤ 255) (hc : A < c) :
    256 ≤ c * 255 / A := by
  rw [Nat.le_div_iff_mul_le hA]
  nlinarith

/-- C18: for a source pixel `(B, G, R, A)` with `A > 0` whose colour channels are all
`≤ A`, each value `c*255/A` computed by `argbPremul_to_rgbaStraight` is `≤ 255`, so the
stored byte is the exact floor quotient (the `uint8_t` cast loses nothing); `c = A`
gives 255 and `c = 0` gives 0. For any pixel with `A > 0` the stored byte is the
quotient modulo 256, and for byte values with a channel `c > A` the quotient is at
least 256: the pixel `(0, 0, 255, 1)` has quotient 65025 and stores 1. -/
theorem argbPremul_no_wrap (dst src : List Nat) (n i : Nat)
    (_hsrc : src.length = 4 * n) (hdst : 4 * n ≤ dst.length) (hi : i < n)
    (hA : src.getD (4 * i + 3) 0 ≠ 0) :
    (src.getD (4 * i + 0) 0 ≤ src.getD (4 * i + 3) 0 →
      src.getD (4 * i + 1) 0 ≤ src.getD (4 * i + 3) 0 →
      src.getD (4 * i + 2) 0 ≤ src.getD (4 * i + 3) 0 →
      ((argbPremul_to_rgbaStraight dst src n).getD (4 * i + 0) 0
          = src.getD (4 * i + 2) 0 * 255 / src.getD (4 * i + 3) 0 ∧
        (argbPremul_to_rgbaStraight dst src n).getD (4 * i + 1) 0
          = src.getD (4 * i + 1) 0 * 255 / src.getD (4 * i + 3) 0 ∧
        (argbPremul_to_rgbaStraight dst src n).getD (4 * i + 2) 0
          = src.getD (4 * i + 0) 0 * 255 / src.getD (4 * i + 3) 0) ∧
      (src.getD (4 * i + 2) 0 * 255 / src.getD (4 * i + 3) 0 ≤ 255 ∧
        src.getD (4 * i + 1) 0 * 255 / src.getD (4 * i + 3) 0 ≤ 255 ∧
        src.getD (4 * i + 0) 0 * 255 / src.getD (4 * i + 3) 0 ≤ 255) ∧
      (src.getD (4 * i + 2) 0 = src.getD (4 * i + 3) 0 →
        (argbPremul_to_rgbaStraight dst src n).getD (4 * i + 0) 0 = 255) ∧
      (src.getD (4 * i + 2) 0 = 0 →
        (argbPremul_to_rgbaStraight dst src n).getD (4 * i + 0) 0 = 0)) ∧
    ((argbPremul_to_rgbaStraight dst src n).getD (4 * i + 0) 0
        = src.getD (4 * i + 2) 0 * 255 / src.getD (4 * i + 3) 0 % 256 ∧
      (argbPremul_to_rgbaStraight dst src n).getD (4 * i + 1) 0
        = src.getD (4 * i + 1) 0 * 255 / src.getD (4 * i + 3) 0 % 256 ∧
      (argbPremul_to_rgbaStraight dst src n).getD (4 * i + 2) 0
        = src.getD (4 * i + 0) 0 * 255 / src.getD (4 * i + 3) 0 % 256) ∧
    (∀ c A : Nat, 0 < A → A ≤ 255 → A < c → 256 ≤ c * 255 / A) ∧
    (argbPremul_to_rgbaStraight [0, 0, 0, 0] [0, 0, 255, 1] 1 = [1, 0, 0, 1] ∧
      255 * 255 / 1 = 65025 ∧ 65025 % 256 = 1) := by
  have hlen : 4 * i + 3 < dst.length := by omega
  have hin := convertPixel_getElem?_inside dst src i hlen
  dsimp only at hin
  obtain ⟨c0, c1, c2, -⟩ := hin
  have p0 := argb_getElem?_pixel dst src n i hi hdst 0 (by omega)
  have p1 := argb_getElem?_pixel dst src n i hi hdst 1 (by omega)
  have p2 := argb_getElem?_pixel dst src n i hi hdst 2 (by omega)
  rw [c0] at p0
  rw [c1] at p1
  rw [c2] at p2
  simp only [hA, if_false] at p0 p1 p2
  have q0 : (argbPremul_to_rgbaStraight dst src n).getD (4 * i + 0) 0
      = src.getD (4 * i + 2) 0 * 255 / src.getD (4 * i + 3) 0 % 256 := by
    rw [List.getD_eq_getElem?_getD, p0]
    rfl
  have q1 : (argbPremul_to_rgbaStraight dst src n).getD (4 * i + 1) 0
      = src.getD (4 * i + 1) 0 * 255 / src.getD (4 * i + 3) 0 % 256 := by
    rw [List.getD_eq_getElem?_getD, p1]
    rfl
  have q2 : (argbPremul_to_rgbaStraight dst src n).getD (4 * i + 2) 0
      = src.getD (4 * i + 0) 0 * 255 / src.getD (4 * i + 3) 0 % 256 := by
    rw [List.getD_eq_getElem?_getD, p2]
    rfl
  refine ⟨?_, ⟨q0, q1, q2⟩, unpremul_gt, by decide⟩
  intro hB hG hR
  have lR := unpremul_le _ _ hR
  have lG := unpremul_le _ _ hG
  have lB := unpremul_le _ _ hB
  have eR : src.getD (4 * i + 2) 0 * 255 / src.getD (4 * i + 3) 0 % 256
      = src.getD (4 * i + 2) 0 * 255 / src.getD (4 * i + 3) 0 := Nat.mod_eq_of_lt (by omega)
  have eG : src.getD (4 * i + 1) 0 * 255 / src.getD (4 * i + 3) 0 % 256
      = src.getD (4 * i + 1) 0 * 255 / src.getD (4 * i + 3) 0 := Nat.mod_eq_of_lt (by omega)
  have eB : src.getD (4 * i + 0) 0 * 255 / src.getD (4 * i + 3) 0 % 256
      = src.getD (4 * i + 0) 0 * 255 / src.getD (4 * i + 3) 0 := Nat.mod_eq_of_lt (by omega)
  refine ⟨⟨q0.trans eR, q1.trans eG, q2.trans eB⟩, ⟨lR, lG, lB⟩, ?_, ?_⟩
  · intro hRA
    rw [q0, eR, hRA, Nat.mul_div_cancel_left _ (Nat.pos_of_ne_zero hA)]
  · intro hR0
    rw [q0, eR, hR0]
    simp

/-- C18, instance: the pixel `(B, G, R, A) = (10, 20, 30, 40)` converts to red 191,
green 127, blue 63 without wrap-around. -/
theorem argbPremul_no_wrap_witness :
    (argbPremul_to_rgbaStraight [0, 0, 0, 0] [10, 20, 30, 40] 1).getD 0 0 = 30 * 255 / 40 ∧
    (argbPremul_to_rgbaStraight [0, 0, 0, 0] [10, 20, 30, 40] 1).getD 1 0 = 20 * 255 / 40 ∧
    (argbPremul_to_rgbaStraight [0, 0, 0, 0] [10, 20, 30, 40] 1).getD 2 0 = 10 * 255 / 40 :=
  ((argbPremul_no_wrap [0, 0, 0, 0] [10, 20, 30, 40] 1 0 (by decide) (by decide) (by decide)
    (by decide)).1 (by decide) (by decide) (by decide)).1


theorem fnvStep_lt (h byte : Nat) : fnvStep h byte < 4294967296 :=
  Nat.mod_lt _ (by decide)

theorem fnv_mul_injective (x y : Nat) (hx : x < 4294967296) (hy : y < 4294967296)
    (h : x * 16777619 % 4294967296 = y * 16777619 % 4294967296) : x = y := by
  have hmod : x ≡ y [MOD 4294967296] :=
    Nat.ModEq.cancel_right_of_coprime (by decide) h
  unfold Nat.ModEq at hmod
  rwa [Nat.mod_eq_of_lt hx, Nat.mod_eq_of_lt hy] at hmod

/-- For a fixed byte, a fold step is injective on 32-bit states. -/
theorem fnvStep_state_injective (h1 h2 c : Nat) (hh1 : h1 < 4294967296)
    (hh2 : h2 < 4294967296) (hc : c < 256) (h : fnvStep h1 c = fnvStep h2 c) : h1 = h2 := by
  unfold fnvStep at h
  have hc32 : c < 2 ^ 32 := by omega
  have hx : h1 ^^^ c < 2 ^ 32 := Nat.xor_lt_two_pow (by omega) hc32
  have hy : h2 ^^^ c < 2 ^ 32 := Nat.xor_lt_two_pow (by omega) hc32
  exact Nat.xor_left_inj.mp (fnv_mul_injective _ _ hx hy h)

/-- For a fixed 32-bit state, a fold step is injective in the byte. -/
theorem fnvStep_byte_injective (h a b : Nat) (hh : h < 4294967296) (ha : a < 256)
    (hb : b < 256) (he : fnvStep h a = fnvStep h b) : a = b := by
  unfold fnvStep at he
  have hx : h ^^^ a < 2 ^ 32 := Nat.xor_lt_two_pow (by omega) (by omega)
  have hy : h ^^^ b < 2 ^ 32 := Nat.xor_lt_two_pow (by omega) (by omega)
  exact Nat.xor_right_inj.mp (fnv_mul_injective _ _ hx hy he)

theorem foldl_fnvStep_lt (l : List Nat) (h : Nat) (hh : h < 4294967296) :
    l.foldl fnvStep h < 4294967296 := by
  induction l generalizing h with
  | nil => exact hh
  | cons c l ih => exact ih _ (fnvStep_lt h c)

theorem foldl_fnvStep_injective (l : List Nat) (hl : ∀ c ∈ l, c < 256) (h1 h2 : Nat)
    (hh1 : h1 < 4294967296) (hh2 : h2 < 4294967296) (hne : h1 ≠ h2) :
    l.foldl fnvStep h1 ≠ l.foldl fnvStep h2 := by
  induction l generalizing h1 h2 with
  | nil => exact hne
  | cons c l ih =>
    have hc := hl c (List.mem_cons_self _ _)
    exact ih (fun x hx => hl x (List.mem_cons_of_mem _ hx)) _ _ (fnvStep_lt h1 c)
      (fnvStep_lt h2 c) (fun e => hne (fnvStep_state_injective h1 h2 c hh1 hh2 hc e))

theorem cstr_of_nonzero (l : List Nat) (h : ∀ c ∈ l, c ≠ 0) : cstr l = l := by
  unfold cstr
  rw [List.takeWhile_eq_self_iff]
  intro x hx
  simpa using h x hx

/-- C19: in the `#else` branch, `KeyFromMemoryTagged` is the 32-bit FNV-1a fold
(`h ^= byte; h *= 0x01000193` mod 2^32) over the tag's characters followed by the data
bytes, starting from `0x811C9DC5 ^ 0x5EED1234`, and a null tag hashes like the empty
tag. For every byte content and every two tags (C strings: characters non-zero
bytes) of the same length that differ in exactly one character position, the two
identifiers are different. -/
theorem key_tag_sensitivity (data front rest : List Nat) (a b : Nat)
    (hdata : ∀ c ∈ data, c < 256)
    (hfront : ∀ c ∈ front, c ≠ 0 ∧ c < 256) (hrest : ∀ c ∈ rest, c ≠ 0 ∧ c < 256)
    (ha : a ≠ 0 ∧ a < 256) (hb : b ≠ 0 ∧ b < 256) (hab : a ≠ b) :
    KeyFromMemoryTagged data (some (front ++ a :: rest))
      ≠ KeyFromMemoryTagged data (some (front ++ b :: rest)) ∧
    (∀ tag : List Nat, KeyFromMemoryTagged data (some tag)
      = (cstr tag ++ data).foldl fnvStep (2166136261 ^^^ 1592594996)) ∧
    KeyFromMemoryTagged data none = KeyFromMemoryTagged data (some []) ∧
    (2166136261 : Nat) = 0x811C9DC5 ∧ (1592594996 : Nat) = 0x5EED1234 ∧
    (16777619 : Nat) = 0x01000193 := by
  have hfold : ∀ tag : List Nat, KeyFromMemoryTagged data (some tag)
      = (cstr tag ++ data).foldl fnvStep (2166136261 ^^^ 1592594996) := by
    intro tag
    unfold KeyFromMemoryTagged
    rw [List.foldl_append]
  refine ⟨?_, hfold, rfl, by decide, by decide, by decide⟩
  have hnz : ∀ x : Nat, (x ≠ 0 ∧ x < 256) → ∀ c ∈ front ++ x :: rest, c ≠ 0 := by
    intro x hx c hc
    rcases List.mem_append.mp hc with h | h
    · exact (hfront c h).1
    · rcases List.mem_cons.mp h with h | h
      · rw [h]; exact hx.1
      · exact (hrest c h).1
  rw [hfold, hfold, cstr_of_nonzero _ (hnz a ha), cstr_of_nonzero _ (hnz b hb)]
  simp only [List.append_assoc, List.cons_append, List.foldl_append, List.foldl_cons]
  have h0 : front.foldl fnvStep (2166136261 ^^^ 1592594996) < 4294967296 :=
    foldl_fnvStep_lt front _ (by decide)
  have hstep : fnvStep (front.foldl fnvStep (2166136261 ^^^ 1592594996)) a
      ≠ fnvStep (front.foldl fnvStep (2166136261 ^^^ 1592594996)) b :=
    fun e => hab (fnvStep_byte_injective _ a b h0 ha.2 hb.2 e)
  have hrest2 := foldl_fnvStep_injective rest (fun c hc => (hrest c hc).2) _ _
    (fnvStep_lt _ a) (fnvStep_lt _ b) hstep
  exact foldl_fnvStep_injective data hdata _ _ (foldl_fnvStep_lt rest _ (fnvStep_lt _ a))
    (foldl_fnvStep_lt rest _ (fnvStep_lt _ b)) hrest2

/-- C19, instance: the tags "ab" and "ac" over the content bytes 1, 2, 3. -/
theorem key_tag_sensitivity_witness :
    KeyFromMemoryTagged [1, 2, 3] (some ([97] ++ 98 :: []))
      ≠ KeyFromMemoryTagged [1, 2, 3] (some ([97] ++ 99 :: [])) :=
  (key_tag_sensitivity [1, 2, 3] [97] [] 98 99 (by decide) (by decide) (by decide)
    (by decide) (by decide) (by decide)).1


/-- The frame index after one run of the loop body: one step forward, with the wrap or
the clamp at the frame count. -/
theorem frameBody_cur (d : Dbl) (st : TrackState) :
    (frameBody d st).curFrame
      = if toU32 (st.curFrame + 1) ≥ st.total then (if st.loop then 0 else toI32 st.total - 1)
        else st.curFrame + 1 := by
  unfold frameBody
  split <;> rfl

theorem Dbl.toRat_pow (p : Nat) : (Dbl.fin false (2 ^ p)).toRat = (2 : ℚ) ^ p / 2 ^ 1074 := by
  rw [Dbl.toRat_fin]
  simp only [Nat.cast_pow, Nat.cast_ofNat]

theorem pow_inv_units (p : Nat) (hp : p ≤ 2148) :
    (2 : ℚ) ^ 1074 / 2 ^ p = 2 ^ (2148 - p) / 2 ^ 1074 := by
  have h2 : (2 : ℚ) ^ 1074 * 2 ^ 1074 = 2 ^ (2148 - p) * 2 ^ p := by
    rw [← pow_add, ← pow_add]
    congr 1
    omega
  have hp0 : (2 : ℚ) ^ p ≠ 0 := pow_ne_zero _ (by norm_num)
  have h1 : (2 : ℚ) ^ 1074 ≠ 0 := pow_ne_zero _ (by norm_num)
  rw [div_eq_div_iff hp0 h1, h2]

theorem Dbl.inv_toRat_pow (p : Nat) (hp : p ≤ 2148) :
    1 / (Dbl.fin false (2 ^ p)).toRat = (Dbl.fin false (2 ^ (2148 - p))).toRat := by
  rw [Dbl.toRat_pow, Dbl.toRat_pow, one_div_div, pow_inv_units p hp]

/-- C16 (amended): for a track with a decoded handle and `play = true` whose effective
rate `R = useFps` (`customFps` when positive, else `fps`) is a power of two (`2^p`
units, so that the frame period `1 / R` is a double), with `accum = a ≥ 0` and `dt ≥ 0`
finite doubles that are multiples of a power of two `q` (`2^e` units) dividing `1 / R`,
and `a + dt < 2^53 * q`: every double operation of the pass is exact, and, given fuel
for them, the loop of `produceFrames(dt)` exits after exactly `k = ⌊(a + dt) * R⌋` runs
of its body, each moving the frame index one step forward with the wrap or clamp at
`total` (none skipped), and leaves `accum = a + dt - k / R` with `0 ≤ accum < 1 / R`;
whenever the pass over the whole store returns, the store holds the track in that
state. A track with no decoded handle or a non-positive effective rate is left
unchanged, whatever `dt`. -/
theorem produceFrames_fixed_step (fuel : Nat) (r : Renderer) (pid : Nat) (t : Track)
    (p e ma mdt : Nat)
    (hfind : tracksFind pid r.tracks = some t) (hanim : t.anim.isSome = true)
    (hplay : t.st.play = true)
    (hR : useFps t.st = Dbl.fin false (2 ^ p)) (hp1 : 51 ≤ p) (hp2 : p ≤ 2097)
    (he : e ≤ 2148 - p) (he2 : e ≤ 2045)
    (hacc : t.st.accum = Dbl.fin false ma) (hga : 2 ^ e ∣ ma) (hgdt : 2 ^ e ∣ mdt)
    (hlt : ma + mdt < 2 ^ (53 + e)) (hfuel : (ma + mdt) / 2 ^ (2148 - p) ≤ fuel) :
    (∃ (k : Nat) (a1 : Dbl),
      (k : Int) = ⌊((Dbl.fin false ma).toRat + (Dbl.fin false mdt).toRat)
        * (Dbl.fin false (2 ^ p)).toRat⌋ ∧
      produceTrack fuel (Dbl.fin false mdt) t
        = some { t with
            st := ((frameBody (1 / useFps t.st))^[k]
              { t.st with accum := t.st.accum + Dbl.fin false mdt }) } ∧
      (∀ j, j < k →
        ((frameBody (1 / useFps t.st))^[j + 1]
            { t.st with accum := t.st.accum + Dbl.fin false mdt }).curFrame
          = if toU32 (((frameBody (1 / useFps t.st))^[j]
                { t.st with accum := t.st.accum + Dbl.fin false mdt }).curFrame + 1) ≥ t.st.total
            then (if t.st.loop then 0 else toI32 t.st.total - 1)
            else ((frameBody (1 / useFps t.st))^[j]
                { t.st with accum := t.st.accum + Dbl.fin false mdt }).curFrame + 1) ∧
      ((frameBody (1 / useFps t.st))^[k]
          { t.st with accum := t.st.accum + Dbl.fin false mdt }).accum = a1 ∧
      a1.toRat = (Dbl.fin false ma).toRat + (Dbl.fin false mdt).toRat
        - (k : ℚ) / (Dbl.fin false (2 ^ p)).toRat ∧
      0 ≤ a1.toRat ∧ a1.toRat < 1 / (Dbl.fin false (2 ^ p)).toRat ∧
      (∀ r1, produceFrames fuel (Dbl.fin false mdt) r = some r1 →
        tracksFind pid r1.tracks
          = some { t with
              st := ((frameBody (1 / useFps t.st))^[k]
                { t.st with accum := t.st.accum + Dbl.fin false mdt }) })) ∧
    (∀ (u : Track) (q fuel1 : Nat) (dt1 : Dbl), tracksFind q r.tracks = some u →
      (u.anim = none ∨ useFps u.st ≤ 0) →
      produceTrack fuel1 dt1 u = some u ∧
      ∀ r1, produceFrames fuel1 dt1 r = some r1 → tracksFind q r1.tracks = some u) := by
  have hmd : 0 < 2 ^ (2148 - p) := pow_pos (by decide) _
  have hfin : ma + mdt < 2 ^ 2098 :=
    lt_of_lt_of_le hlt (Nat.pow_le_pow_right (by decide) (by omega))
  have hsum : t.st.accum + Dbl.fin false mdt = Dbl.fin false (ma + mdt) := by
    rw [hacc, Dbl.add_exact ma mdt e hga hgdt hlt hfin]
  have hdur : 1 / useFps t.st = Dbl.fin false (2 ^ (2148 - p)) := by
    rw [hR, Dbl.one_div_pow p hp1 (by omega)]
  obtain ⟨q1, q2⟩ := produceTrack_exact fuel t p e ma mdt hanim hplay hR hp1 (by omega) he he2
    hacc hga hgdt hlt hfuel
  constructor
  · refine ⟨(ma + mdt) / 2 ^ (2148 - p), Dbl.fin false ((ma + mdt) % 2 ^ (2148 - p)),
      ?_, ?_, ?_, ?_, ?_, ?_, ?_, ?_⟩
    · rw [Dbl.toRat_fin, Dbl.toRat_fin, Dbl.toRat_pow, ← add_div, ← Nat.cast_add,
        floor_units (ma + mdt) p (by omega)]
    · rw [hdur, hsum]
      exact q1
    · intro j _
      rw [Function.iterate_succ_apply', frameBody_cur]
      obtain ⟨f1, -, -, -, f5, -⟩ := iterate_frameBody_fields (1 / useFps t.st) j
        { t.st with accum := t.st.accum + Dbl.fin false mdt }
      rw [f1, f5]
    · rw [hdur, hsum]
      exact q2
    · rw [Dbl.toRat_pow, Dbl.toRat_fin, Dbl.toRat_fin, Dbl.toRat_fin, div_div_eq_mul_div]
      have hdm := Nat.div_add_mod (ma + mdt) (2 ^ (2148 - p))
      have hq : ((2 ^ (2148 - p) * ((ma + mdt) / 2 ^ (2148 - p)) + (ma + mdt) % 2 ^ (2148 - p)
          : Nat) : ℚ) = ((ma + mdt : Nat) : ℚ) := by rw [hdm]
      rw [mul_div_assoc, pow_inv_units p (by omega)]
      push_cast at hq
      have h1 : (2 : ℚ) ^ 1074 ≠ 0 := pow_ne_zero _ (by norm_num)
      generalize (2 : ℚ) ^ 1074 = c at h1 ⊢
      generalize (2 : ℚ) ^ (2148 - p) = m at hq ⊢
      field_simp
      linarith
    · rw [Dbl.toRat_fin]
      exact div_nonneg (Nat.cast_nonneg _) (le_of_lt (pow_pos (by norm_num) _))
    · rw [Dbl.inv_toRat_pow p (by omega), Dbl.toRat_fin, Dbl.toRat_fin]
      have hlt2 : (ma + mdt) % 2 ^ (2148 - p) < 2 ^ (2148 - p) := Nat.mod_lt _ hmd
      have hc : (((ma + mdt) % 2 ^ (2148 - p) : Nat) : ℚ) < ((2 ^ (2148 - p) : Nat) : ℚ) := by
        exact_mod_cast hlt2
      exact div_lt_div_of_pos_right hc (pow_pos (by norm_num) _)
    · intro r1 hr1
      rw [produceFrames_find pid fuel _ r r1 hr1, hfind, Option.some_bind, hdur, hsum]
      exact q1
  · intro u q fuel1 dt1 hu hskip
    have hs := produceTrack_skipped fuel1 dt1 u hskip
    refine ⟨hs, fun r1 hr1 => ?_⟩
    rw [produceFrames_find q fuel1 dt1 r r1 hr1, hu, Option.some_bind, hs]

set_option maxRecDepth 100000 in
/-- C16, instance: five frames at rate 8 (`customFps = 8`) with 1/16 s accumulated; a
pass of 1/2 s runs the loop body `⌊(1/16 + 1/2) * 8⌋` times. -/
theorem produceFrames_fixed_step_witness :
    (8 : Dbl) = Dbl.fin false (2 ^ 1077) ∧ (1 / 16 : Dbl) = Dbl.fin false (2 ^ 1070) ∧
    (1 / 2 : Dbl) = Dbl.fin false (2 ^ 1073) ∧
    ∃ (k : Nat) (a1 : Dbl),
      (k : Int) = ⌊((Dbl.fin false (2 ^ 1070)).toRat + (Dbl.fin false (2 ^ 1073)).toRat)
        * (Dbl.fin false (2 ^ 1077)).toRat⌋ ∧
      produceTrack 10 (Dbl.fin false (2 ^ 1073))
          { anim := some 0,
            st := { total := 5, customFps := 8, accum := Dbl.fin false (2 ^ 1070) } }
        = some { anim := some 0,
                 st := ((frameBody (1 / 8))^[k]
                   { total := 5, customFps := 8,
                     accum := Dbl.fin false (2 ^ 1070) + Dbl.fin false (2 ^ 1073) }) } ∧
      ((frameBody (1 / 8))^[k]
          { total := 5, customFps := 8,
            accum := Dbl.fin false (2 ^ 1070) + Dbl.fin false (2 ^ 1073) }).accum = a1 ∧
      0 ≤ a1.toRat ∧ a1.toRat < 1 / (Dbl.fin false (2 ^ 1077)).toRat :=
  ⟨by decide!, by decide!, by decide!,
   match (produceFrames_fixed_step 10
    { tracks := [(1, { anim := some 0, st := { total := 5, customFps := 8,
                                                accum := Dbl.fin false (2 ^ 1070) } })] } 1
    { anim := some 0, st := { total := 5, customFps := 8, accum := Dbl.fin false (2 ^ 1070) } }
    1077 1070 (2 ^ 1070) (2 ^ 1073)
    rfl rfl rfl (by decide!) (by decide) (by decide) (by decide) (by decide)
    rfl (dvd_refl _) (pow_dvd_pow 2 (by decide)) (by decide!) (by decide!)).1 with
   | ⟨k, a1, h1, h2, _, h4, _, h6, h7, _⟩ => ⟨k, a1, h1, h2, h4, h6, h7⟩⟩

set_option maxRecDepth 100000 in
/-- C16, counterexample: a track of 100 frames at `customFps = 30` with `accum = 0`.
One `produceFrames(2.0)` call returns (for every fuel from 59 on) after exactly 59 runs
of the loop body, the frame index being 59 and not the 60 that 60 runs would give,
whereas `⌊(0 + 2) * 30⌋ = 60`; and a `produceFrames(2^50)` call does not exit the loop
for any fuel, the accumulator `2^50` being unchanged by the subtraction of the
period. -/
theorem produceFrames_fixed_step_counterexample :
    (∀ fuel, 59 ≤ fuel →
      produceFrames fuel 2
          { tracks := [(1, { anim := some 0, st := { total := 100, customFps := 30 } })] }
        = some { tracks := [(1, { anim := some 0, st := ((frameBody (1 / 30))^[59]
                    { total := 100, customFps := 30, accum := 0 + 2 }) })] }) ∧
    ((frameBody (1 / 30))^[59] { total := 100, customFps := 30, accum := 0 + 2 }).curFrame = 59 ∧
    ((frameBody (1 / 30))^[60] { total := 100, customFps := 30, accum := 0 + 2 }).curFrame = 60 ∧
    useFps { total := 100, customFps := 30 } = 30 ∧
    ⌊(Dbl.toRat 0 + Dbl.toRat 2) * Dbl.toRat 30⌋ = 60 ∧
    (∀ fuel, produceFrames fuel 1125899906842624
        { tracks := [(1, { anim := some 0, st := { total := 100, customFps := 30 } })] }
      = none) := by
  have hno : ¬ (30 : Dbl) ≤ 0 := by decide!
  have hu : useFps { total := 100, customFps := 30 } = 30 := rfl
  refine ⟨?_, ?_, ?_, rfl, ?_, ?_⟩
  · intro fuel hfuel
    have hloop := frameLoop_thirty { total := 100, customFps := 30, accum := 0 + 2 } rfl fuel hfuel
    refine produceFrames_single fuel 1 2 _ _ ?_
    unfold produceTrack
    simp only [Option.isNone_some, Bool.false_eq_true, if_false, hu, hno, if_true]
    rw [hloop]
  · rw [iterate_frameBody_cur_loop (1 / 30) 59
      { total := 100, customFps := 30, accum := 0 + 2 } rfl (by decide) (by decide) (by decide)]
    decide
  · rw [iterate_frameBody_cur_loop (1 / 30) 60
      { total := 100, customFps := 30, accum := 0 + 2 } rfl (by decide) (by decide) (by decide)]
    decide
  · have h0 : Dbl.toRat 0 = 0 := by
      rw [Dbl.zero_eq, Dbl.toRat_fin]
      simp
    rw [h0, Dbl.toRat_two.1, Dbl.toRat_two.2]
    norm_num
  · intro fuel
    have hstuck := frameLoop_stuck (1 / 30) fuel
      { total := 100, customFps := 30, accum := 0 + 1125899906842624 } (by decide!) (by decide!)
    have hp : produceTrack fuel 1125899906842624
        { anim := some 0, st := { total := 100, customFps := 30 } } = none := by
      unfold produceTrack
      simp only [Option.isNone_some, Bool.false_eq_true, if_false, hu, hno, if_true]
      rw [hstuck]
    simp [produceFrames, produceTracks, hp]

/-- The calls of `uploadAndDraw`: one draw call, the last one; no texture is generated
and the texture of the track is kept. -/
theorem uploadAndDraw_calls (rl : Rlottie) (pos size : ImVec2) (tr : Track) (g : Gfx) :
    drawCalls (uploadAndDraw rl pos size tr g).2.log = drawCalls g.log + 1 ∧
    genCalls (uploadAndDraw rl pos size tr g).2.log = genCalls g.log ∧
    (uploadAndDraw rl pos size tr g).2.log.getLast? = some (Event.Image tr.tex.id size) ∧
    (uploadAndDraw rl pos size tr g).1.tex = tr.tex := by
  unfold uploadAndDraw
  dsimp only
  by_cases hu : tr.st.uploadedOnce = false
  · rw [if_pos hu]
    simp [Gfx.emit, drawCalls, genCalls, List.filter_append, Event.isImage]
  · rw [if_neg hu]
    simp [Gfx.emit, drawCalls, genCalls, List.filter_append, Event.isImage]

/-- The calls of `ensureTexture`: no draw call; one `glGenTextures` exactly when the
track had no texture or one of another size. -/
theorem ensureTexture_calls (size : ImVec2) (tr tr1 : Track) (g g1 : Gfx)
    (h : ensureTexture size tr g = some (tr1, g1)) :
    drawCalls g1.log = drawCalls g.log ∧
    ((tr.tex.id = 0 ∨ tr.tex.w ≠ truncInt size.x ∨ tr.tex.h ≠ truncInt size.y) →
      genCalls g1.log = genCalls g.log + 1) ∧
    (¬ (tr.tex.id = 0 ∨ tr.tex.w ≠ truncInt size.x ∨ tr.tex.h ≠ truncInt size.y) →
      genCalls g1.log = genCalls g.log) := by
  rcases ensureTexture_cases size tr tr1 g g1 h with ⟨hc, -, -, hg⟩ | ⟨hc, -, hg⟩
  · rw [hg]
    refine ⟨?_, fun _ => ?_, fun hn => absurd hc hn⟩
    · by_cases hid : tr.tex.id ≠ 0
      · rw [if_pos hid]
        simp [drawCalls, List.filter_append, Event.isImage]
      · rw [if_neg hid]
        simp [drawCalls, List.filter_append, Event.isImage]
    · by_cases hid : tr.tex.id ≠ 0
      · rw [if_pos hid]
        simp [genCalls, List.filter_append]
      · rw [if_neg hid]
        simp [genCalls, List.filter_append]
  · rw [hg]
    exact ⟨rfl, fun hy => absurd hy hc, fun _ => rfl⟩

/-- A reallocation whose byte count `w * h * 4` is negative gives no result. -/
theorem ensureTexture_negative (size : ImVec2) (tr : Track) (g : Gfx)
    (hc : tr.tex.id = 0 ∨ tr.tex.w ≠ truncInt size.x ∨ tr.tex.h ≠ truncInt size.y)
    (hneg : truncInt size.x * truncInt size.y * 4 < 0) :
    ensureTexture size tr g = none := by
  cases he : ensureTexture size tr g with
  | none => rfl
  | some s =>
    obtain ⟨tr1, g1⟩ := s
    rcases ensureTexture_cases size tr tr1 g g1 he with ⟨-, h0, -, -⟩ | ⟨hn, -, -⟩
    · omega
    · exact absurd hc hn

/-- A draw request on a track with a decoded handle, at a size `renderAt` can serve:
the texture has the truncated size afterwards and one draw call is emitted. -/
theorem draw_loaded_sized (rl : Rlottie) (pid : Nat) (data : List Nat) (sz : ImVec2)
    (loop play : Bool) (prerender customFps : Int) (pos : ImVec2) (r : Renderer) (g : Gfx)
    (t : Track) (hfind : tracksFind pid r.tracks = some t) (hanim : t.anim.isSome = true)
    (hsz : sizeOk sz) :
    ∃ r1 g1 t1,
      apiDrawMem rl pid data sz loop play prerender customFps pos r g = some (r1, g1) ∧
      r1.queue = r.queue ∧ tracksFind pid r1.tracks = some t1 ∧
      t1.tex.id ≠ 0 ∧ t1.tex.w = truncInt sz.x ∧ t1.tex.h = truncInt sz.y ∧
      drawCalls g1.log = drawCalls g.log + 1 ∧
      g1.log.getLast? = some (Event.Image t1.tex.id sz) ∧
      ((t.tex.id = 0 ∨ t.tex.w ≠ truncInt sz.x ∨ t.tex.h ≠ truncInt sz.y) →
        genCalls g1.log = genCalls g.log + 1) := by
  have hfind1 : tracksFind pid (tracksModify pid (setFlags loop play customFps) r.tracks)
      = some (setFlags loop play customFps t) := by
    rw [tracksFind_modify, if_pos rfl, hfind]
    rfl
  obtain ⟨tr1, g1, hens⟩ := ensureTexture_isSome sz
    { setFlags loop play customFps t with
      st := { (setFlags loop play customFps t).st with size := sz } } g hsz
  obtain ⟨-, k2, k3, k4, -⟩ := ensureTexture_keeps _ _ tr1 g g1 hens
  have hpitch : inInt (tr1.tex.w * 4) := by
    rw [k3]
    exact hsz.2.2.1
  have hnone : (setFlags loop play customFps t).anim.isNone = false := by
    show t.anim.isNone = false
    cases ha : t.anim with
    | none => rw [ha] at hanim; exact absurd hanim (by simp)
    | some a => rfl
  obtain ⟨c1, c2, -⟩ := ensureTexture_calls _ _ tr1 g g1 hens
  obtain ⟨u1, u2, u3, u4⟩ := uploadAndDraw_calls rl pos sz tr1 g1
  refine ⟨{ queue := r.queue,
             tracks := tracksModify pid (fun _ => (uploadAndDraw rl pos sz tr1 g1).1)
               (tracksModify pid (setFlags loop play customFps) r.tracks) },
    (uploadAndDraw rl pos sz tr1 g1).2, (uploadAndDraw rl pos sz tr1 g1).1,
    ?_, rfl, ?_, ?_, ?_, ?_, ?_, ?_, ?_⟩
  · rw [apiDrawMem_seen rl pid data sz loop play prerender customFps pos r g t hfind]
    exact renderAt_loaded rl pid pos sz _ g _ tr1 g1 hfind1 hnone hens hpitch
  · show tracksFind pid (tracksModify pid (fun _ => (uploadAndDraw rl pos sz tr1 g1).1)
      (tracksModify pid (setFlags loop play customFps) r.tracks)) = _
    rw [tracksFind_modify, if_pos rfl, hfind1]
    rfl
  · rw [u4]
    exact k2
  · rw [u4]
    exact k3
  · rw [u4]
    exact k4
  · rw [u1, c1]
  · rw [u3, u4]
  · intro hc
    rw [u2]
    exact c2 hc

/-- A draw request on a track with a decoded handle whose texture has to be reallocated
at a size with a negative byte count gives no result. -/
theorem draw_loaded_negative (rl : Rlottie) (pid : Nat) (data : List Nat) (sz : ImVec2)
    (loop play : Bool) (prerender customFps : Int) (pos : ImVec2) (r : Renderer) (g : Gfx)
    (t : Track) (hfind : tracksFind pid r.tracks = some t) (hanim : t.anim.isSome = true)
    (hc : t.tex.id = 0 ∨ t.tex.w ≠ truncInt sz.x ∨ t.tex.h ≠ truncInt sz.y)
    (hneg : truncInt sz.x * truncInt sz.y * 4 < 0) :
    apiDrawMem rl pid data sz loop play prerender customFps pos r g = none := by
  have hfind1 : tracksFind pid (tracksModify pid (setFlags loop play customFps) r.tracks)
      = some (setFlags loop play customFps t) := by
    rw [tracksFind_modify, if_pos rfl, hfind]
    rfl
  have hnone : (setFlags loop play customFps t).anim.isNone = false := by
    show t.anim.isNone = false
    cases ha : t.anim with
    | none => rw [ha] at hanim; exact absurd hanim (by simp)
    | some a => rfl
  have hens := ensureTexture_negative sz
    { setFlags loop play customFps t with
      st := { (setFlags loop play customFps t).st with size := sz } } g hc hneg
  rw [apiDrawMem_seen rl pid data sz loop play prerender customFps pos r g t hfind]
  unfold renderAt
  rw [hfind1]
  dsimp only
  rw [hnone]
  simp only [Bool.false_eq_true, if_false]
  rw [hens]

/-- C7 (amended): the draw request does not validate its arguments; invalid arguments
are caught, if at all, where the decoder is called. A draw request with an empty
content buffer for an unseen identifier, at any size, still creates the track (no
decoded handle, no texture) and queues `Load(id, [])`, but makes no graphics call and
emits no draw call; that Load, when applied, leaves the renderer and the graphics
context unchanged. For an identifier that has a track the content buffer is not
looked at: on a track with no decoded handle the request only stores the flags and
makes no graphics call, whatever the size; on a track with a decoded handle, at any
size whose truncated width, height, pitch and byte count `w * h * 4` are `int` values
with a non-negative byte count (width or height zero included), the request leaves the
queue unchanged, leaves the texture at that size (generating a texture when the track
had none or one of another size) and emits one draw call; when the texture has to be
reallocated and the byte count is negative the request gives no result. The only
check of the dimensions is in `animationRenderSync`, which leaves the staging buffer
unchanged for a non-positive width or height. -/
theorem draw_invalid_arguments (rl : Rlottie) (pid : Nat) (sz : ImVec2) (loop play : Bool)
    (prerender customFps : Int) (pos : ImVec2) (r : Renderer) (g : Gfx)
    (hnew : tracksFind pid r.tracks = none) :
    apiDrawMem rl pid [] sz loop play prerender customFps pos r g
      = some ({ queue := r.queue ++ [{ type := CmdType.LOAD_MEM, pid := pid, mem := [] }],
                tracks := (pid, { st := { loop := loop, play := play, customFps := customFps } })
                  :: r.tracks }, g) ∧
    (∀ (r1 : Renderer) (g1 : Gfx),
      applyCmd rl (r1, g1) { type := CmdType.LOAD_MEM, pid := pid, mem := [] } = (r1, g1)) ∧
    (∀ (r0 : Renderer) (g0 : Gfx) (t : Track) (data data1 : List Nat) (sz0 : ImVec2),
      tracksFind pid r0.tracks = some t →
      apiDrawMem rl pid data sz0 loop play prerender customFps pos r0 g0
        = apiDrawMem rl pid data1 sz0 loop play prerender customFps pos r0 g0) ∧
    (∀ (r0 : Renderer) (g0 : Gfx) (t : Track) (data : List Nat) (sz0 : ImVec2),
      tracksFind pid r0.tracks = some t → t.anim = none →
      apiDrawMem rl pid data sz0 loop play prerender customFps pos r0 g0
        = some ({ queue := r0.queue,
                  tracks := tracksModify pid (setFlags loop play customFps) r0.tracks }, g0)) ∧
    (∀ (r0 : Renderer) (g0 : Gfx) (t : Track) (data : List Nat) (sz0 : ImVec2),
      tracksFind pid r0.tracks = some t → t.anim.isSome = true → sizeOk sz0 →
      ∃ r1 g1 t1,
        apiDrawMem rl pid data sz0 loop play prerender customFps pos r0 g0 = some (r1, g1) ∧
        r1.queue = r0.queue ∧ tracksFind pid r1.tracks = some t1 ∧
        t1.tex.id ≠ 0 ∧ t1.tex.w = truncInt sz0.x ∧ t1.tex.h = truncInt sz0.y ∧
        drawCalls g1.log = drawCalls g0.log + 1 ∧
        g1.log.getLast? = some (Event.Image t1.tex.id sz0) ∧
        ((t.tex.id = 0 ∨ t.tex.w ≠ truncInt sz0.x ∨ t.tex.h ≠ truncInt sz0.y) →
          genCalls g1.log = genCalls g0.log + 1)) ∧
    (∀ (r0 : Renderer) (g0 : Gfx) (t : Track) (data : List Nat) (sz0 : ImVec2),
      tracksFind pid r0.tracks = some t → t.anim.isSome = true →
      (t.tex.id = 0 ∨ t.tex.w ≠ truncInt sz0.x ∨ t.tex.h ≠ truncInt sz0.y) →
      truncInt sz0.x * truncInt sz0.y * 4 < 0 →
      apiDrawMem rl pid data sz0 loop play prerender customFps pos r0 g0 = none) ∧
    (∀ (a : Option Nat) (frameIndex : Int) (dst : List Nat) (w h : Int), w ≤ 0 ∨ h ≤ 0 →
      animationRenderSync rl a frameIndex dst w h = dst) := by
  refine ⟨apiDrawMem_unseen rl pid [] sz loop play prerender customFps pos r g hnew,
    ?_, ?_, ?_, ?_, ?_, ?_⟩
  · intro r1 g1
    simp only [applyCmd]
    rw [onLoadMem_empty rl _ r1 rfl]
  · intro r0 g0 t data data1 sz0 hf
    rw [apiDrawMem_seen rl pid data sz0 loop play prerender customFps pos r0 g0 t hf,
      apiDrawMem_seen rl pid data1 sz0 loop play prerender customFps pos r0 g0 t hf]
  · intro r0 g0 t data sz0 hf hnone
    rw [apiDrawMem_seen rl pid data sz0 loop play prerender customFps pos r0 g0 t hf]
    refine renderAt_pending rl pid pos sz0 _ g0 ?_
    intro u hu
    rw [tracksFind_modify, if_pos rfl, hf] at hu
    rw [← Option.some.inj hu]
    exact hnone
  · intro r0 g0 t data sz0 hf ha hsz
    exact draw_loaded_sized rl pid data sz0 loop play prerender customFps pos r0 g0 t hf ha hsz
  · intro r0 g0 t data sz0 hf ha hc hneg
    exact draw_loaded_negative rl pid data sz0 loop play prerender customFps pos r0 g0 t hf ha
      hc hneg
  · intro a frameIndex dst w h hwh
    cases a with
    | none => rfl
    | some x =>
      simp only [animationRenderSync]
      by_cases he : dst.isEmpty = true
      · rw [if_pos he]
      · rw [if_neg he, if_pos hwh]

/-- C7, instance: an empty buffer drawn under the unseen identifier 1. -/
theorem draw_invalid_arguments_witness :
    apiDrawMem sampleRlottie 1 [] ⟨0, -3⟩ true true 0 0 ⟨0, 0⟩ {} {}
      = some ({ queue := [] ++ [{ type := CmdType.LOAD_MEM, pid := 1, mem := [] }],
                tracks := (1, { st := { loop := true, play := true, customFps := 0 } }) :: [] },
              {}) :=
  (draw_invalid_arguments sampleRlottie 1 ⟨0, -3⟩ true true 0 0 ⟨0, 0⟩ {} {} rfl).1

set_option maxRecDepth 100000 in
/-- C7, counterexample: neither kind of invalid argument makes the draw request a
no-op. A draw request with an empty content buffer on the empty, initialised renderer
leaves a Load in the command queue and a track in the track store. And on the sample
track, loaded by a draw and a Sync, a draw request with an empty buffer at the size
0 x 0 generates a texture, stores it in the track and emits a draw call, while a draw
request at the size -1 x 5 gives no result (`resize` is asked for `(size_t)(-20)`
bytes). -/
theorem draw_empty_buffer_counterexample :
    apiDrawMem sampleRlottie 1 [] ⟨100, 100⟩ true true 0 0 ⟨0, 0⟩ {} {}
      = some ({ queue := [{ type := CmdType.LOAD_MEM, pid := 1, mem := [] }],
                tracks := [(1, {})] }, {}) ∧
    apiDrawMem sampleRlottie 1 [] ⟨100, 100⟩ true true 0 0 ⟨0, 0⟩ {} {}
      ≠ some ({ queue := [], tracks := [] }, {}) ∧
    run sampleRlottie 5 ({}, {})
        [Call.draw 1 [123] ⟨2, 1⟩ true true 0 0 ⟨0, 0⟩, Call.sync (1 / 2)]
      = some ({ tracks := [(1, { anim := some 0, st := { fps := 5, total := 5, duration := 1, accum := 1 / 2 - 1 / 5 - 1 / 5, curFrame := 2 } })] }, {}) ∧
    apiDrawMem sampleRlottie 1 [] ⟨0, 0⟩ true true 0 0 ⟨0, 0⟩
        { tracks := [(1, { anim := some 0, st := { fps := 5, total := 5, duration := 1, accum := 1 / 2 - 1 / 5 - 1 / 5, curFrame := 2 } })] } {}
      = some ({ tracks := [(1, { anim := some 0, st := { fps := 5, total := 5, duration := 1, accum := 1 / 2 - 1 / 5 - 1 / 5, curFrame := 2, size := ⟨0, 0⟩, uploadedOnce := true }, tex := { id := 1, w := 0, h := 0 } })] },
              { generated := 1,
                log := [Event.glGenTextures 1, Event.glBindTexture 1, Event.glTexParameteri,
                  Event.glTexParameteri, Event.glTexParameteri, Event.glTexParameteri,
                  Event.glBindTexture 0, Event.glBindTexture 1, Event.glPixelStorei,
                  Event.glTexImage2D 0 0 [], Event.glBindTexture 0,
                  Event.SetCursorScreenPos ⟨0, 0⟩, Event.Image 1 ⟨0, 0⟩] }) ∧
    apiDrawMem sampleRlottie 1 [] ⟨-1, 5⟩ true true 0 0 ⟨0, 0⟩
        { tracks := [(1, { anim := some 0, st := { fps := 5, total := 5, duration := 1, accum := 1 / 2 - 1 / 5 - 1 / 5, curFrame := 2 } })] } {}
      = none :=
  ⟨by decide!, by decide!, sampleRun_loaded, by decide!, by decide!⟩

end ImLottie
